import Mathlib

/-!
# cgship2.0: the mesh subsystem (`src/agl.h`, `src/mesh.cxx`), the game state
machine (`src/game.cxx`) and the coordinate generator (`src/coord_system.cxx`)

A shallow embedding of the triangle mesh of the game and of its Wavefront
importer `loadMesh`, of the state machine of `Game` and of `genCoord2D`,
followed by theorems about them.

Modelling conventions

* `float` is an abstract scalar type `F`.  The bodies of the `Point3` member
  functions are not part of the sources at hand (only their declarations in
  `agl.h` are), so unary minus, `+=`, binary minus, the cross product
  `operator%` and `normalize` are fields of a record `Point3Ops F`, and the
  `%f` conversion of `fscanf` is a field of `Stdio F`.
* A `Vertex*` held by a `Face` is the index of the vertex in `m_verts`; the
  vector is sized once (`resize`) before the first face is built and never
  resized afterwards, so an index and an address name the same vertex.
* The file is the list of its bytes, each a `Char`; `fscanf`, `sscanf` and
  `fgets` are functions on the unread rest of that list.  The theorems about
  whole files are stated for files of ASCII characters, where characters and
  bytes are the same.
* Locals that are declared without an initial value start from caller supplied
  values (`Indeterminate`).
* Undefined behaviour (subscript out of range, more than 127 characters
  written to `buf[128]`) is a `Fault`.  A numeral read by `%d` is stored as
  the C library at hand stores it in an `int` (`toInt32`).
* In `game.cxx`, times are whole numbers of ticks; the member functions and
  constants it uses without defining them are fields of a record `Externals`,
  and what a step learns from the clock and the scene is a record `Sensed`.
* In `coord_system.cxx`, the random draws are arguments, and `cos`, `sin` and
  the product are fields of a record `Libm F`.
-/

namespace agl

/-! ## Records of `agl.h` -/

/-- The struct `Point3`: three `float` fields. -/
structure Point3 (F : Type) where
  x : F
  y : F
  z : F
deriving DecidableEq, Repr

/-- The alias `Vec3` of `Point3`. -/
abbrev Vec3 (F : Type) : Type := Point3 F

/-- The struct `Normal3` derives from `Vec3` and adds no field. -/
abbrev Normal3 (F : Type) : Type := Vec3 F

/-- Modelled from the spec: the constructor `Point3(x, y, z)` (declared in
`agl.h` with defaults `0.0f`, body not in the sources) stores its three
arguments; with no argument it is the origin. -/
def Point3.origin {F : Type} [Zero F] : Point3 F := ⟨0, 0, 0⟩

/-- The struct `Vertex`: a position and a normal. -/
structure Vertex (F : Type) where
  point : Point3 F
  normal : Normal3 F
deriving DecidableEq, Repr

/-- Modelled from the spec: the constructor `Vertex(const Point3 &p = Point3())`
(body not in the sources): position set, normal initialised to zero. -/
def Vertex.ofPoint {F : Type} [Zero F] (p : Point3 F) : Vertex F :=
  { point := p, normal := Point3.origin }

/-- The struct `Face`: `verts[0]`, `verts[1]`, `verts[2]` (as slots of the
vertex store) and the stored face normal. -/
structure Face (F : Type) where
  v0 : Nat
  v1 : Nat
  v2 : Nat
  normal : Normal3 F
deriving DecidableEq, Repr

/-- The array `verts` of a face, in stored order. -/
def Face.verts {F : Type} (f : Face F) : List Nat := [f.v0, f.v1, f.v2]

/-- The class `Mesh`. -/
structure Mesh (F : Type) where
  m_verts : List (Vertex F)
  m_faces : List (Face F)
  bbmin : Point3 F
  bbmax : Point3 F
deriving DecidableEq, Repr

/-- The member functions of `Point3` that `mesh.cxx` and `agl.h` call; their
bodies are not in the sources, so they are parameters of the development. -/
structure Point3Ops (F : Type) where
  /-- The unary `operator-`. -/
  neg : Point3 F → Point3 F
  /-- The value left in the left operand by `operator+=`. -/
  addAssign : Point3 F → Point3 F → Point3 F
  /-- The binary `operator-`. -/
  sub : Point3 F → Point3 F → Point3 F
  /-- The cross product `operator%`. -/
  cross : Point3 F → Point3 F → Point3 F
  /-- The member `normalize`. -/
  normalize : Point3 F → Point3 F

/-- What the C library contributes on `float`s. -/
structure Stdio (F : Type) where
  /-- One `%f` conversion on input that starts with a character that is not
  white space: the value read (if any) and the unread rest. -/
  scanFloat : List Char → Option F × List Char
  /-- The macro `INFINITY`. -/
  INFINITY : F
  /-- Negation of a `float`, as in `-INFINITY`. -/
  fneg : F → F

/-- Ways in which a run leaves defined behaviour or ends the process. -/
inductive Fault where
  /-- A subscript of `m_verts` outside `0 .. size-1`. -/
  | outOfRange
  /-- A token of 128 characters or more stored into `buf[128]` by `%s`. -/
  | bufferOverflow
  /-- The call `exit(EXIT_FAILURE)`. -/
  | exitFailure
  /-- The model ran out of loop fuel (no run of the program does). -/
  | outOfFuel
deriving DecidableEq, Repr

/-! ## `Face::computeNormal`, `Mesh::computeNormalsPerVertex` -/

/-- The value `Face::computeNormal` stores: `-((p1 - p0) % (p2 - p0)).normalize()`;
the member call binds tighter than the unary minus. -/
def computeNormal {F : Type} (ops : Point3Ops F) (p0 p1 p2 : Point3 F) : Normal3 F :=
  ops.neg (ops.normalize (ops.cross (ops.sub p1 p0) (ops.sub p2 p0)))

/-- Apply `f` to the element in slot `i`; no effect when there is no such slot. -/
def updateAt {α : Type} (f : α → α) : Nat → List α → List α
  | _, [] => []
  | 0, a :: l => f a :: l
  | i + 1, a :: l => a :: updateAt f i l

/-- Phase two of `computeNormalsPerVertex` for one face:
`vertex->normal += face.normal` for the three vertices in stored order. -/
def accumulateFace {F : Type} (ops : Point3Ops F) (verts : List (Vertex F)) (f : Face F) :
    List (Vertex F) :=
  f.verts.foldl
    (fun vs i => updateAt (fun v => { v with normal := ops.addAssign v.normal f.normal }) i vs)
    verts

/-- The function `Mesh::computeNormalsPerVertex`: reset, accumulate over the
faces, renormalise. -/
def computeNormalsPerVertex {F : Type} [Zero F] (ops : Point3Ops F) (m : Mesh F) : Mesh F :=
  let reset := m.m_verts.map (fun v => { v with normal := Point3.origin })
  let summed := m.m_faces.foldl (accumulateFace ops) reset
  { m with m_verts := summed.map (fun v => { v with normal := ops.normalize v.normal }) }

/-! ## `Mesh::computeBoundingBox`, `Mesh::init` -/

/-- The function `std::min`: `(b < a) ? b : a`. -/
def stdMin {F : Type} [LT F] [DecidableRel (fun a b : F => a < b)] (a b : F) : F :=
  if b < a then b else a

/-- The function `std::max`: `(a < b) ? b : a`. -/
def stdMax {F : Type} [LT F] [DecidableRel (fun a b : F => a < b)] (a b : F) : F :=
  if a < b then b else a

/-- The six locals of `computeBoundingBox`. -/
structure Extrema (F : Type) where
  min_x : F
  min_y : F
  min_z : F
  max_x : F
  max_y : F
  max_z : F
deriving DecidableEq, Repr

/-- The values held by `min_x`, `min_y`, `max_x`, `max_y` when the scan starts:
the declarations `float min_x, min_y, min_z = INFINITY;` and
`float max_x, max_y, max_z = -INFINITY;` initialise the last declarator only. -/
structure BoxGarbage (F : Type) where
  min_x : F
  min_y : F
  max_x : F
  max_y : F
deriving DecidableEq, Repr

/-- The body of the loop of `computeBoundingBox`. -/
def boxStep {F : Type} [LT F] [DecidableRel (fun a b : F => a < b)]
    (e : Extrema F) (v : Vertex F) : Extrema F :=
  { min_x := stdMin e.min_x v.point.x
    min_y := stdMin e.min_y v.point.y
    min_z := stdMin e.min_z v.point.z
    max_x := stdMax e.max_x v.point.x
    max_y := stdMax e.max_y v.point.y
    max_z := stdMax e.max_z v.point.z }

/-- The function `Mesh::computeBoundingBox`. -/
def computeBoundingBox {F : Type} [LT F] [DecidableRel (fun a b : F => a < b)]
    (io : Stdio F) (g : BoxGarbage F) (m : Mesh F) : Mesh F :=
  let start : Extrema F :=
    { min_x := g.min_x, min_y := g.min_y, min_z := io.INFINITY
      max_x := g.max_x, max_y := g.max_y, max_z := io.fneg io.INFINITY }
  let e := m.m_verts.foldl boxStep start
  { m with bbmin := ⟨e.min_x, e.min_y, e.min_z⟩, bbmax := ⟨e.max_x, e.max_y, e.max_z⟩ }

/-- The function `Mesh::init`. -/
def init {F : Type} [Zero F] [LT F] [DecidableRel (fun a b : F => a < b)]
    (ops : Point3Ops F) (io : Stdio F) (g : BoxGarbage F) (m : Mesh F) : Mesh F :=
  computeBoundingBox io g (computeNormalsPerVertex ops m)

/-! ## Rendering: the stream of GL calls -/

/-- The calls a render function issues, in order. -/
inductive GLCall (F : Type) where
  | glDisableTexture2D
  | glColor3f (r g b : ℚ)
  | glLineWidth (w : ℚ)
  | glBeginLineLoop
  | glBeginTriangles
  | glEnd
  /-- What `Normal3::render` sends. -/
  | normal (n : Normal3 F)
  /-- The position a `Vertex::render` sends. -/
  | vertex (p : Point3 F)
deriving DecidableEq, Repr

/-- Modelled from the spec: `Normal3::render` (body not in the sources) sends
the normal. -/
def Normal3.render {F : Type} (n : Normal3 F) : List (GLCall F) := [GLCall.normal n]

/-- Modelled from the spec: `Vertex::render(send_normal)` (body not in the
sources) sends the vertex normal when `send_normal` is set, then the position. -/
def Vertex.render {F : Type} (v : Vertex F) (send_normal : Bool) : List (GLCall F) :=
  (if send_normal then Normal3.render v.normal else []) ++ [GLCall.vertex v.point]

/-- The calls of `vert->render(b)` for the three vertices of a face; a slot
outside the store sends nothing. -/
def renderFaceVerts {F : Type} (m : Mesh F) (f : Face F) (send_normal : Bool) :
    List (GLCall F) :=
  f.verts.flatMap (fun i =>
    match m.m_verts[i]? with
    | some v => Vertex.render v send_normal
    | none => [])

/-- The function `Mesh::renderWire`. -/
def renderWire {F : Type} (m : Mesh F) : List (GLCall F) :=
  [GLCall.glLineWidth 1, GLCall.glBeginLineLoop]
    ++ m.m_faces.flatMap (fun f => Normal3.render f.normal ++ renderFaceVerts m f false)
    ++ [GLCall.glEnd]

/-- The function `Mesh::render`. -/
def render {F : Type} (m : Mesh F) (wireframe_on goraud_shading : Bool) : List (GLCall F) :=
  (if wireframe_on then
      [GLCall.glDisableTexture2D, GLCall.glColor3f (1/2) (1/2) (1/2)] ++ renderWire m
        ++ [GLCall.glColor3f 1 1 1]
    else [])
  ++ [GLCall.glBeginTriangles]
  ++ (if goraud_shading then
        let send_normals := goraud_shading
        m.m_faces.flatMap (fun f =>
          (if !send_normals then Normal3.render f.normal else [])
            ++ renderFaceVerts m f send_normals)
      else [])
  ++ [GLCall.glEnd]

/-- The function `Mesh::renderFlat`. -/
def renderFlat {F : Type} (m : Mesh F) (wireframe_on : Bool) : List (GLCall F) :=
  render m wireframe_on false

/-- The function `Mesh::renderGouraud`. -/
def renderGouraud {F : Type} (m : Mesh F) (wireframe_on : Bool) : List (GLCall F) :=
  render m wireframe_on true

/-! ## The C library on the characters of the file -/

/-- The function `isspace` in the C locale. -/
def isspace (c : Char) : Bool :=
  c = ' ' || c = '\t' || c = '\n' || c = '\x0b' || c = '\x0c' || c = '\r'

/-- The function `isascii`: the character is one of the 128 ASCII characters,
which take one byte each. -/
def isascii (c : Char) : Bool := c.toNat < 128

/-- Skip leading white space, as every `%s`, `%d` and `%f` does. -/
def skipSpace (s : List Char) : List Char := s.dropWhile isspace

/-- The size of `char buf[128]`. -/
def BUF_SIZE : Nat := 128

/-- The call `fscanf(file, "%s", buf)`: `none` is the result `EOF`; otherwise
the token stored in `buf` and the unread rest of the file. -/
def scanString (s : List Char) : Option (List Char × List Char) :=
  match skipSpace s with
  | [] => none
  | c :: t =>
    some ((c :: t).takeWhile (fun d => !isspace d), (c :: t).dropWhile (fun d => !isspace d))

/-- The contents of `buf` as a C string: up to the first NUL. -/
def cstr (buf : List Char) : List Char := buf.takeWhile (fun c => c != '\x00')

/-- The rest of the file after reading at most `k` characters that stop after
the first newline. -/
def fgetsGo : Nat → List Char → List Char
  | 0, s => s
  | _ + 1, [] => []
  | k + 1, c :: t => if c = '\n' then t else fgetsGo k t

/-- The call `std::fgets(buf, sizeof(buf), file)`: at most `sizeof(buf) - 1`
characters are read; the result is the unread rest of the file. -/
def fgets (s : List Char) : List Char := fgetsGo (BUF_SIZE - 1) s

/-- The value of a decimal digit. -/
def digitVal (c : Char) : Nat := c.toNat - 48

/-- The value of a string of decimal digits. -/
def decVal (ds : List Char) : Nat := ds.foldl (fun a c => 10 * a + digitVal c) 0

/-- The decimal numeral at the head of the input, as `%d` takes it: white space
is skipped, an optional sign and the longest run of digits are read.  The value
of the numeral as a whole number (none on a matching or input failure) and the
unread rest; a sign that is followed by no digit stays consumed. -/
def scanDecimal (s : List Char) : Option Int × List Char :=
  match skipSpace s with
  | [] => (none, [])
  | c :: t =>
    let body := if c = '-' ∨ c = '+' then t else c :: t
    let ds := body.takeWhile Char.isDigit
    if ds = [] then (none, body)
    else (some (if c = '-' then -(decVal ds : Int) else (decVal ds : Int)),
          body.dropWhile Char.isDigit)

/-- The `int` that `%d` stores for a numeral of value `v`: the C library
converts with `strtol`, which clamps to the range of a 64-bit `long`, and the
`long` is converted to the 32-bit `int` (its low 32 bits, two's complement). -/
def toInt32 (v : Int) : Int :=
  let w : Int := if v < -9223372036854775808 then -9223372036854775808
    else if v > 9223372036854775807 then 9223372036854775807 else v
  (w + 2147483648) % 4294967296 - 2147483648

/-- One `%d` conversion into an `int`: the numeral read by `scanDecimal`,
stored as `toInt32` of its value. -/
def scanInt (s : List Char) : Option Int × List Char :=
  match scanDecimal s with
  | (some v, r) => (some (toInt32 v), r)
  | (none, r) => (none, r)

/-- The directives of the formats used by `loadMesh`: `%d` and a literal
character. -/
inductive Directive where
  | int
  | lit (c : Char)
deriving DecidableEq, Repr

/-- Run a format of `%d` and literal directives: the values assigned, in
order (their number is the result of `fscanf`/`sscanf` when it is positive),
and the unread rest.  A directive that fails ends the call. -/
def scanfInts : List Directive → List Char → List Int × List Char
  | [], s => ([], s)
  | Directive.int :: ds, s =>
    match scanInt s with
    | (some v, r) => let (vs, r2) := scanfInts ds r; (v :: vs, r2)
    | (none, r) => ([], r)
  | Directive.lit c :: ds, s =>
    match s with
    | [] => ([], [])
    | d :: t => if d = c then scanfInts ds t else ([], d :: t)

/-- The format `"%d//%d"`. -/
def fmtVN : List Directive :=
  [Directive.int, Directive.lit '/', Directive.lit '/', Directive.int]

/-- The format `"%d/%d/%d"`. -/
def fmtVTN : List Directive :=
  [Directive.int, Directive.lit '/', Directive.int, Directive.lit '/', Directive.int]

/-- The format `"%d/%d"`. -/
def fmtVT : List Directive := [Directive.int, Directive.lit '/', Directive.int]

/-- The format `"%d"`. -/
def fmtV : List Directive := [Directive.int]

/-- The call `std::strstr(buf, "//")` as a truth value. -/
def hasDoubleSlash : List Char → Bool
  | [] => false
  | [_] => false
  | c :: d :: t => (c = '/' && d = '/') || hasDoubleSlash (d :: t)

/-- The value of the first pointer argument after a call: the first value
assigned, or the old value when nothing was assigned. -/
def firstOr (old : Int) (vals : List Int) : Int := vals.headD old

/-- One `%f` conversion including the white space skipped before it. -/
def scanFloatDirective {F : Type} (io : Stdio F) (s : List Char) : Option F × List Char :=
  match skipSpace s with
  | [] => (none, [])
  | c :: t => io.scanFloat (c :: t)

/-- The call `std::fscanf(file, "%f %f %f", &x, &y, &z)`: the values of `x`,
`y`, `z` after the call and the unread rest. -/
def scanThreeFloats {F : Type} (io : Stdio F) (s : List Char) (x y z : F) :
    (F × F × F) × List Char :=
  match scanFloatDirective io s with
  | (none, r) => ((x, y, z), r)
  | (some a, r) =>
    match scanFloatDirective io r with
    | (none, r2) => ((a, y, z), r2)
    | (some b, r2) =>
      match scanFloatDirective io r2 with
      | (none, r3) => ((a, b, z), r3)
      | (some c, r3) => ((a, b, c), r3)

/-! ## `loadMesh` -/

/-- The locals of `loadMesh` that are read after being written, and the mesh
`ret` under construction.  (`na .. nd` and `ta .. td` are only ever written.) -/
structure LoadState (F : Type) where
  nv : Nat
  nf : Nat
  nt : Nat
  va : Int
  vb : Int
  vc : Int
  vd : Int
  x : F
  y : F
  z : F
  ret : Mesh F
deriving DecidableEq, Repr

/-- The values of the locals that `loadMesh`, `init` and the final
`computeBoundingBox` declare without initialising. -/
structure Indeterminate (F : Type) where
  va : Int
  vb : Int
  vc : Int
  vd : Int
  x : F
  y : F
  z : F
  box1 : BoxGarbage F
  box2 : BoxGarbage F
deriving DecidableEq, Repr

/-- The subscript `m_verts[i]`: the slot and the vertex there. -/
def vertexAt {F : Type} (verts : List (Vertex F)) (i : Int) : Except Fault (Nat × Vertex F) :=
  if 0 ≤ i then
    match verts[i.toNat]? with
    | some v => Except.ok (i.toNat, v)
    | none => Except.error Fault.outOfRange
  else Except.error Fault.outOfRange

/-- The constructor `Face(v1, v2, v3)` applied to `&m_verts[a]`, `&m_verts[b]`,
`&m_verts[c]`: the three slots and the normal computed from the positions the
vertices hold now. -/
def mkFace {F : Type} (ops : Point3Ops F) (verts : List (Vertex F)) (a b c : Int) :
    Except Fault (Face F) :=
  match vertexAt verts a, vertexAt verts b, vertexAt verts c with
  | Except.ok (i, p), Except.ok (j, q), Except.ok (k, r) =>
    Except.ok { v0 := i, v1 := j, v2 := k, normal := computeNormal ops p.point q.point r.point }
  | _, _, _ => Except.error Fault.outOfRange

/-- The statement `ret->m_faces.emplace_back(&m_verts[va], &m_verts[vc], &m_verts[vb]);`
followed by `nt++; vb = vc;`. -/
def emplaceFace {F : Type} (ops : Point3Ops F) (st : LoadState F) : Except Fault (LoadState F) :=
  match mkFace ops st.ret.m_verts st.va st.vc st.vb with
  | Except.ok f =>
    Except.ok { st with ret := { st.ret with m_faces := st.ret.m_faces ++ [f] },
                        nt := st.nt + 1, vb := st.vc }
  | Except.error e => Except.error e

/-- A counting loop of pass 1, `while (fscanf(file, fmt, &v, ..) > 0) nt++;`:
the final `nt`, the final value of `v` and the unread rest. -/
def countLoop (fmt : List Directive) : Nat → List Char → Nat → Int →
    Except Fault (Nat × Int × List Char)
  | 0, _, _, _ => Except.error Fault.outOfFuel
  | fuel + 1, s, nt, v =>
    match scanfInts fmt s with
    | ([], r) => Except.ok (nt, v, r)
    | (a :: _, r) => countLoop fmt fuel r (nt + 1) a

/-- A fan loop of pass 2,
`while (fscanf(file, fmt, &vc, ..) > 0) { vc--; emplace_back(..); nt++; vb = vc; }`. -/
def fanLoop {F : Type} (ops : Point3Ops F) (fmt : List Directive) :
    Nat → List Char → LoadState F → Except Fault (LoadState F × List Char)
  | 0, _, _ => Except.error Fault.outOfFuel
  | fuel + 1, s, st =>
    match scanfInts fmt s with
    | ([], r) => Except.ok (st, r)
    | (a :: _, r) =>
      match emplaceFace ops { st with vc := a - 1 } with
      | Except.ok st2 => fanLoop ops fmt fuel r st2
      | Except.error e => Except.error e

/-- The `case 'f'` of pass 1, after `f` has been read. -/
def facePass1 {F : Type} (tok rest : List Char) (st : LoadState F) :
    Except Fault (LoadState F × List Char) :=
  -- std::fscanf(file, "%s", buf);
  let (buf, s) := match scanString rest with
    | some (t, r) => (t, r)
    | none => (tok, [])
  if BUF_SIZE ≤ buf.length then Except.error Fault.bufferOverflow
  else if hasDoubleSlash (cstr buf) then
    let va := firstOr st.va (scanfInts fmtVN (cstr buf)).1
    let rb := scanfInts fmtVN s
    let rc := scanfInts fmtVN rb.2
    match countLoop fmtVN (rc.2.length + 1) rc.2 (st.nt + 1) st.vd with
    | Except.ok (nt, vd, r) =>
      Except.ok ({ st with va := va, vb := firstOr st.vb rb.1, vc := firstOr st.vc rc.1,
                           nf := st.nf + 1, nt := nt, vd := vd }, r)
    | Except.error e => Except.error e
  else if (scanfInts fmtVTN (cstr buf)).1.length = 3 then
    let va := firstOr st.va (scanfInts fmtVTN (cstr buf)).1
    let rb := scanfInts fmtVTN s
    let rc := scanfInts fmtVTN rb.2
    match countLoop fmtVTN (rc.2.length + 1) rc.2 (st.nt + 1) st.vd with
    | Except.ok (nt, vd, r) =>
      Except.ok ({ st with va := va, vb := firstOr st.vb rb.1, vc := firstOr st.vc rc.1,
                           nf := st.nf + 1, nt := nt, vd := vd }, r)
    | Except.error e => Except.error e
  else if (scanfInts fmtVT (cstr buf)).1.length = 2 then
    -- the failed "%d/%d/%d" has already stored into va what it could read
    let va := firstOr st.va (scanfInts fmtVT (cstr buf)).1
    let rb := scanfInts fmtVT s
    let rc := scanfInts fmtVT rb.2
    match countLoop fmtVT (rc.2.length + 1) rc.2 (st.nt + 1) st.vd with
    | Except.ok (nt, vd, r) =>
      Except.ok ({ st with va := va, vb := firstOr st.vb rb.1, vc := firstOr st.vc rc.1,
                           nf := st.nf + 1, nt := nt, vd := vd }, r)
    | Except.error e => Except.error e
  else
    -- the two failed sscanf calls have stored into va what they could read
    let va0 := firstOr (firstOr st.va (scanfInts fmtVTN (cstr buf)).1)
                 (scanfInts fmtVT (cstr buf)).1
    let ra := scanfInts fmtV s
    let rb := scanfInts fmtV ra.2
    match countLoop fmtV (rb.2.length + 1) rb.2 (st.nt + 1) st.vc with
    | Except.ok (nt, vc, r) =>
      Except.ok ({ st with va := firstOr va0 ra.1, vb := firstOr st.vb rb.1, vc := vc,
                           nf := st.nf + 1, nt := nt }, r)
    | Except.error e => Except.error e

/-- The body of the loop of pass 1 after `fscanf(file, "%s", buf)` has
stored the token `tok`. -/
def pass1Body {F : Type} (tok rest : List Char) (st : LoadState F) :
    Except Fault (LoadState F × List Char) :=
  if BUF_SIZE ≤ tok.length then Except.error Fault.bufferOverflow
  else
    match cstr tok with
    | '#' :: _ => Except.ok (st, fgets rest)
    | ['v'] => Except.ok ({ st with nv := st.nv + 1 }, fgets rest)
    | 'v' :: _ => Except.ok (st, rest)
    | 'f' :: _ => facePass1 tok rest st
    | _ => Except.ok (st, fgets rest)

/-- The first `while (std::fscanf(file, "%s", buf) != EOF)` loop. -/
def pass1 {F : Type} : Nat → List Char → LoadState F → Except Fault (LoadState F)
  | 0, _, _ => Except.error Fault.outOfFuel
  | fuel + 1, s, st =>
    match scanString s with
    | none => Except.ok st
    | some (tok, rest) =>
      match pass1Body tok rest st with
      | Except.ok (st2, s2) => pass1 fuel s2 st2
      | Except.error e => Except.error e

/-- The statements `va--; vb--; vc--;`, the first `emplace_back` with
`nt++; vb = vc;` and the fan loop, shared by the four branches of pass 2. -/
def fanFrom {F : Type} (ops : Point3Ops F) (fmt : List Directive) (s : List Char)
    (st : LoadState F) : Except Fault (LoadState F × List Char) :=
  match emplaceFace ops { st with va := st.va - 1, vb := st.vb - 1, vc := st.vc - 1 } with
  | Except.ok st2 => fanLoop ops fmt (s.length + 1) s st2
  | Except.error e => Except.error e

/-- The `case 'f'` of pass 2, after `f` has been read. -/
def facePass2 {F : Type} (ops : Point3Ops F) (tok rest : List Char) (st : LoadState F) :
    Except Fault (LoadState F × List Char) :=
  -- std::fscanf(file, "%s", buf);
  let (buf, s) := match scanString rest with
    | some (t, r) => (t, r)
    | none => (tok, [])
  if BUF_SIZE ≤ buf.length then Except.error Fault.bufferOverflow
  else if hasDoubleSlash (cstr buf) then
    let va := firstOr st.va (scanfInts fmtVN (cstr buf)).1
    let rb := scanfInts fmtVN s
    let rc := scanfInts fmtVN rb.2
    fanFrom ops fmtVN rc.2
      { st with va := va, vb := firstOr st.vb rb.1, vc := firstOr st.vc rc.1 }
  else if (scanfInts fmtVTN (cstr buf)).1.length = 3 then
    let va := firstOr st.va (scanfInts fmtVTN (cstr buf)).1
    let rb := scanfInts fmtVTN s
    let rc := scanfInts fmtVTN rb.2
    fanFrom ops fmtVTN rc.2
      { st with va := va, vb := firstOr st.vb rb.1, vc := firstOr st.vc rc.1 }
  else if (scanfInts fmtVT (cstr buf)).1.length = 2 then
    -- std::fscanf(file, "%d/%d", &va, &ta); twice: both calls store into va
    let va0 := firstOr st.va (scanfInts fmtVT (cstr buf)).1
    let r1 := scanfInts fmtVT s
    let r2 := scanfInts fmtVT r1.2
    fanFrom ops fmtVT r2.2 { st with va := firstOr (firstOr va0 r1.1) r2.1 }
  else
    let va0 := firstOr (firstOr st.va (scanfInts fmtVTN (cstr buf)).1)
                 (scanfInts fmtVT (cstr buf)).1
    -- std::sscanf(buf, "%d", &va);
    let va := firstOr va0 (scanfInts fmtV (cstr buf)).1
    let rb := scanfInts fmtV s
    let rc := scanfInts fmtV rb.2
    fanFrom ops fmtV rc.2
      { st with va := va, vb := firstOr st.vb rb.1, vc := firstOr st.vc rc.1 }

/-- The statement `ret->m_verts[nv] = Point3(x, y, z);`. -/
def storeVertex {F : Type} [Zero F] (st : LoadState F) : Except Fault (LoadState F) :=
  if st.nv < st.ret.m_verts.length then
    Except.ok { st with
      ret := { st.ret with m_verts := st.ret.m_verts.set st.nv (Vertex.ofPoint ⟨st.x, st.y, st.z⟩) } }
  else Except.error Fault.outOfRange

/-- The body of the loop of pass 2 after `fscanf(file, "%s", buf)` has
stored the token `tok`. -/
def pass2Body {F : Type} [Zero F] (ops : Point3Ops F) (io : Stdio F) (tok rest : List Char)
    (st : LoadState F) : Except Fault (LoadState F × List Char) :=
  if BUF_SIZE ≤ tok.length then Except.error Fault.bufferOverflow
  else
    match cstr tok with
    | '#' :: _ => Except.ok (st, fgets rest)
    | ['v'] =>
      let r := scanThreeFloats io rest st.x st.y st.z
      match storeVertex { st with x := r.1.1, y := r.1.2.1, z := r.1.2.2 } with
      | Except.ok st2 => Except.ok ({ st2 with nv := st2.nv + 1 }, r.2)
      | Except.error e => Except.error e
    | 'v' :: _ => Except.ok (st, rest)
    | 'f' :: _ => facePass2 ops tok rest st
    | _ => Except.ok (st, fgets rest)

/-- The second `while (std::fscanf(file, "%s", buf) != EOF)` loop. -/
def pass2 {F : Type} [Zero F] (ops : Point3Ops F) (io : Stdio F) :
    Nat → List Char → LoadState F → Except Fault (LoadState F)
  | 0, _, _ => Except.error Fault.outOfFuel
  | fuel + 1, s, st =>
    match scanString s with
    | none => Except.ok st
    | some (tok, rest) =>
      match pass2Body ops io tok rest st with
      | Except.ok (st2, s2) => pass2 ops io fuel s2 st2
      | Except.error e => Except.error e

/-- The constructor `Mesh::Mesh() {}`. -/
def Mesh.empty {F : Type} [Zero F] : Mesh F :=
  { m_verts := [], m_faces := [], bbmin := Point3.origin, bbmax := Point3.origin }

/-- The state of `loadMesh` when the first loop starts. -/
def startState {F : Type} [Zero F] (ind : Indeterminate F) : LoadState F :=
  { nv := 0, nf := 0, nt := 0, va := ind.va, vb := ind.vb, vc := ind.vc, vd := ind.vd,
    x := ind.x, y := ind.y, z := ind.z, ret := Mesh.empty }

/-- The statements between the two loops: `ret->m_verts.resize(nv);`,
`rewind(file);`, `nv = 0; nt = 0;`. -/
def betweenPasses {F : Type} [Zero F] (st : LoadState F) : LoadState F :=
  { st with
    ret := { st.ret with
      m_verts := st.ret.m_verts.take st.nv
        ++ List.replicate (st.nv - st.ret.m_verts.length) (Vertex.ofPoint Point3.origin) }
    nv := 0, nt := 0 }

/-- The state of `loadMesh` after the second loop, on the characters of an
opened file. -/
def loadState {F : Type} [Zero F] (ops : Point3Ops F) (io : Stdio F) (ind : Indeterminate F)
    (content : List Char) : Except Fault (LoadState F) :=
  match pass1 (content.length + 1) content (startState ind) with
  | Except.ok st1 => pass2 ops io (content.length + 1) content (betweenPasses st1)
  | Except.error e => Except.error e

/-- The function `loadMesh`.  `file` is what `fopen(filename, "rt")` gives:
`none` for a null pointer, otherwise the bytes of the file, each as a `Char`. -/
def loadMesh {F : Type} [Zero F] [LT F] [DecidableRel (fun a b : F => a < b)]
    (ops : Point3Ops F) (io : Stdio F) (ind : Indeterminate F) (file : Option (List Char)) :
    Except Fault (Mesh F) :=
  match file with
  | none => Except.error Fault.exitFailure
  | some content =>
    match loadState ops io ind content with
    | Except.ok st =>
      -- ret->init(); ret->computeBoundingBox();
      Except.ok (computeBoundingBox io ind.box2 (init ops io ind.box1 st.ret))
    | Except.error e => Except.error e

/-! ## Files written line by line

The theorems about whole files are stated for files given as a list of lines
in the layout of the format: one directive per line, fields separated by one
space, every line ended by a newline. -/

/-- The four ways a corner of a face can be written: `i`, `i/j`, `i//k`,
`i/j/k`. -/
inductive IndexGrammar where
  | v
  | vt
  | vn
  | vtn
deriving DecidableEq, Repr

/-- A corner of a face line: the decimal numerals of its vertex, texture
coordinate and normal indices (the grammar of the line says which are written). -/
structure Corner where
  v : List Char
  t : List Char
  n : List Char
deriving DecidableEq, Repr

/-- A nonempty string of decimal digits. -/
def isNumeral (ds : List Char) : Bool := !ds.isEmpty && ds.all Char.isDigit

/-- The value of the numeral fits an `int`: it is below `2^31`. -/
def fitsInt (ds : List Char) : Bool := decVal ds < 2147483648

/-- The three numerals of a corner are numerals, and their values fit an
`int`. -/
def Corner.wf (c : Corner) : Bool :=
  (isNumeral c.v && isNumeral c.t && isNumeral c.n) && (fitsInt c.v && fitsInt c.t && fitsInt c.n)

/-- The 1-based vertex index a corner denotes. -/
def Corner.index (c : Corner) : Nat := decVal c.v

/-- A corner as written in the file. -/
def Corner.render : IndexGrammar → Corner → List Char
  | IndexGrammar.v, c => c.v
  | IndexGrammar.vt, c => c.v ++ '/' :: c.t
  | IndexGrammar.vn, c => c.v ++ '/' :: '/' :: c.n
  | IndexGrammar.vtn, c => c.v ++ '/' :: (c.t ++ '/' :: c.n)

/-- The corners of a face line, each preceded by one space. -/
def renderCorners (g : IndexGrammar) : List Corner → List Char
  | [] => []
  | c :: cs => ' ' :: (c.render g ++ renderCorners g cs)

/-- The `fscanf` format `loadMesh` uses for a grammar. -/
def IndexGrammar.fmt : IndexGrammar → List Directive
  | IndexGrammar.v => fmtV
  | IndexGrammar.vt => fmtVT
  | IndexGrammar.vn => fmtVN
  | IndexGrammar.vtn => fmtVTN

/-- A line of a file.  A vertex line carries the three literals as written and
the position they denote. -/
inductive Line (F : Type) where
  /-- An empty line. -/
  | blank
  /-- A comment, or a line led by a token that is no directive of the format. -/
  | skip (text : List Char)
  /-- A line led by `v` followed by more letters (`vn`, `vt`, ..), then its
  arguments. -/
  | vdir (kw text : List Char)
  /-- The line `v x y z`. -/
  | vertex (x y z : List Char) (p : Point3 F)
  /-- The line `f c1 c2 c3 ..`. -/
  | face (g : IndexGrammar) (corners : List Corner)

/-- A line as written in the file, newline included. -/
def Line.render {F : Type} : Line F → List Char
  | Line.blank => ['\n']
  | Line.skip text => text ++ ['\n']
  | Line.vdir kw text => 'v' :: (kw ++ ' ' :: (text ++ ['\n']))
  | Line.vertex x y z _ => 'v' :: ' ' :: (x ++ ' ' :: (y ++ ' ' :: (z ++ ['\n'])))
  | Line.face g cs => 'f' :: (renderCorners g cs ++ ['\n'])

/-- The characters of a file. -/
def renderFile {F : Type} : List (Line F) → List Char
  | [] => []
  | l :: ls => l.render ++ renderFile ls

/-- Text that fits on one line and in one `fgets`: ASCII characters, no
newline, at most 126 of them. -/
def fitsLine (text : List Char) : Bool :=
  text.all (fun c => c != '\n' && isascii c) && text.length ≤ 126

/-- The first character of a line `loadMesh` is meant to ignore: not white
space, not `v`, not `f`, and not the start of a number. -/
def skipHead (c : Char) : Bool :=
  !isspace c && c != 'v' && c != 'f' && !c.isDigit && c != '+' && c != '-'

/-- The first character of the arguments of a `vn`/`vt` line: not white space,
not `v`, not `f`. -/
def argHead (c : Char) : Bool := !isspace c && c != 'v' && c != 'f'

/-- The literal `lit` is a number for `%f`: it holds no white space, and `%f`
reads exactly `lit` with value `a` when white space follows. -/
def Stdio.Reads {F : Type} (io : Stdio F) (lit : List Char) (a : F) : Prop :=
  lit ≠ [] ∧ (∀ c ∈ lit, isspace c = false) ∧
    ∀ (c : Char) (r : List Char), isspace c = true →
      io.scanFloat (lit ++ c :: r) = (some a, c :: r)

/-- A line is written as the format asks. -/
def Line.WellFormed {F : Type} (io : Stdio F) : Line F → Prop
  | Line.blank => True
  | Line.skip text => text.head?.any skipHead = true ∧ fitsLine text = true
  | Line.vdir kw text =>
    (!kw.isEmpty && kw.all (fun c => !isspace c && c != '\x00' && isascii c)
        && kw.length ≤ 126) = true ∧
      text.head?.any argHead = true ∧ fitsLine text = true
  | Line.vertex x y z p =>
    io.Reads x p.x ∧ io.Reads y p.y ∧ io.Reads z p.z ∧ x.length + y.length + z.length ≤ 123 ∧
      (x ++ (y ++ z)).all isascii = true
  | Line.face g cs =>
    3 ≤ cs.length ∧ (∀ c ∈ cs, c.wf = true) ∧ ∀ c ∈ cs.head?, (c.render g).length ≤ 127

/-- Every line of the file is written as the format asks. -/
def WellFormedFile {F : Type} (io : Stdio F) (ls : List (Line F)) : Prop :=
  ∀ l ∈ ls, l.WellFormed io

/-- The positions of the `v` lines of a file, in file order. -/
def vertexLines {F : Type} : List (Line F) → List (Point3 F)
  | [] => []
  | Line.vertex _ _ _ p :: ls => p :: vertexLines ls
  | _ :: ls => vertexLines ls

/-- The number of triangles the face lines of a file stand for: the sum of
`N - 2` over the face lines, `N` the number of corners of the line. -/
def triangleCount {F : Type} : List (Line F) → Nat
  | [] => 0
  | Line.face _ cs :: ls => (cs.length - 2) + triangleCount ls
  | _ :: ls => triangleCount ls

/-- The fan over the slots `i0, i1, .., i(N-1)`: `(i0, i2, i1)`, then
`(i0, ik, i(k-1))` for `k = 3 .. N-1`. -/
def fan : List Nat → List (Nat × Nat × Nat)
  | i0 :: i1 :: rest => List.zipWith (fun prev cur => (i0, cur, prev)) (i1 :: rest) rest
  | _ => []

/-- The 0-based slots the corners of a face line denote. -/
def slots (cs : List Corner) : List Nat := cs.map (fun c => c.index - 1)

/-- The face on three slots of a vertex store, with the normal
`Face::computeNormal` derives from the positions in the store. -/
def faceOn {F : Type} [Zero F] (ops : Point3Ops F) (verts : List (Vertex F))
    (t : Nat × Nat × Nat) : Face F :=
  { v0 := t.1, v1 := t.2.1, v2 := t.2.2
    normal := computeNormal ops (verts.getD t.1 (Vertex.ofPoint Point3.origin)).point
      (verts.getD t.2.1 (Vertex.ofPoint Point3.origin)).point
      (verts.getD t.2.2 (Vertex.ofPoint Point3.origin)).point }

/-- No index follows: after white space the input ends or continues with a
character that starts no `%d` conversion. -/
def noIndexAhead (rest : List Char) : Bool :=
  match skipSpace rest with
  | [] => true
  | c :: _ => !c.isDigit && c != '+' && c != '-'

/-! ### What the two passes do to a line -/

/-- The effect of pass 1 on the locals, line by line. -/
def pass1Line {F : Type} (st : LoadState F) : Line F → LoadState F
  | Line.blank => st
  | Line.skip _ => st
  | Line.vdir _ _ => st
  | Line.vertex _ _ _ _ => { st with nv := st.nv + 1 }
  | Line.face g cs =>
    let idx : List Int := cs.map (fun c => (c.index : Int))
    match g with
    | IndexGrammar.v =>
      { st with va := idx.getD 1 st.va, vb := idx.getD 2 st.vb,
                vc := (idx.drop 3).getLastD st.vc,
                nf := st.nf + 1, nt := st.nt + 1 + (cs.length - 3) }
    | _ =>
      { st with va := idx.getD 0 st.va, vb := idx.getD 1 st.vb, vc := idx.getD 2 st.vc,
                vd := (idx.drop 3).getLastD st.vd,
                nf := st.nf + 1, nt := st.nt + 1 + (cs.length - 3) }

/-- The fan loop of pass 2 over the indices that remain on the line. -/
def fanLine {F : Type} (ops : Point3Ops F) : List Int → LoadState F → Except Fault (LoadState F)
  | [], st => Except.ok st
  | a :: more, st =>
    match emplaceFace ops { st with vc := a - 1 } with
    | Except.ok st2 => fanLine ops more st2
    | Except.error e => Except.error e

/-- The effect of pass 2 on the locals and the mesh, line by line. -/
def pass2Line {F : Type} [Zero F] (ops : Point3Ops F) (st : LoadState F) :
    Line F → Except Fault (LoadState F)
  | Line.blank => Except.ok st
  | Line.skip _ => Except.ok st
  | Line.vdir _ _ => Except.ok st
  | Line.vertex _ _ _ p =>
    match storeVertex { st with x := p.x, y := p.y, z := p.z } with
    | Except.ok st2 => Except.ok { st2 with nv := st2.nv + 1 }
    | Except.error e => Except.error e
  | Line.face g cs =>
    let idx : List Int := cs.map (fun c => (c.index : Int))
    let st1 : LoadState F :=
      match g with
      | IndexGrammar.vt => { st with va := idx.getD 2 st.va }
      | _ => { st with va := idx.getD 0 st.va, vb := idx.getD 1 st.vb, vc := idx.getD 2 st.vc }
    match emplaceFace ops { st1 with va := st1.va - 1, vb := st1.vb - 1, vc := st1.vc - 1 } with
    | Except.ok st2 => fanLine ops (idx.drop 3) st2
    | Except.error e => Except.error e

/-- Pass 1 over the lines of a file. -/
def pass1Lines {F : Type} (st : LoadState F) (ls : List (Line F)) : LoadState F :=
  ls.foldl pass1Line st

/-- Pass 2 over the lines of a file. -/
def pass2Lines {F : Type} [Zero F] (ops : Point3Ops F) :
    LoadState F → List (Line F) → Except Fault (LoadState F)
  | st, [] => Except.ok st
  | st, l :: ls =>
    match pass2Line ops st l with
    | Except.ok st2 => pass2Lines ops st2 ls
    | Except.error e => Except.error e

/-- The iterations of the outer loop a line takes. -/
def Line.cost {F : Type} : Line F → Nat
  | Line.blank => 0
  | Line.vdir _ _ => 2
  | _ => 1

/-- The iterations of the outer loop a file takes. -/
def fileCost {F : Type} : List (Line F) → Nat
  | [] => 0
  | l :: ls => l.cost + fileCost ls

/-- A face line is written `i`, `i//k` or `i/j/k` and its indices lie in
`1 .. n`; other lines pass. -/
def Line.indicesWithin {F : Type} (n : Nat) : Line F → Bool
  | Line.face g cs => g != IndexGrammar.vt && cs.all (fun c => 1 ≤ c.index && c.index ≤ n)
  | _ => true

/-- No face line of the file is written `i/j`, and every face index names a
`v` line of the file. -/
@[reducible]
def FacesInRange {F : Type} (ls : List (Line F)) : Prop :=
  ls.all (Line.indicesWithin (vertexLines ls).length) = true

/-- The position the vertex in slot `i` of a mesh holds. -/
def Mesh.pos {F : Type} [Zero F] (m : Mesh F) (i : Nat) : Point3 F :=
  (m.m_verts.getD i (Vertex.ofPoint Point3.origin)).point

/-- The values a conversion of a corner with the format of its grammar
assigns, in order. -/
def Corner.values : IndexGrammar → Corner → List Int
  | IndexGrammar.v, c => [(decVal c.v : Int)]
  | IndexGrammar.vt, c => [(decVal c.v : Int), (decVal c.t : Int)]
  | IndexGrammar.vn, c => [(decVal c.v : Int), (decVal c.n : Int)]
  | IndexGrammar.vtn, c => [(decVal c.v : Int), (decVal c.t : Int), (decVal c.n : Int)]

/-- The vertex store after pass 2 has read a line: a `v` line writes slot `nv`,
other lines write nothing. -/
def storeAfter {F : Type} [Zero F] (st : LoadState F) : Line F → List (Vertex F)
  | Line.vertex _ _ _ p => st.ret.m_verts.set st.nv (Vertex.ofPoint p)
  | _ => st.ret.m_verts

/-- The sample scalars. -/
abbrev ExtInt : Type := WithBot (WithTop ℤ)

/-- A function on the integers, on the sample scalars; the infinities swap. -/
def ExtInt.lift1 (f : ℤ → ℤ) (a : ExtInt) : ExtInt :=
  match a with
  | some (some m) => ((f m : ℤ) : ExtInt)
  | some none => ⊥
  | none => ⊤

/-- A binary function on the integers, on the sample scalars. -/
def ExtInt.lift2 (f : ℤ → ℤ → ℤ) (a b : ExtInt) : ExtInt :=
  match a, b with
  | some (some m), some (some n) => ((f m n : ℤ) : ExtInt)
  | _, _ => 0

/-- The largest `r ≤ k` with `r * r ≤ n`. -/
def isqrtBelow : Nat → Nat → Nat
  | 0, _ => 0
  | k + 1, n => if (k + 1) * (k + 1) ≤ n then k + 1 else isqrtBelow k n

/-- The integer square root. -/
def isqrt (n : Nat) : Nat := isqrtBelow n n

/-- Normalisation of the sample vectors: division by the integer square root
of the squared length (vectors with an infinite component, and vectors shorter
than one, are left alone). -/
def sampleNormalize (p : Point3 ExtInt) : Point3 ExtInt :=
  match p.x, p.y, p.z with
  | some (some a), some (some b), some (some c) =>
    let s : ℤ := (isqrt (a * a + b * b + c * c).toNat : ℤ)
    ⟨((a.tdiv s : ℤ) : ExtInt), ((b.tdiv s : ℤ) : ExtInt), ((c.tdiv s : ℤ) : ExtInt)⟩
  | _, _, _ => p

/-- The sample vector operations: exact integer arithmetic. -/
def sampleOps : Point3Ops ExtInt :=
  { neg := fun p => ⟨ExtInt.lift1 (fun a => -a) p.x, ExtInt.lift1 (fun a => -a) p.y,
                     ExtInt.lift1 (fun a => -a) p.z⟩
    addAssign := fun p q => ⟨p.x + q.x, p.y + q.y, p.z + q.z⟩
    sub := fun p q => ⟨ExtInt.lift2 (fun a b => a - b) p.x q.x,
                       ExtInt.lift2 (fun a b => a - b) p.y q.y,
                       ExtInt.lift2 (fun a b => a - b) p.z q.z⟩
    cross := fun p q =>
      ⟨ExtInt.lift2 (fun a b => a - b) (ExtInt.lift2 (fun a b => a * b) p.y q.z)
          (ExtInt.lift2 (fun a b => a * b) p.z q.y),
       ExtInt.lift2 (fun a b => a - b) (ExtInt.lift2 (fun a b => a * b) p.z q.x)
          (ExtInt.lift2 (fun a b => a * b) p.x q.z),
       ExtInt.lift2 (fun a b => a - b) (ExtInt.lift2 (fun a b => a * b) p.x q.y)
          (ExtInt.lift2 (fun a b => a * b) p.y q.x)⟩
    normalize := sampleNormalize }

/-- The sample `%f`: a decimal numeral, read as a whole number. -/
def sampleScanFloat (s : List Char) : Option ExtInt × List Char :=
  match scanDecimal s with
  | (some v, r) => (some ((v : ℤ) : ExtInt), r)
  | (none, r) => (none, r)

/-- The sample C library. -/
def sampleStdio : Stdio ExtInt :=
  { scanFloat := sampleScanFloat, INFINITY := ⊤, fneg := ExtInt.lift1 (fun a => -a) }

/-- Sample left-over values of the uninitialised locals. -/
def sampleGarbage : Indeterminate ExtInt :=
  { va := 7, vb := 7, vc := 7, vd := 7, x := 9, y := 9, z := 9
    box1 := { min_x := ((-5 : ℤ) : ExtInt), min_y := ((-5 : ℤ) : ExtInt), max_x := 5, max_y := 5 }
    box2 := { min_x := ((-5 : ℤ) : ExtInt), min_y := ((-5 : ℤ) : ExtInt), max_x := 5, max_y := 5 } }

/-- The four `v` lines of a unit square in the plane `z = 0`. -/
def squareVertices : List (Line ExtInt) :=
  [Line.vertex ['0'] ['0'] ['0'] ⟨0, 0, 0⟩, Line.vertex ['1'] ['0'] ['0'] ⟨1, 0, 0⟩,
   Line.vertex ['1'] ['1'] ['0'] ⟨1, 1, 0⟩, Line.vertex ['0'] ['1'] ['0'] ⟨0, 1, 0⟩]

/-- The corner with vertex index `v`, texture index `t`, normal index `n`. -/
def corner (v t n : Char) : Corner := { v := [v], t := [t], n := [n] }

/-- The file of four vertices and the quad `f 1 2 3 4`. -/
def squareFile : List (Line ExtInt) :=
  Line.skip "# unit square".toList :: Line.vdir ['n'] "0 0 1".toList :: squareVertices
    ++ [Line.blank, Line.face IndexGrammar.v
          [corner '1' '1' '1', corner '2' '1' '1', corner '3' '1' '1', corner '4' '1' '1']]

/-- The mesh of the unit square: four vertices with left-over normals and the
two faces of the fan, each with the normal `(0, 0, 1)`. -/
def squareMesh : Mesh ExtInt :=
  { m_verts := [⟨⟨0, 0, 0⟩, ⟨9, 9, 9⟩⟩, ⟨⟨1, 0, 0⟩, ⟨9, 9, 9⟩⟩, ⟨⟨1, 1, 0⟩, ⟨9, 9, 9⟩⟩,
                ⟨⟨0, 1, 0⟩, ⟨9, 9, 9⟩⟩]
    m_faces := [⟨0, 2, 1, ⟨0, 0, 1⟩⟩, ⟨0, 3, 2, ⟨0, 0, 1⟩⟩]
    bbmin := Point3.origin, bbmax := Point3.origin }

/-- The normal the vertex in slot `i` of a mesh holds. -/
def Mesh.vertexNormal {F : Type} [Zero F] (m : Mesh F) (i : Nat) : Normal3 F :=
  (m.m_verts.getD i (Vertex.ofPoint Point3.origin)).normal

/-- The triangle stream of a mesh as the specification words it: for each face,
in face-list order, the (position, normal) pairs of `verts[0]`, `verts[1]`,
`verts[2]`, the normal being the one of the vertex. -/
def trianglePairs {F : Type} [Zero F] (m : Mesh F) : List (Point3 F × Normal3 F) :=
  m.m_faces.flatMap (fun f => f.verts.map (fun i => (m.pos i, m.vertexNormal i)))

/-- The calls that hand one (position, normal) pair to GL. -/
def sendPair {F : Type} (pn : Point3 F × Normal3 F) : List (GLCall F) :=
  [GLCall.normal pn.2, GLCall.vertex pn.1]

/-- Every face of the mesh names three slots of the vertex store. -/
def Mesh.FacesInStore {F : Type} (m : Mesh F) : Prop :=
  ∀ f ∈ m.m_faces, f.v0 < m.m_verts.length ∧ f.v1 < m.m_verts.length ∧ f.v2 < m.m_verts.length

/-- Two runs end alike: both stop with the same fault, or both complete with
results related by `R`. -/
def Agree {α : Type} (R : α → α → Prop) : Except Fault α → Except Fault α → Prop
  | Except.ok a, Except.ok b => R a b
  | Except.error e, Except.error e2 => e = e2
  | _, _ => False

/-- Two states of `loadMesh` hold the same mesh and the same `nv`. -/
def SameMesh {F : Type} (s t : LoadState F) : Prop := s.nv = t.nv ∧ s.ret = t.ret

/-- Two states of `loadMesh` hold the same mesh, the same `nv` and the same
face indices `va`, `vb`, `vc`. -/
def SameFace {F : Type} (s t : LoadState F) : Prop :=
  s.nv = t.nv ∧ s.va = t.va ∧ s.vb = t.vb ∧ s.vc = t.vc ∧ s.ret = t.ret

/-- Two states hold the same mesh and `nv`, and, when `b` is set, the same
`vb` and `vc`. -/
def SameUpTo {F : Type} (b : Bool) (s t : LoadState F) : Prop :=
  SameMesh s t ∧ (b = true → s.vb = t.vb ∧ s.vc = t.vc)

/-- The line is a face line written `i/j`. -/
def Line.isTexcoordFace {F : Type} : Line F → Bool
  | Line.face IndexGrammar.vt _ => true
  | _ => false

/-- The file has a face line written `i/j`. -/
def hasTexcoordFace {F : Type} (ls : List (Line F)) : Bool := ls.any Line.isTexcoordFace

/-- The line is one `loadMesh` is meant to pass over: an empty line, a line led
by `#` or by another token that does not start with `v` or `f`, or a `vn`/`vt`
line. -/
def Line.isSkipped {F : Type} : Line F → Bool
  | Line.blank => true
  | Line.skip _ => true
  | Line.vdir _ _ => true
  | _ => false

/-- Other left-over values of the uninitialised locals. -/
def otherGarbage : Indeterminate ExtInt :=
  { va := 1, vb := 0, vc := 3, vd := 2, x := 4, y := 4, z := 4
    box1 := { min_x := 0, min_y := 8, max_x := 0, max_y := 8 }
    box2 := { min_x := 8, min_y := 0, max_x := 8, max_y := 0 } }

/-- The file of three `v` lines and the triangle `f 1/1 2/2 3/3`. -/
def texcoordFile : List (Line ExtInt) :=
  [Line.vertex ['0'] ['0'] ['0'] ⟨0, 0, 0⟩, Line.vertex ['1'] ['0'] ['0'] ⟨1, 0, 0⟩,
   Line.vertex ['0'] ['1'] ['0'] ⟨0, 1, 0⟩,
   Line.face IndexGrammar.vt [corner '1' '1' '1', corner '2' '2' '2', corner '3' '3' '3']]

/-! ## Sample scalars that round, and sample scalars with a NaN -/

/-- A `float`: not a number, or a whole number or an infinity. -/
inductive NanInt where
  | nan
  | num (v : ExtInt)
deriving DecidableEq

/-- The comparison `a < b` of two `float`s: false when either is not a number. -/
def NanInt.blt : NanInt → NanInt → Bool
  | NanInt.num x, NanInt.num y => decide (x < y)
  | _, _ => false

/-- The comparison `a <= b` of two `float`s: false when either is not a number. -/
def NanInt.ble : NanInt → NanInt → Bool
  | NanInt.num x, NanInt.num y => decide (x ≤ y)
  | _, _ => false

instance NanInt.instLT : LT NanInt := ⟨fun a b => NanInt.blt a b = true⟩

instance NanInt.instLE : LE NanInt := ⟨fun a b => NanInt.ble a b = true⟩

instance NanInt.decLT : DecidableRel (fun a b : NanInt => a < b) :=
  fun a b => inferInstanceAs (Decidable (NanInt.blt a b = true))

instance NanInt.decLE : DecidableRel (fun a b : NanInt => a ≤ b) :=
  fun a b => inferInstanceAs (Decidable (NanInt.ble a b = true))

/-- The C library on these `float`s: `%f` reads a decimal numeral. -/
def nanStdio : Stdio NanInt :=
  { scanFloat := fun s =>
      match sampleScanFloat s with
      | (some v, r) => (some (NanInt.num v), r)
      | (none, r) => (none, r)
    INFINITY := NanInt.num ⊤
    fneg := fun a =>
      match a with
      | NanInt.num v => NanInt.num (ExtInt.lift1 (fun n => -n) v)
      | NanInt.nan => NanInt.nan }

/-- The two vertices `(0, 0, 0)` and `(1, 1, 1)`. -/
def segmentMesh : Mesh NanInt :=
  { m_verts := [⟨⟨NanInt.num 0, NanInt.num 0, NanInt.num 0⟩,
                  ⟨NanInt.num 0, NanInt.num 0, NanInt.num 0⟩⟩,
                ⟨⟨NanInt.num 1, NanInt.num 1, NanInt.num 1⟩,
                  ⟨NanInt.num 0, NanInt.num 0, NanInt.num 0⟩⟩]
    m_faces := []
    bbmin := ⟨NanInt.num 0, NanInt.num 0, NanInt.num 0⟩
    bbmax := ⟨NanInt.num 0, NanInt.num 0, NanInt.num 0⟩ }

/-- The two vertices `(0, 0, 0)` and `(1, 1, NaN)`. -/
def nanMesh : Mesh NanInt :=
  { m_verts := [⟨⟨NanInt.num 0, NanInt.num 0, NanInt.num 0⟩,
                  ⟨NanInt.num 0, NanInt.num 0, NanInt.num 0⟩⟩,
                ⟨⟨NanInt.num 1, NanInt.num 1, NanInt.nan⟩,
                  ⟨NanInt.num 0, NanInt.num 0, NanInt.num 0⟩⟩]
    m_faces := []
    bbmin := ⟨NanInt.num 0, NanInt.num 0, NanInt.num 0⟩
    bbmax := ⟨NanInt.num 0, NanInt.num 0, NanInt.num 0⟩ }

end agl

/-! # `game.cxx`: the state machine of the game -/

namespace game

/-- Modelled from the spec: the enum `game::State` (declared outside the
sources) with the four states splash, menu, game and end, the enumerators
`game.cxx` names. -/
inductive State where
  | SPLASH
  | MENU
  | GAME
  | END
deriving DecidableEq, Repr

/-- The members of `Game` that the functions below read or write (the class is
declared in `game.h`, outside the sources).  Times are ticks, as whole numbers;
`m_rings` is the number of rings the vector `m_rings` holds. -/
structure Game where
  m_state : State
  m_victory : Bool
  m_flappy3D : Bool
  m_isFlappyOn : Bool
  m_game_started : Bool
  m_restart_game : Bool
  m_final_stage : Bool
  m_deadline_time : Int
  m_player_time : Int
  m_last_time : Int
  m_penalty_time : Int
  m_cur_ring_index : Nat
  m_num_rings : Nat
  m_rings : Nat
deriving DecidableEq, Repr

/-- The member functions `splash`, `openSettings` and `gameOver` and the
constants `RING_TIME` and `FLAPPY_RING_TIME` that `game.cxx` uses without
defining them: parameters of the development. -/
structure Externals where
  splash : Game → Game
  openSettings : Game → Game
  gameOver : Game → Game
  RING_TIME : Int
  FLAPPY_RING_TIME : Int

/-- What one call of `gameAction` learns from the environment and the scene:
the two values of `m_env.getTicks()` (in `checkTime` and in `goToVictory`),
whether a cube reports a crossing, whether the current ring is triggered after
`checkCrossing`, and whether the final door reports a crossing. -/
structure Sensed where
  ticks : Int
  ticks_at_victory : Int
  cube_hit : Bool
  ring_crossed : Bool
  door_crossed : Bool
deriving DecidableEq, Repr

/-- The function `Game::playGame`: it binds the callbacks of the environment
and changes no member of `Game`. -/
def playGame (g : Game) : Game := g

/-- The function `Game::init_rings`: the vector is cleared and filled with
`m_num_rings` rings, the current ring is the first. -/
def init_rings (g : Game) : Game :=
  { g with m_cur_ring_index := 0, m_rings := g.m_num_rings }

/-- The function `Game::init_cubes`: it refills `m_cubes`, which is no member
of the model. -/
def init_cubes (g : Game) : Game := g

/-- The function `Game::restartGame`. -/
def restartGame (g : Game) : Game :=
  let g1 : Game :=
    { g with m_restart_game := false, m_game_started := false, m_player_time := 0,
             m_deadline_time := 0, m_penalty_time := 0, m_last_time := 0 }
  let g2 : Game := { g1 with m_isFlappyOn := g1.m_flappy3D }
  playGame (init_cubes (init_rings g2))

/-- The function `Game::changeState`. -/
def changeState (x : Externals) (g : Game) (next_state : State) : Game :=
  if next_state = g.m_state then g
  else
    match next_state with
    | State.SPLASH =>
      if !g.m_game_started || (g.m_state == State.MENU && g.m_restart_game) then
        x.splash (restartGame { g with m_state := next_state })
      else g
    | State.MENU =>
      if g.m_state = State.GAME then x.openSettings { g with m_state := next_state } else g
    | State.GAME =>
      if g.m_state = State.SPLASH ∨ g.m_state = State.MENU then
        playGame { g with m_state := next_state }
      else if g.m_state = State.END ∧ g.m_restart_game = true then
        restartGame { g with m_state := next_state }
      else g
    | State.END =>
      if g.m_state = State.GAME then x.gameOver { g with m_state := next_state } else g

/-- The function `Game::goToVictory`; `ticks` is `m_env.getTicks()`. -/
def goToVictory (x : Externals) (g : Game) (ticks : Int) : Game :=
  changeState x
    { g with m_victory := true, m_player_time := g.m_player_time + (ticks - g.m_last_time) }
    State.END

/-- The function `Game::checkTime`; `time_now` is `m_env.getTicks()`. -/
def checkTime (x : Externals) (g : Game) (time_now : Int) : Game :=
  let diff := time_now - g.m_last_time
  let g1 : Game :=
    { g with m_deadline_time := g.m_deadline_time - diff,
             m_player_time := g.m_player_time + diff,
             m_penalty_time := if g.m_penalty_time > 0 then g.m_penalty_time - 100 else 0,
             m_last_time := time_now }
  if g1.m_deadline_time < 0 then changeState x { g1 with m_victory := false } State.END
  else g1

/-- The function `Game::checkRings`; `none` when `m_rings.at` throws. -/
def checkRings (x : Externals) (g : Game) (ring_crossed : Bool) (ticks : Int) : Option Game :=
  if g.m_cur_ring_index < g.m_rings then
    if ring_crossed then
      let bonus := if g.m_flappy3D then x.FLAPPY_RING_TIME else x.RING_TIME
      let g1 : Game :=
        { g with m_deadline_time := g.m_deadline_time + bonus,
                 m_cur_ring_index := g.m_cur_ring_index + 1 }
      if g1.m_cur_ring_index ≥ g1.m_num_rings then some (goToVictory x g1 ticks) else some g1
    else some g
  else none

/-- The function `Game::checkCubes`. -/
def checkCubes (g : Game) (cube_hit : Bool) : Game :=
  if cube_hit then { g with m_penalty_time := 6000 } else g

/-- The function `Game::gameAction`; `none` when an exception leaves it. -/
def gameAction (x : Externals) (g : Game) (s : Sensed) : Option Game :=
  let g1 := if g.m_game_started then checkTime x g s.ticks else g
  if g1.m_final_stage then
    if s.door_crossed then some (goToVictory x g1 s.ticks_at_victory) else some g1
  else
    checkRings x (checkCubes g1 s.cube_hit) s.ring_crossed s.ticks_at_victory

/-- The transitions the state machine is said to make: from state `s`, with the
flags of `g`, to the requested state `n`. -/
def transitionAllowed (g : Game) (n : State) : Bool :=
  match g.m_state, n with
  | State.SPLASH, State.GAME => true
  | State.MENU, State.GAME => true
  | State.GAME, State.MENU => true
  | State.GAME, State.END => true
  | State.END, State.GAME => g.m_restart_game
  | s, State.SPLASH =>
    s != State.SPLASH && (!g.m_game_started || (s == State.MENU && g.m_restart_game))
  | _, _ => false

/-- Stand-ins for the absent functions that leave every member of `Game` as it
is, with ring bonuses of 30 and 15 seconds. -/
def inertExternals : Externals :=
  { splash := fun g => g, openSettings := fun g => g, gameOver := fun g => g,
    RING_TIME := 30000, FLAPPY_RING_TIME := 15000 }

/-- A game in state `GAME`, started, not in its final stage, with 50 ticks left
and the last of its three rings the current one. -/
def lastRingGame : Game :=
  { m_state := State.GAME, m_victory := false, m_flappy3D := false, m_isFlappyOn := false,
    m_game_started := true, m_restart_game := false, m_final_stage := false,
    m_deadline_time := 50, m_player_time := 20000, m_last_time := 1000, m_penalty_time := 0,
    m_cur_ring_index := 2, m_num_rings := 3, m_rings := 3 }

/-- The step 100 ticks later in which the ship crosses the current ring. -/
def lateCrossing : Sensed :=
  { ticks := 1100, ticks_at_victory := 1100, cube_hit := false, ring_crossed := true,
    door_crossed := false }

end game

/-! # `coord_system.cxx`: random coordinates -/

namespace coordinateGenerator

/-- The functions of `<cmath>` at an `int` argument and the product of two
numbers, over the numbers `F` that stand for `float`. -/
structure Libm (F : Type) where
  cos : Int → F
  sin : Int → F
  mul : F → F → F

/-- The `double` that `M_PI / 180.0f` evaluates to is
`0x1.1df46a2529d39p-6 = radPerDegree / 2^58`. -/
def radPerDegree : Int := 5030569068109113

/-- The value of `int angle` in `genCoord2D` when `d` is computed: `draw` is
`(int)dist(mt)` of the first draw; `angle *= M_PI / 180.0f` multiplies in
`double` and stores the product truncated to `int`. -/
def genAngle2D (quadrant : Nat) (draw : Int) : Int :=
  let angle0 : Int := (quadrant : Int) * 90
  let angle1 : Int := angle0 + Int.tmod draw 91
  Int.tdiv (angle1 * radPerDegree) (2 ^ 58)

/-- The function `genCoord2D`: `draw` is `(int)dist(mt)` of the first draw and
`d` is `dist(mt) + 30.0f` of the second. -/
def genCoord2D {F : Type} (m : Libm F) (quadrant : Nat) (draw : Int) (d : F) : F × F :=
  (m.mul d (m.cos (genAngle2D quadrant draw)), m.mul d (m.sin (genAngle2D quadrant draw)))

/-- The function `firstQuadCoord2D`. -/
def firstQuadCoord2D {F : Type} (m : Libm F) (draw : Int) (d : F) : F × F :=
  genCoord2D m 0 draw d

/-- The function `secondQuadCoord2D`. -/
def secondQuadCoord2D {F : Type} (m : Libm F) (draw : Int) (d : F) : F × F :=
  genCoord2D m 1 draw d

/-- The function `thirdQuadCoord2D`. -/
def thirdQuadCoord2D {F : Type} (m : Libm F) (draw : Int) (d : F) : F × F :=
  genCoord2D m 2 draw d

/-- The function `fourthQuadCoord2D`. -/
def fourthQuadCoord2D {F : Type} (m : Libm F) (draw : Int) (d : F) : F × F :=
  genCoord2D m 3 draw d

end coordinateGenerator

namespace agl

set_option maxHeartbeats 1000000

/-! ## Characters and the scanning primitives -/

theorem ne_of_isDigit {c d : Char} (hc : c.isDigit = true) (hd : d.isDigit = false) : c ≠ d := by
  rintro rfl
  simp [hc] at hd

theorem isspace_of_isDigit {c : Char} (hc : c.isDigit = true) : isspace c = false := by
  have h1 := ne_of_isDigit hc (d := ' ') (by decide)
  have h2 := ne_of_isDigit hc (d := '\t') (by decide)
  have h3 := ne_of_isDigit hc (d := '\n') (by decide)
  have h4 := ne_of_isDigit hc (d := '\x0b') (by decide)
  have h5 := ne_of_isDigit hc (d := '\x0c') (by decide)
  have h6 := ne_of_isDigit hc (d := '\r') (by decide)
  simp [isspace, h1, h2, h3, h4, h5, h6]

theorem skipSpace_cons_space {c : Char} (s : List Char) (hc : isspace c = true) :
    skipSpace (c :: s) = skipSpace s := by
  simp [skipSpace, List.dropWhile, hc]

theorem skipSpace_cons_of_not {c : Char} (s : List Char) (hc : isspace c = false) :
    skipSpace (c :: s) = c :: s := by
  simp [skipSpace, List.dropWhile, hc]

theorem skipSpace_idem (s : List Char) : skipSpace (skipSpace s) = skipSpace s := by
  induction s with
  | nil => rfl
  | cons c s ih =>
    by_cases hc : isspace c = true
    · rw [skipSpace_cons_space s hc, ih]
    · have hc2 : isspace c = false := by simpa using hc
      rw [skipSpace_cons_of_not s hc2, skipSpace_cons_of_not s hc2]

theorem takeWhile_append_stop {α : Type} (p : α → Bool) (l : List α) (d : α) (r : List α)
    (hl : ∀ a ∈ l, p a = true) (hd : p d = false) :
    (l ++ d :: r).takeWhile p = l := by
  induction l with
  | nil => simp [List.takeWhile, hd]
  | cons a l ih =>
    have ha : p a = true := hl a (List.mem_cons_self a l)
    rw [List.cons_append, List.takeWhile_cons_of_pos ha,
      ih (fun b hb => hl b (List.mem_cons_of_mem a hb))]

theorem dropWhile_append_stop {α : Type} (p : α → Bool) (l : List α) (d : α) (r : List α)
    (hl : ∀ a ∈ l, p a = true) (hd : p d = false) :
    (l ++ d :: r).dropWhile p = d :: r := by
  induction l with
  | nil => simp [List.dropWhile, hd]
  | cons a l ih =>
    have ha : p a = true := hl a (List.mem_cons_self a l)
    rw [List.cons_append, List.dropWhile_cons_of_pos ha,
      ih (fun b hb => hl b (List.mem_cons_of_mem a hb))]

theorem scanString_skip (s : List Char) : scanString (skipSpace s) = scanString s := by
  simp [scanString, skipSpace_idem]

theorem scanString_cons_space {c : Char} (s : List Char) (hc : isspace c = true) :
    scanString (c :: s) = scanString s := by
  simp [scanString, skipSpace_cons_space s hc]

/-- The conversion `%s` reads a token that is followed by white space. -/
theorem scanString_token (tok : List Char) (d : Char) (r : List Char) (hne : tok ≠ [])
    (htok : ∀ c ∈ tok, isspace c = false) (hd : isspace d = true) :
    scanString (tok ++ d :: r) = some (tok, d :: r) := by
  cases tok with
  | nil => exact absurd rfl hne
  | cons a t =>
    have ha : isspace a = false := htok a (List.mem_cons_self a t)
    have e1 : ((a :: t) ++ d :: r).takeWhile (fun c => !isspace c) = a :: t :=
      takeWhile_append_stop _ _ d r (fun c hc => by simp [htok c hc]) (by simp [hd])
    have e2 : ((a :: t) ++ d :: r).dropWhile (fun c => !isspace c) = d :: r :=
      dropWhile_append_stop _ _ d r (fun c hc => by simp [htok c hc]) (by simp [hd])
    simp only [scanString, List.cons_append, skipSpace_cons_of_not _ ha]
    simp only [List.cons_append] at e1 e2
    rw [e1, e2]

theorem fgetsGo_line (k : Nat) (u rest : List Char) (hu : ∀ c ∈ u, c ≠ '\n')
    (hk : u.length < k) : fgetsGo k (u ++ '\n' :: rest) = rest := by
  induction u generalizing k with
  | nil =>
    cases k with
    | zero => simp at hk
    | succ k => simp [fgetsGo]
  | cons a u ih =>
    cases k with
    | zero => simp at hk
    | succ k =>
      have ha : a ≠ '\n' := hu a (List.mem_cons_self a u)
      simp only [List.cons_append, fgetsGo, ha, if_false]
      exact ih k (fun c hc => hu c (List.mem_cons_of_mem a hc)) (by simpa using hk)

/-- The call `fgets` eats the rest of a line of at most 126 characters, newline
included. -/
theorem fgets_line (u rest : List Char) (hu : ∀ c ∈ u, c ≠ '\n') (hk : u.length ≤ 126) :
    fgets (u ++ '\n' :: rest) = rest :=
  fgetsGo_line _ u rest hu (by simp [BUF_SIZE]; omega)

theorem isNumeral_iff (ds : List Char) :
    isNumeral ds = true ↔ ds ≠ [] ∧ ∀ c ∈ ds, c.isDigit = true := by
  cases ds <;> simp [isNumeral]

theorem takeWhile_append_head {α : Type} (p : α → Bool) (l r : List α)
    (hl : ∀ a ∈ l, p a = true) (hr : ∀ c ∈ r.head?, p c = false) :
    (l ++ r).takeWhile p = l := by
  cases r with
  | nil => simpa [List.takeWhile_eq_self_iff] using hl
  | cons d r => exact takeWhile_append_stop p l d r hl (hr d (by simp))

theorem dropWhile_append_head {α : Type} (p : α → Bool) (l r : List α)
    (hl : ∀ a ∈ l, p a = true) (hr : ∀ c ∈ r.head?, p c = false) :
    (l ++ r).dropWhile p = r := by
  cases r with
  | nil => simpa [List.dropWhile_eq_nil_iff] using hl
  | cons d r => exact dropWhile_append_stop p l d r hl (hr d (by simp))

theorem scanDecimal_cons_space {c : Char} (s : List Char) (hc : isspace c = true) :
    scanDecimal (c :: s) = scanDecimal s := by
  simp [scanDecimal, skipSpace_cons_space s hc]

theorem scanInt_cons_space {c : Char} (s : List Char) (hc : isspace c = true) :
    scanInt (c :: s) = scanInt s := by
  simp [scanInt, scanDecimal_cons_space s hc]

/-- A numeral that is followed by no further digit is read whole. -/
theorem scanDecimal_numeral (ds r : List Char) (hds : isNumeral ds = true)
    (hr : ∀ c ∈ r.head?, c.isDigit = false) :
    scanDecimal (ds ++ r) = (some (decVal ds : Int), r) := by
  obtain ⟨hne, hdig⟩ := (isNumeral_iff ds).1 hds
  cases ds with
  | nil => exact absurd rfl hne
  | cons a t =>
    have ha : a.isDigit = true := hdig a (List.mem_cons_self a t)
    have h1 : a ≠ '-' := ne_of_isDigit ha (by decide)
    have h2 : a ≠ '+' := ne_of_isDigit ha (by decide)
    have e1 : ((a :: t) ++ r).takeWhile Char.isDigit = a :: t :=
      takeWhile_append_head _ _ r hdig hr
    have e2 : ((a :: t) ++ r).dropWhile Char.isDigit = r :=
      dropWhile_append_head _ _ r hdig hr
    simp only [List.cons_append] at e1 e2
    simp only [scanDecimal, List.cons_append, skipSpace_cons_of_not _ (isspace_of_isDigit ha),
      h1, h2, or_self, if_false, e1, e2]
    simp

theorem toInt32_of_fits (n : Nat) (h : n < 2147483648) : toInt32 (n : Int) = (n : Int) := by
  unfold toInt32
  have h1 : ¬ ((n : Int) < -9223372036854775808) := by omega
  have h2 : ¬ ((n : Int) > 9223372036854775807) := by omega
  simp only [h1, h2, if_false]
  omega

/-- The conversion `%d` reads a numeral that fits an `int` and is followed by
no further digit, and stores its value. -/
theorem scanInt_numeral (ds r : List Char) (hds : isNumeral ds = true)
    (hfit : fitsInt ds = true) (hr : ∀ c ∈ r.head?, c.isDigit = false) :
    scanInt (ds ++ r) = (some (decVal ds : Int), r) := by
  have hlt : decVal ds < 2147483648 := by simpa [fitsInt] using hfit
  simp only [scanInt, scanDecimal_numeral ds r hds hr, toInt32_of_fits _ hlt]

theorem scanfInts_cons_space (ds : List Directive) {c : Char} (s : List Char)
    (hc : isspace c = true) :
    scanfInts (Directive.int :: ds) (c :: s) = scanfInts (Directive.int :: ds) s := by
  simp [scanfInts, scanInt_cons_space s hc]

theorem fmt_cons_space (g : IndexGrammar) {c : Char} (s : List Char) (hc : isspace c = true) :
    scanfInts g.fmt (c :: s) = scanfInts g.fmt s := by
  cases g <;> exact scanfInts_cons_space _ s hc

theorem head_slash (s : List Char) : ∀ c ∈ ('/' :: s).head?, c.isDigit = false := by
  intro c hc
  simp at hc
  subst hc
  decide

theorem wf_split {c : Corner} (h : c.wf = true) :
    (isNumeral c.v = true ∧ isNumeral c.t = true ∧ isNumeral c.n = true) ∧
      fitsInt c.v = true ∧ fitsInt c.t = true ∧ fitsInt c.n = true := by
  simp only [Corner.wf, Bool.and_eq_true] at h
  exact ⟨⟨h.1.1.1, h.1.1.2, h.1.2⟩, h.2.1.1, h.2.1.2, h.2.2⟩

theorem wf_v {c : Corner} (h : c.wf = true) : isNumeral c.v = true := (wf_split h).1.1

theorem wf_t {c : Corner} (h : c.wf = true) : isNumeral c.t = true := (wf_split h).1.2.1

theorem wf_n {c : Corner} (h : c.wf = true) : isNumeral c.n = true := (wf_split h).1.2.2

theorem fit_v {c : Corner} (h : c.wf = true) : fitsInt c.v = true := (wf_split h).2.1

theorem fit_t {c : Corner} (h : c.wf = true) : fitsInt c.t = true := (wf_split h).2.2.1

theorem fit_n {c : Corner} (h : c.wf = true) : fitsInt c.n = true := (wf_split h).2.2.2

/-- A call of `fscanf` with the format of the grammar reads one corner. -/
theorem scanfInts_corner (g : IndexGrammar) (c : Corner) (hc : c.wf = true) (r : List Char)
    (hr : ∀ d ∈ r.head?, d.isDigit = false) :
    scanfInts g.fmt (c.render g ++ r) = (c.values g, r) := by
  cases g with
  | v =>
    simp only [IndexGrammar.fmt, fmtV, Corner.render, Corner.values, scanfInts,
      scanInt_numeral c.v r (wf_v hc) (fit_v hc) hr]
  | vt =>
    simp only [IndexGrammar.fmt, fmtVT, Corner.render, Corner.values, scanfInts,
      List.append_assoc, List.cons_append,
      scanInt_numeral c.v _ (wf_v hc) (fit_v hc) (head_slash _), scanInt_numeral c.t r (wf_t hc) (fit_t hc) hr,
      if_true]
  | vn =>
    simp only [IndexGrammar.fmt, fmtVN, Corner.render, Corner.values, scanfInts,
      List.append_assoc, List.cons_append,
      scanInt_numeral c.v _ (wf_v hc) (fit_v hc) (head_slash _), scanInt_numeral c.n r (wf_n hc) (fit_n hc) hr,
      if_true]
  | vtn =>
    simp only [IndexGrammar.fmt, fmtVTN, Corner.render, Corner.values, scanfInts,
      List.append_assoc, List.cons_append,
      scanInt_numeral c.v _ (wf_v hc) (fit_v hc) (head_slash _),
      scanInt_numeral c.t _ (wf_t hc) (fit_t hc) (head_slash _), scanInt_numeral c.n r (wf_n hc) (fit_n hc) hr,
      if_true]

/-! ## Recognising the grammar of a face line from its first corner -/

theorem hasDoubleSlash_cons_digit {d : Char} (s : List Char) (hd : d.isDigit = true) :
    hasDoubleSlash (d :: s) = hasDoubleSlash s := by
  have h : d ≠ '/' := ne_of_isDigit hd (by decide)
  cases s <;> simp [hasDoubleSlash, h]

theorem hasDoubleSlash_digits (ds s : List Char) (hds : ∀ c ∈ ds, c.isDigit = true) :
    hasDoubleSlash (ds ++ s) = hasDoubleSlash s := by
  induction ds with
  | nil => rfl
  | cons a t ih =>
    rw [List.cons_append, hasDoubleSlash_cons_digit _ (hds a (List.mem_cons_self a t)),
      ih (fun c hc => hds c (List.mem_cons_of_mem a hc))]

theorem hasDoubleSlash_slash_numeral (ds s : List Char) (hds : isNumeral ds = true) :
    hasDoubleSlash ('/' :: (ds ++ s)) = hasDoubleSlash s := by
  obtain ⟨hne, hdig⟩ := (isNumeral_iff ds).1 hds
  cases ds with
  | nil => exact absurd rfl hne
  | cons a t =>
    have ha : a.isDigit = true := hdig a (List.mem_cons_self a t)
    have h : a ≠ '/' := ne_of_isDigit ha (by decide)
    have e : hasDoubleSlash ('/' :: ((a :: t) ++ s)) = hasDoubleSlash ((a :: t) ++ s) := by
      simp [hasDoubleSlash, h]
    rw [e, hasDoubleSlash_digits _ _ hdig]

theorem hasDoubleSlash_render (g : IndexGrammar) (c : Corner) (hc : c.wf = true) :
    hasDoubleSlash (c.render g) = decide (g = IndexGrammar.vn) := by
  have hv := ((isNumeral_iff c.v).1 (wf_v hc)).2
  cases g with
  | v =>
    have := hasDoubleSlash_digits c.v [] hv
    simpa [Corner.render, hasDoubleSlash] using this
  | vt =>
    have h2 := hasDoubleSlash_slash_numeral c.t [] (wf_t hc)
    simp only [List.append_nil] at h2
    simp [Corner.render, hasDoubleSlash_digits _ _ hv, h2, hasDoubleSlash]
  | vn =>
    simp [Corner.render, hasDoubleSlash_digits _ _ hv, hasDoubleSlash]
  | vtn =>
    have h2 := hasDoubleSlash_slash_numeral c.n [] (wf_n hc)
    simp only [List.append_nil] at h2
    simp [Corner.render, hasDoubleSlash_digits _ _ hv,
      hasDoubleSlash_slash_numeral c.t _ (wf_t hc), h2, hasDoubleSlash]

theorem digit_or_slash_render (g : IndexGrammar) (c : Corner) (hc : c.wf = true) :
    ∀ d ∈ c.render g, d.isDigit = true ∨ d = '/' := by
  have hv := ((isNumeral_iff c.v).1 (wf_v hc)).2
  have ht := ((isNumeral_iff c.t).1 (wf_t hc)).2
  have hn := ((isNumeral_iff c.n).1 (wf_n hc)).2
  intro d hd
  cases g <;> simp only [Corner.render, List.mem_append, List.mem_cons] at hd
  · exact Or.inl (hv d hd)
  · rcases hd with h | h | h
    · exact Or.inl (hv d h)
    · exact Or.inr h
    · exact Or.inl (ht d h)
  · rcases hd with h | h | h | h
    · exact Or.inl (hv d h)
    · exact Or.inr h
    · exact Or.inr h
    · exact Or.inl (hn d h)
  · rcases hd with h | h | h | h | h
    · exact Or.inl (hv d h)
    · exact Or.inr h
    · exact Or.inl (ht d h)
    · exact Or.inr h
    · exact Or.inl (hn d h)

theorem render_ne_nil (g : IndexGrammar) (c : Corner) (hc : c.wf = true) : c.render g ≠ [] := by
  have hv := ((isNumeral_iff c.v).1 (wf_v hc)).1
  cases g <;> simp [Corner.render, hv]

theorem isspace_render (g : IndexGrammar) (c : Corner) (hc : c.wf = true) :
    ∀ d ∈ c.render g, isspace d = false := by
  intro d hd
  rcases digit_or_slash_render g c hc d hd with h | h
  · exact isspace_of_isDigit h
  · subst h; decide

theorem cstr_render (g : IndexGrammar) (c : Corner) (hc : c.wf = true) :
    cstr (c.render g) = c.render g := by
  unfold cstr
  rw [List.takeWhile_eq_self_iff]
  intro d hd
  rcases digit_or_slash_render g c hc d hd with h | h
  · have := ne_of_isDigit h (d := '\x00') (by decide)
    simpa using this
  · subst h; decide

theorem values_eq_cons (g : IndexGrammar) (c : Corner) :
    ∃ tl, c.values g = (c.index : Int) :: tl := by
  cases g <;> simp [Corner.values, Corner.index]

theorem head_nil_stop : ∀ d ∈ ([] : List Char).head?, d.isDigit = false := by
  intro d hd
  simp at hd

theorem scanfInts_buf (g : IndexGrammar) (c : Corner) (hc : c.wf = true) :
    scanfInts g.fmt (c.render g) = (c.values g, []) := by
  have := scanfInts_corner g c hc [] head_nil_stop
  simpa using this

theorem scanfInts_VTN_vt (c : Corner) (hc : c.wf = true) :
    scanfInts fmtVTN (c.render IndexGrammar.vt) = ([(decVal c.v : Int), (decVal c.t : Int)], []) := by
  have h := scanInt_numeral c.t [] (wf_t hc) (fit_t hc) head_nil_stop
  simp only [List.append_nil] at h
  simp only [fmtVTN, Corner.render, scanfInts, scanInt_numeral c.v _ (wf_v hc) (fit_v hc) (head_slash _),
    if_true, h]

theorem scanfInts_VTN_v (c : Corner) (hc : c.wf = true) :
    scanfInts fmtVTN (c.render IndexGrammar.v) = ([(decVal c.v : Int)], []) := by
  have h := scanInt_numeral c.v [] (wf_v hc) (fit_v hc) head_nil_stop
  simp only [List.append_nil] at h
  simp only [fmtVTN, Corner.render, scanfInts, h]

theorem scanfInts_VT_v (c : Corner) (hc : c.wf = true) :
    scanfInts fmtVT (c.render IndexGrammar.v) = ([(decVal c.v : Int)], []) := by
  have h := scanInt_numeral c.v [] (wf_v hc) (fit_v hc) head_nil_stop
  simp only [List.append_nil] at h
  simp only [fmtVT, Corner.render, scanfInts, h]

/-! ## The end of a face line -/

theorem scanInt_noIndex (s : List Char) (h : noIndexAhead s = true) :
    scanInt s = (none, skipSpace s) := by
  unfold noIndexAhead at h
  unfold scanInt scanDecimal
  cases hs : skipSpace s with
  | nil => rfl
  | cons c t =>
    rw [hs] at h
    simp only [Bool.and_eq_true, Bool.not_eq_true', bne_iff_ne, ne_eq] at h
    obtain ⟨⟨h1, h2⟩, h3⟩ := h
    simp [h1, h2, h3, List.takeWhile]

theorem scanfInts_noIndex (g : IndexGrammar) (s : List Char) (h : noIndexAhead s = true) :
    scanfInts g.fmt s = ([], skipSpace s) := by
  cases g <;>
    simp [IndexGrammar.fmt, fmtV, fmtVT, fmtVN, fmtVTN, scanfInts, scanInt_noIndex s h]

theorem noIndexAhead_cons_space {c : Char} (s : List Char) (hc : isspace c = true) :
    noIndexAhead (c :: s) = noIndexAhead s := by
  simp [noIndexAhead, skipSpace_cons_space s hc]

theorem stop_renderCorners (g : IndexGrammar) (cs : List Corner) (tail : List Char) :
    ∀ d ∈ (renderCorners g cs ++ '\n' :: tail).head?, d.isDigit = false := by
  intro d hd
  cases cs with
  | nil =>
    simp [renderCorners] at hd
    subst hd; decide
  | cons c cs =>
    simp [renderCorners] at hd
    subst hd; decide

theorem length_renderCorners (g : IndexGrammar) (cs : List Corner) :
    cs.length ≤ (renderCorners g cs).length := by
  induction cs with
  | nil => simp
  | cons c cs ih => simp [renderCorners]; omega

/-- A counting loop of pass 1 runs to the end of the face line. -/
theorem countLoop_corners (g : IndexGrammar) (cs : List Corner) (tail : List Char)
    (hcs : ∀ c ∈ cs, c.wf = true) (htail : noIndexAhead tail = true) (extra nt : Nat) (v : Int) :
    countLoop g.fmt (cs.length + 1 + extra) (renderCorners g cs ++ '\n' :: tail) nt v
      = Except.ok (nt + cs.length, (cs.map (fun c => (c.index : Int))).getLastD v,
          skipSpace tail) := by
  induction cs generalizing nt v with
  | nil =>
    have h : noIndexAhead ('\n' :: tail) = true := by
      rw [noIndexAhead_cons_space _ (by decide)]; exact htail
    have e : 0 + 1 + extra = extra + 1 := by omega
    simp only [List.length_nil, renderCorners, List.nil_append, e, countLoop,
      scanfInts_noIndex g _ h, skipSpace_cons_space tail (show isspace '\n' = true by decide)]
    simp
  | cons c cs ih =>
    have hc : c.wf = true := hcs c (List.mem_cons_self c cs)
    have e : (c :: cs).length + 1 + extra = (cs.length + 1 + extra) + 1 := by simp; omega
    obtain ⟨tl, htl⟩ := values_eq_cons g c
    rw [e]
    simp only [renderCorners, countLoop, List.cons_append, List.append_assoc,
      fmt_cons_space g _ (show isspace ' ' = true by decide),
      scanfInts_corner g c hc _ (stop_renderCorners g cs tail), htl]
    rw [ih (fun d hd => hcs d (List.mem_cons_of_mem c hd)), List.map_cons, List.getLastD_cons,
      List.length_cons]
    have e2 : nt + 1 + cs.length = nt + (cs.length + 1) := by omega
    rw [e2]

/-- A fan loop of pass 2 runs to the end of the face line and does what
`fanLine` does on the indices read. -/
theorem fanLoop_corners {F : Type} (ops : Point3Ops F) (g : IndexGrammar) (cs : List Corner)
    (tail : List Char) (hcs : ∀ c ∈ cs, c.wf = true) (htail : noIndexAhead tail = true)
    (extra : Nat) (st : LoadState F) :
    fanLoop ops g.fmt (cs.length + 1 + extra) (renderCorners g cs ++ '\n' :: tail) st
      = match fanLine ops (cs.map (fun c => (c.index : Int))) st with
        | Except.ok st2 => Except.ok (st2, skipSpace tail)
        | Except.error e => Except.error e := by
  induction cs generalizing st with
  | nil =>
    have h : noIndexAhead ('\n' :: tail) = true := by
      rw [noIndexAhead_cons_space _ (by decide)]; exact htail
    have e : 0 + 1 + extra = extra + 1 := by omega
    simp only [List.length_nil, renderCorners, List.nil_append, e, fanLoop,
      scanfInts_noIndex g _ h, skipSpace_cons_space tail (show isspace '\n' = true by decide),
      List.map_nil, fanLine]
  | cons c cs ih =>
    have hc : c.wf = true := hcs c (List.mem_cons_self c cs)
    have e : (c :: cs).length + 1 + extra = (cs.length + 1 + extra) + 1 := by simp; omega
    obtain ⟨tl, htl⟩ := values_eq_cons g c
    rw [e]
    simp only [renderCorners, fanLoop, List.cons_append, List.append_assoc,
      fmt_cons_space g _ (show isspace ' ' = true by decide),
      scanfInts_corner g c hc _ (stop_renderCorners g cs tail), htl, List.map_cons, fanLine]
    cases hE : emplaceFace ops { st with vc := (c.index : Int) - 1 } with
    | error err => rfl
    | ok st2 => exact ih (fun d hd => hcs d (List.mem_cons_of_mem c hd)) st2

/-! ## A face line in pass 1 and in pass 2 -/

theorem firstOr_values (g : IndexGrammar) (c : Corner) (old : Int) :
    firstOr old (c.values g) = (c.index : Int) := by
  obtain ⟨tl, htl⟩ := values_eq_cons g c
  simp [firstOr, htl]

theorem scanfInts_next (g : IndexGrammar) (c : Corner) (cs : List Corner) (tail : List Char)
    (hc : c.wf = true) :
    scanfInts g.fmt (renderCorners g (c :: cs) ++ '\n' :: tail)
      = (c.values g, renderCorners g cs ++ '\n' :: tail) := by
  simp only [renderCorners, List.cons_append, List.append_assoc,
    fmt_cons_space g _ (show isspace ' ' = true by decide),
    scanfInts_corner g c hc _ (stop_renderCorners g cs tail)]

theorem scanString_first (g : IndexGrammar) (c c1 : Corner) (cs : List Corner)
    (tail : List Char) (hc : c.wf = true) :
    scanString (renderCorners g (c :: c1 :: cs) ++ '\n' :: tail)
      = some (c.render g, renderCorners g (c1 :: cs) ++ '\n' :: tail) := by
  have h := scanString_token (c.render g) ' ' (c1.render g ++ renderCorners g cs ++ '\n' :: tail)
    (render_ne_nil g c hc) (isspace_render g c hc) (by decide)
  simp only [renderCorners, List.cons_append, List.append_assoc,
    scanString_cons_space _ (show isspace ' ' = true by decide)] at h ⊢
  exact h

theorem fuel_corners (g : IndexGrammar) (cs : List Corner) (tail : List Char) :
    ∃ extra, (renderCorners g cs ++ '\n' :: tail).length + 1 = cs.length + 1 + extra := by
  have h := length_renderCorners g cs
  refine ⟨(renderCorners g cs ++ '\n' :: tail).length - cs.length, ?_⟩
  simp only [List.length_append, List.length_cons]
  omega

/-- Pass 1 on a face line of at least three corners: the locals after the
line are those of `pass1Line`, and the line is read to its end. -/
theorem facePass1_render {F : Type} (g : IndexGrammar) (c0 c1 c2 : Corner) (more : List Corner)
    (tail : List Char) (hwf : ∀ c ∈ c0 :: c1 :: c2 :: more, c.wf = true)
    (hlen : (c0.render g).length ≤ 127) (htail : noIndexAhead tail = true) (st : LoadState F) :
    facePass1 ['f'] (renderCorners g (c0 :: c1 :: c2 :: more) ++ '\n' :: tail) st
      = Except.ok (pass1Line st (Line.face g (c0 :: c1 :: c2 :: more)), skipSpace tail) := by
  have h0 : c0.wf = true := hwf c0 (by simp)
  have h1 : c1.wf = true := hwf c1 (by simp)
  have h2 : c2.wf = true := hwf c2 (by simp)
  have hm : ∀ c ∈ more, c.wf = true := fun c hc => hwf c (by simp [hc])
  have hbuf : ¬ BUF_SIZE ≤ (c0.render g).length := by simp [BUF_SIZE]; omega
  obtain ⟨extra, he⟩ := fuel_corners g more tail
  have hloop := fun nt v => countLoop_corners g more tail hm htail extra nt v
  have hs1 := scanfInts_next g c1 (c2 :: more) tail h1
  have hs2 := scanfInts_next g c2 more tail h2
  have hds := hasDoubleSlash_render g c0 h0
  have hb := scanfInts_buf g c0 h0
  unfold facePass1
  rw [scanString_first g c0 c1 (c2 :: more) tail h0]
  simp only [hbuf, if_false, cstr_render g c0 h0, hds]
  cases g with
  | v =>
    simp only [IndexGrammar.fmt] at hs1 hs2 hloop hb
    simp only [scanfInts_VTN_v c0 h0, scanfInts_VT_v c0 h0, hs1, hs2, he, hloop, pass1Line,
      firstOr_values]
    simp [firstOr, Corner.values, Corner.index]
  | vt =>
    simp only [IndexGrammar.fmt] at hs1 hs2 hloop hb
    simp only [scanfInts_VTN_vt c0 h0, hb, hs1, hs2, he, hloop, pass1Line, firstOr_values]
    simp [firstOr, Corner.values, Corner.index]
  | vn =>
    simp only [IndexGrammar.fmt] at hs1 hs2 hloop hb
    simp only [hb, hs1, hs2, he, hloop, pass1Line, firstOr_values]
    simp [firstOr, Corner.values, Corner.index]
  | vtn =>
    simp only [IndexGrammar.fmt] at hs1 hs2 hloop hb
    simp only [hb, hs1, hs2, he, hloop, pass1Line, firstOr_values]
    simp [firstOr, Corner.values, Corner.index]

/-- Pass 2 on a face line of at least three corners does what `pass2Line`
does, and the line is read to its end. -/
theorem facePass2_render {F : Type} [Zero F] (ops : Point3Ops F) (g : IndexGrammar)
    (c0 c1 c2 : Corner) (more : List Corner)
    (tail : List Char) (hwf : ∀ c ∈ c0 :: c1 :: c2 :: more, c.wf = true)
    (hlen : (c0.render g).length ≤ 127) (htail : noIndexAhead tail = true) (st : LoadState F) :
    facePass2 ops ['f'] (renderCorners g (c0 :: c1 :: c2 :: more) ++ '\n' :: tail) st
      = match pass2Line ops st (Line.face g (c0 :: c1 :: c2 :: more)) with
        | Except.ok st2 => Except.ok (st2, skipSpace tail)
        | Except.error e => Except.error e := by
  have h0 : c0.wf = true := hwf c0 (by simp)
  have h1 : c1.wf = true := hwf c1 (by simp)
  have h2 : c2.wf = true := hwf c2 (by simp)
  have hm : ∀ c ∈ more, c.wf = true := fun c hc => hwf c (by simp [hc])
  have hbuf : ¬ BUF_SIZE ≤ (c0.render g).length := by simp [BUF_SIZE]; omega
  obtain ⟨extra, he⟩ := fuel_corners g more tail
  have hloop := fun s => fanLoop_corners ops g more tail hm htail extra s
  have hs1 := scanfInts_next g c1 (c2 :: more) tail h1
  have hs2 := scanfInts_next g c2 more tail h2
  have hds := hasDoubleSlash_render g c0 h0
  have hb := scanfInts_buf g c0 h0
  unfold facePass2
  rw [scanString_first g c0 c1 (c2 :: more) tail h0]
  simp only [hbuf, if_false, cstr_render g c0 h0, hds]
  cases g with
  | v =>
    simp only [IndexGrammar.fmt] at hs1 hs2 hloop hb
    simp only [scanfInts_VTN_v c0 h0, scanfInts_VT_v c0 h0, hb, hs1, hs2, pass2Line,
      firstOr_values, fanFrom, he]
    simp only [firstOr, Corner.values, Corner.index, List.map_cons, List.getD_cons_zero,
      List.getD_cons_succ, List.drop_succ_cons, List.drop_zero, List.headD_cons]
    simp
    split
    · rename_i st2 hE
      simpa [Corner.index] using hloop st2
    · rfl
  | vt =>
    simp only [IndexGrammar.fmt] at hs1 hs2 hloop hb
    simp only [scanfInts_VTN_vt c0 h0, hb, hs1, hs2, pass2Line, firstOr_values, fanFrom, he]
    simp only [firstOr, Corner.values, Corner.index, List.map_cons, List.getD_cons_zero,
      List.getD_cons_succ, List.drop_succ_cons, List.drop_zero, List.headD_cons]
    simp
    split
    · rename_i st2 hE
      simpa [Corner.index] using hloop st2
    · rfl
  | vn =>
    simp only [IndexGrammar.fmt] at hs1 hs2 hloop hb
    simp only [hb, hs1, hs2, pass2Line, firstOr_values, fanFrom, he]
    simp only [firstOr, Corner.values, Corner.index, List.map_cons, List.getD_cons_zero,
      List.getD_cons_succ, List.drop_succ_cons, List.drop_zero, List.headD_cons]
    simp
    split
    · rename_i st2 hE
      simpa [Corner.index] using hloop st2
    · rfl
  | vtn =>
    simp only [IndexGrammar.fmt] at hs1 hs2 hloop hb
    simp only [hb, hs1, hs2, pass2Line, firstOr_values, fanFrom, he]
    simp only [firstOr, Corner.values, Corner.index, List.map_cons, List.getD_cons_zero,
      List.getD_cons_succ, List.drop_succ_cons, List.drop_zero, List.headD_cons]
    simp
    split
    · rename_i st2 hE
      simpa [Corner.index] using hloop st2
    · rfl

/-! ## Lines the importer ignores -/

theorem takeWhile_append_cons_of_neg {α : Type} (p : α → Bool) (l : List α) (d : α)
    (r : List α) (hd : p d = false) : (l ++ d :: r).takeWhile p = l.takeWhile p := by
  induction l with
  | nil => simp [List.takeWhile, hd]
  | cons a l ih =>
    by_cases ha : p a = true
    · rw [List.cons_append, List.takeWhile_cons_of_pos ha, List.takeWhile_cons_of_pos ha, ih]
    · rw [List.cons_append, List.takeWhile_cons_of_neg ha, List.takeWhile_cons_of_neg ha]

theorem dropWhile_append_cons_of_neg {α : Type} (p : α → Bool) (l : List α) (d : α)
    (r : List α) (hd : p d = false) :
    (l ++ d :: r).dropWhile p = l.dropWhile p ++ d :: r := by
  induction l with
  | nil => simp [List.dropWhile, hd]
  | cons a l ih =>
    by_cases ha : p a = true
    · rw [List.cons_append, List.dropWhile_cons_of_pos ha, List.dropWhile_cons_of_pos ha, ih]
    · rw [List.cons_append, List.dropWhile_cons_of_neg ha, List.dropWhile_cons_of_neg ha,
        List.cons_append]

theorem cstr_cons_head {c d : Char} {s u : List Char} (h : cstr (c :: s) = d :: u) : d = c := by
  unfold cstr at h
  by_cases hc : (c != '\x00') = true
  · rw [List.takeWhile_cons_of_pos (p := fun c => c != '\x00') hc] at h
    exact (List.cons.inj h).1.symm
  · rw [List.takeWhile_cons_of_neg (p := fun c => c != '\x00') hc] at h
    cases h

theorem pass1Body_other {F : Type} (tok rest : List Char) (st : LoadState F)
    (hlen : tok.length ≤ 127) (hv : ∀ t, cstr tok ≠ 'v' :: t) (hf : ∀ t, cstr tok ≠ 'f' :: t) :
    pass1Body tok rest st = Except.ok (st, fgets rest) := by
  have hbuf : ¬ BUF_SIZE ≤ tok.length := by simp [BUF_SIZE]; omega
  unfold pass1Body
  rw [if_neg hbuf]
  split
  · rfl
  · rename_i h; exact absurd h (hv _)
  · rename_i h; exact absurd h (hv _)
  · rename_i h; exact absurd h (hf _)
  · rfl

theorem pass2Body_other {F : Type} [Zero F] (ops : Point3Ops F) (io : Stdio F)
    (tok rest : List Char) (st : LoadState F)
    (hlen : tok.length ≤ 127) (hv : ∀ t, cstr tok ≠ 'v' :: t) (hf : ∀ t, cstr tok ≠ 'f' :: t) :
    pass2Body ops io tok rest st = Except.ok (st, fgets rest) := by
  have hbuf : ¬ BUF_SIZE ≤ tok.length := by simp [BUF_SIZE]; omega
  unfold pass2Body
  rw [if_neg hbuf]
  split
  · rfl
  · rename_i h; exact absurd h (hv _)
  · rename_i h; exact absurd h (hv _)
  · rename_i h; exact absurd h (hf _)
  · rfl

/-- What `%s` and the following `fgets` see of a line of text that starts
with a character other than white space, `v` and `f`. -/
theorem ignored_text (text rest : List Char) (hh : text.head?.any argHead = true)
    (hfit : fitsLine text = true) :
    ∃ tok u, scanString (text ++ '\n' :: rest) = some (tok, u) ∧ tok.length ≤ 127 ∧
      (∀ t, cstr tok ≠ 'v' :: t) ∧ (∀ t, cstr tok ≠ 'f' :: t) ∧ fgets u = rest := by
  cases text with
  | nil => simp at hh
  | cons c t =>
    simp only [List.head?_cons, Option.any_some, argHead, Bool.and_eq_true, Bool.not_eq_true',
      bne_iff_ne, ne_eq] at hh
    obtain ⟨⟨hsp, hv⟩, hf⟩ := hh
    simp only [fitsLine, Bool.and_eq_true, List.all_eq_true, bne_iff_ne, ne_eq,
      decide_eq_true_eq] at hfit
    obtain ⟨hnl, hlen⟩ := hfit
    have hp : (fun d => !isspace d) '\n' = false := by decide
    have hpc : (fun d => !isspace d) c = true := by simp [hsp]
    refine ⟨(c :: t).takeWhile (fun d => !isspace d),
      (c :: t).dropWhile (fun d => !isspace d) ++ '\n' :: rest, ?_, ?_, ?_, ?_, ?_⟩
    · have e1 := takeWhile_append_cons_of_neg (fun d => !isspace d) (c :: t) '\n' rest hp
      have e2 := dropWhile_append_cons_of_neg (fun d => !isspace d) (c :: t) '\n' rest hp
      simp only [List.cons_append] at e1 e2
      simp only [scanString, List.cons_append, skipSpace_cons_of_not _ hsp, e1, e2]
    · have := (List.takeWhile_sublist (fun d => !isspace d) (l := c :: t)).length_le
      omega
    · intro u hu
      rw [List.takeWhile_cons_of_pos (p := fun d => !isspace d) hpc] at hu
      exact hv (cstr_cons_head hu).symm
    · intro u hu
      rw [List.takeWhile_cons_of_pos (p := fun d => !isspace d) hpc] at hu
      exact hf (cstr_cons_head hu).symm
    · apply fgets_line
      · intro d hd
        exact (hnl d ((List.dropWhile_sublist _).subset hd)).1
      · have := (List.dropWhile_sublist (fun d => !isspace d) (l := c :: t)).length_le
        omega

theorem pass1_skipSpace {F : Type} (fuel : Nat) (s : List Char) (st : LoadState F) :
    pass1 fuel (skipSpace s) st = pass1 fuel s st := by
  cases fuel with
  | zero => rfl
  | succ n => simp only [pass1, scanString_skip]

theorem pass1_cons_space {F : Type} (fuel : Nat) {c : Char} (s : List Char) (st : LoadState F)
    (hc : isspace c = true) : pass1 fuel (c :: s) st = pass1 fuel s st := by
  rw [← pass1_skipSpace fuel (c :: s), skipSpace_cons_space s hc, pass1_skipSpace]

theorem pass2_skipSpace {F : Type} [Zero F] (ops : Point3Ops F) (io : Stdio F) (fuel : Nat)
    (s : List Char) (st : LoadState F) :
    pass2 ops io fuel (skipSpace s) st = pass2 ops io fuel s st := by
  cases fuel with
  | zero => rfl
  | succ n => simp only [pass2, scanString_skip]

theorem pass2_cons_space {F : Type} [Zero F] (ops : Point3Ops F) (io : Stdio F) (fuel : Nat)
    {c : Char} (s : List Char) (st : LoadState F) (hc : isspace c = true) :
    pass2 ops io fuel (c :: s) st = pass2 ops io fuel s st := by
  rw [← pass2_skipSpace ops io fuel (c :: s), skipSpace_cons_space s hc, pass2_skipSpace]

theorem pass1_ignored {F : Type} (fuel : Nat) (text rest : List Char) (st : LoadState F)
    (hh : text.head?.any argHead = true) (hfit : fitsLine text = true) :
    pass1 (fuel + 1) (text ++ '\n' :: rest) st = pass1 fuel rest st := by
  obtain ⟨tok, u, h1, h2, h3, h4, h5⟩ := ignored_text text rest hh hfit
  simp only [pass1, h1, pass1Body_other tok u st h2 h3 h4, h5]

theorem pass2_ignored {F : Type} [Zero F] (ops : Point3Ops F) (io : Stdio F) (fuel : Nat)
    (text rest : List Char) (st : LoadState F)
    (hh : text.head?.any argHead = true) (hfit : fitsLine text = true) :
    pass2 ops io (fuel + 1) (text ++ '\n' :: rest) st = pass2 ops io fuel rest st := by
  obtain ⟨tok, u, h1, h2, h3, h4, h5⟩ := ignored_text text rest hh hfit
  simp only [pass2, h1, pass2Body_other ops io tok u st h2 h3 h4, h5]

theorem argHead_of_skipHead (text : List Char) (h : text.head?.any skipHead = true) :
    text.head?.any argHead = true := by
  cases text with
  | nil => simp at h
  | cons c t =>
    simp only [List.head?_cons, Option.any_some, skipHead, argHead, Bool.and_eq_true] at h ⊢
    exact ⟨⟨h.1.1.1.1.1, h.1.1.1.1.2⟩, h.1.1.1.2⟩

/-! ## The two loops, line by line -/

theorem reads_isspace {F : Type} {io : Stdio F} {lit : List Char} {a : F}
    (h : io.Reads lit a) : ∀ c ∈ lit, isspace c = false := h.2.1

theorem reads_no_newline {F : Type} {io : Stdio F} {lit : List Char} {a : F}
    (h : io.Reads lit a) : ∀ c ∈ lit, c ≠ '\n' := by
  intro c hc hn
  have := h.2.1 c hc
  rw [hn] at this
  exact absurd this (by decide)

theorem scanFloatDirective_reads {F : Type} (io : Stdio F) (lit : List Char) (a : F)
    (h : io.Reads lit a) (c : Char) (r : List Char) (hc : isspace c = true) :
    scanFloatDirective io (' ' :: (lit ++ c :: r)) = (some a, c :: r) := by
  obtain ⟨hne, hsp, hread⟩ := h
  cases lit with
  | nil => exact absurd rfl hne
  | cons x t =>
    have hx : isspace x = false := hsp x (List.mem_cons_self x t)
    have := hread c r hc
    simp only [List.cons_append] at this
    simp only [scanFloatDirective, skipSpace_cons_space _ (show isspace ' ' = true by decide),
      List.cons_append, skipSpace_cons_of_not _ hx, this]

theorem scanThreeFloats_line {F : Type} (io : Stdio F) (x y z : List Char) (p : Point3 F)
    (hx : io.Reads x p.x) (hy : io.Reads y p.y) (hz : io.Reads z p.z) (rest : List Char)
    (a b c : F) :
    scanThreeFloats io (' ' :: (x ++ ' ' :: (y ++ ' ' :: (z ++ '\n' :: rest)))) a b c
      = ((p.x, p.y, p.z), '\n' :: rest) := by
  simp only [scanThreeFloats,
    scanFloatDirective_reads io x p.x hx ' ' _ (by decide),
    scanFloatDirective_reads io y p.y hy ' ' _ (by decide),
    scanFloatDirective_reads io z p.z hz '\n' _ (by decide)]

theorem vertex_fgets {F : Type} (io : Stdio F) (x y z : List Char) (p : Point3 F)
    (hx : io.Reads x p.x) (hy : io.Reads y p.y) (hz : io.Reads z p.z)
    (hlen : x.length + y.length + z.length ≤ 123) (rest : List Char) :
    fgets (' ' :: (x ++ ' ' :: (y ++ ' ' :: (z ++ '\n' :: rest)))) = rest := by
  have e : ' ' :: (x ++ ' ' :: (y ++ ' ' :: (z ++ '\n' :: rest)))
      = (' ' :: (x ++ ' ' :: (y ++ ' ' :: z))) ++ '\n' :: rest := by simp
  rw [e]
  apply fgets_line
  · intro d hd
    simp only [List.mem_cons, List.mem_append] at hd
    rcases hd with h | h | h | h | h | h
    · subst h; decide
    · exact reads_no_newline hx d h
    · subst h; decide
    · exact reads_no_newline hy d h
    · subst h; decide
    · exact reads_no_newline hz d h
  · simp only [List.length_cons, List.length_append]
    omega

theorem cstr_v_kw (kw : List Char)
    (hkw : (!kw.isEmpty && kw.all (fun c => !isspace c && c != '\x00' && isascii c)
        && kw.length ≤ 126) = true) :
    ∃ k ks, cstr ('v' :: kw) = 'v' :: k :: ks ∧ (∀ c ∈ 'v' :: kw, isspace c = false) ∧
      ('v' :: kw).length ≤ 127 := by
  cases kw with
  | nil => simp at hkw
  | cons k t =>
    simp only [List.isEmpty_cons, Bool.not_false, Bool.true_and, Bool.and_eq_true,
      List.all_eq_true, Bool.not_eq_true', bne_iff_ne, ne_eq, decide_eq_true_eq,
      List.length_cons] at hkw
    obtain ⟨hall, hlen⟩ := hkw
    have hk := hall k (List.mem_cons_self k t)
    refine ⟨k, cstr t, ?_, ?_, ?_⟩
    · have h1 : ('v' != '\x00') = true := by decide
      have h2 : (k != '\x00') = true := by simpa using hk.1.2
      unfold cstr
      rw [List.takeWhile_cons_of_pos (p := fun c => c != '\x00') h1,
        List.takeWhile_cons_of_pos (p := fun c => c != '\x00') h2]
    · intro c hc
      simp only [List.mem_cons] at hc
      rcases hc with h | h | h
      · subst h; decide
      · subst h; exact hk.1.1
      · exact (hall c (List.mem_cons_of_mem k h)).1.1
    · simp only [List.length_cons]; omega

theorem pass1Body_vdir {F : Type} (tok rest : List Char) (st : LoadState F) (k : Char)
    (ks : List Char) (hlen : tok.length ≤ 127) (hc : cstr tok = 'v' :: k :: ks) :
    pass1Body tok rest st = Except.ok (st, rest) := by
  have hbuf : ¬ BUF_SIZE ≤ tok.length := by simp [BUF_SIZE]; omega
  unfold pass1Body
  rw [if_neg hbuf, hc]
  split <;> first | rfl | simp_all

theorem pass2Body_vdir {F : Type} [Zero F] (ops : Point3Ops F) (io : Stdio F)
    (tok rest : List Char) (st : LoadState F) (k : Char)
    (ks : List Char) (hlen : tok.length ≤ 127) (hc : cstr tok = 'v' :: k :: ks) :
    pass2Body ops io tok rest st = Except.ok (st, rest) := by
  have hbuf : ¬ BUF_SIZE ≤ tok.length := by simp [BUF_SIZE]; omega
  unfold pass2Body
  rw [if_neg hbuf, hc]
  split <;> first | rfl | simp_all

/-- One line of a file in the loop of pass 1. -/
theorem pass1_line {F : Type} (io : Stdio F) (l : Line F) (hl : l.WellFormed io)
    (rest : List Char) (hrest : noIndexAhead rest = true) (fuel : Nat) (st : LoadState F) :
    pass1 (fuel + l.cost) (l.render ++ rest) st = pass1 fuel rest (pass1Line st l) := by
  cases l with
  | blank =>
    exact pass1_cons_space fuel rest st (by decide)
  | skip text =>
    obtain ⟨hh, hfit⟩ := hl
    have := pass1_ignored fuel text rest st (argHead_of_skipHead text hh) hfit
    simpa [Line.render, Line.cost, pass1Line] using this
  | vdir kw text =>
    obtain ⟨hkw, hh, hfit⟩ := hl
    obtain ⟨k, ks, hc, hsp, hlen⟩ := cstr_v_kw kw hkw
    have h1 := scanString_token ('v' :: kw) ' ' (text ++ '\n' :: rest) (by simp) hsp (by decide)
    have h2 := pass1_ignored fuel text rest st hh hfit
    simp only [List.cons_append] at h1
    simp only [Line.render, Line.cost, pass1Line, List.cons_append, List.append_assoc,
      List.nil_append]
    rw [show fuel + 2 = (fuel + 1) + 1 from rfl, pass1]
    simp only [h1, pass1Body_vdir _ _ st k ks hlen hc]
    rw [pass1_cons_space (fuel + 1) _ st (by decide)]
    exact h2
  | vertex x y z p =>
    obtain ⟨hx, hy, hz, hlen, _⟩ := hl
    have h1 := scanString_token ['v'] ' ' (x ++ ' ' :: (y ++ ' ' :: (z ++ '\n' :: rest)))
      (by simp) (by decide) (by decide)
    have h2 := vertex_fgets io x y z p hx hy hz hlen rest
    simp only [List.cons_append, List.nil_append] at h1
    simp only [Line.render, Line.cost, pass1Line, List.cons_append, List.append_assoc,
      List.nil_append, pass1, h1]
    have hb : pass1Body ['v'] (' ' :: (x ++ ' ' :: (y ++ ' ' :: (z ++ '\n' :: rest)))) st
        = Except.ok ({ st with nv := st.nv + 1 }, rest) := by
      simp [pass1Body, BUF_SIZE, cstr, h2]
    rw [hb]
  | face g cs =>
    obtain ⟨h3, hwf, hfirst⟩ := hl
    rcases cs with _ | ⟨c0, _ | ⟨c1, _ | ⟨c2, more⟩⟩⟩
    · simp at h3
    · simp at h3
    · simp at h3
    · have hlen : (c0.render g).length ≤ 127 := hfirst c0 (by simp)
      have h1 := scanString_token ['f'] ' '
        (c0.render g ++ (renderCorners g (c1 :: c2 :: more) ++ '\n' :: rest))
        (by simp) (by decide) (by decide)
      have h2 := facePass1_render g c0 c1 c2 more rest hwf hlen hrest st
      simp only [List.cons_append, List.nil_append] at h1
      have e : (Line.face g (c0 :: c1 :: c2 :: more) : Line F).render ++ rest
          = 'f' :: ' ' :: (c0.render g ++ (renderCorners g (c1 :: c2 :: more) ++ '\n' :: rest)) := by
        simp [Line.render, renderCorners]
      have e2 : renderCorners g (c0 :: c1 :: c2 :: more) ++ '\n' :: rest
          = ' ' :: (c0.render g ++ (renderCorners g (c1 :: c2 :: more) ++ '\n' :: rest)) := by
        simp [renderCorners]
      rw [e2] at h2
      have hb : pass1Body ['f']
          (' ' :: (c0.render g ++ (renderCorners g (c1 :: c2 :: more) ++ '\n' :: rest))) st
          = Except.ok (pass1Line st (Line.face g (c0 :: c1 :: c2 :: more)), skipSpace rest) := by
        rw [← h2]
        simp [pass1Body, BUF_SIZE, cstr]
      rw [e]
      simp only [Line.cost, pass1, h1, hb]
      exact pass1_skipSpace fuel rest _

/-- One line of a file in the loop of pass 2. -/
theorem pass2_line {F : Type} [Zero F] (ops : Point3Ops F) (io : Stdio F) (l : Line F)
    (hl : l.WellFormed io)
    (rest : List Char) (hrest : noIndexAhead rest = true) (fuel : Nat) (st : LoadState F) :
    pass2 ops io (fuel + l.cost) (l.render ++ rest) st
      = match pass2Line ops st l with
        | Except.ok st2 => pass2 ops io fuel rest st2
        | Except.error e => Except.error e := by
  cases l with
  | blank =>
    exact pass2_cons_space ops io fuel rest st (by decide)
  | skip text =>
    obtain ⟨hh, hfit⟩ := hl
    have := pass2_ignored ops io fuel text rest st (argHead_of_skipHead text hh) hfit
    simpa [Line.render, Line.cost, pass2Line] using this
  | vdir kw text =>
    obtain ⟨hkw, hh, hfit⟩ := hl
    obtain ⟨k, ks, hc, hsp, hlen⟩ := cstr_v_kw kw hkw
    have h1 := scanString_token ('v' :: kw) ' ' (text ++ '\n' :: rest) (by simp) hsp (by decide)
    have h2 := pass2_ignored ops io fuel text rest st hh hfit
    simp only [List.cons_append] at h1
    simp only [Line.render, Line.cost, pass2Line, List.cons_append, List.append_assoc,
      List.nil_append]
    rw [show fuel + 2 = (fuel + 1) + 1 from rfl, pass2]
    simp only [h1, pass2Body_vdir ops io _ _ st k ks hlen hc]
    rw [pass2_cons_space ops io (fuel + 1) _ st (by decide)]
    exact h2
  | vertex x y z p =>
    obtain ⟨hx, hy, hz, hlen, _⟩ := hl
    have h1 := scanString_token ['v'] ' ' (x ++ ' ' :: (y ++ ' ' :: (z ++ '\n' :: rest)))
      (by simp) (by decide) (by decide)
    have h2 := scanThreeFloats_line io x y z p hx hy hz rest st.x st.y st.z
    simp only [List.cons_append, List.nil_append] at h1
    simp only [Line.render, Line.cost, pass2Line, List.cons_append, List.append_assoc,
      List.nil_append, pass2, h1]
    have hb : pass2Body ops io ['v'] (' ' :: (x ++ ' ' :: (y ++ ' ' :: (z ++ '\n' :: rest)))) st
        = match storeVertex { st with x := p.x, y := p.y, z := p.z } with
          | Except.ok st2 => Except.ok ({ st2 with nv := st2.nv + 1 }, '\n' :: rest)
          | Except.error e => Except.error e := by
      simp [pass2Body, BUF_SIZE, cstr, h2]
    rw [hb]
    cases hE : storeVertex { st with x := p.x, y := p.y, z := p.z } with
    | error err => rfl
    | ok st2 => exact pass2_cons_space ops io fuel rest _ (by decide)
  | face g cs =>
    obtain ⟨h3, hwf, hfirst⟩ := hl
    rcases cs with _ | ⟨c0, _ | ⟨c1, _ | ⟨c2, more⟩⟩⟩
    · simp at h3
    · simp at h3
    · simp at h3
    · have hlen : (c0.render g).length ≤ 127 := hfirst c0 (by simp)
      have h1 := scanString_token ['f'] ' '
        (c0.render g ++ (renderCorners g (c1 :: c2 :: more) ++ '\n' :: rest))
        (by simp) (by decide) (by decide)
      have h2 := facePass2_render ops g c0 c1 c2 more rest hwf hlen hrest st
      simp only [List.cons_append, List.nil_append] at h1
      have e : (Line.face g (c0 :: c1 :: c2 :: more) : Line F).render ++ rest
          = 'f' :: ' ' :: (c0.render g ++ (renderCorners g (c1 :: c2 :: more) ++ '\n' :: rest)) := by
        simp [Line.render, renderCorners]
      have e2 : renderCorners g (c0 :: c1 :: c2 :: more) ++ '\n' :: rest
          = ' ' :: (c0.render g ++ (renderCorners g (c1 :: c2 :: more) ++ '\n' :: rest)) := by
        simp [renderCorners]
      rw [e2] at h2
      have hb : pass2Body ops io ['f']
          (' ' :: (c0.render g ++ (renderCorners g (c1 :: c2 :: more) ++ '\n' :: rest))) st
          = facePass2 ops ['f']
              (' ' :: (c0.render g ++ (renderCorners g (c1 :: c2 :: more) ++ '\n' :: rest))) st := by
        simp [pass2Body, BUF_SIZE, cstr]
      rw [e]
      simp only [Line.cost, pass2, h1, hb, h2]
      cases hE : pass2Line ops st (Line.face g (c0 :: c1 :: c2 :: more)) with
      | error err => rfl
      | ok st2 => exact pass2_skipSpace ops io fuel rest st2

/-! ## Whole files -/

theorem noIndexAhead_cons {c : Char} (s : List Char) (h1 : isspace c = false)
    (h4 : c.isDigit = false) (h5 : c ≠ '+') (h6 : c ≠ '-') :
    noIndexAhead (c :: s) = true := by
  simp [noIndexAhead, skipSpace_cons_of_not s h1, h4, h5, h6]

/-- Every line of a well formed file starts with a character that ends a run
of indices. -/
theorem noIndexAhead_renderFile {F : Type} (io : Stdio F) (ls : List (Line F))
    (h : WellFormedFile io ls) : noIndexAhead (renderFile ls) = true := by
  induction ls with
  | nil => rfl
  | cons l ls ih =>
    have hl : l.WellFormed io := h l (List.mem_cons_self l ls)
    have hls : WellFormedFile io ls := fun m hm => h m (List.mem_cons_of_mem l hm)
    cases l with
    | blank =>
      simp only [renderFile, Line.render, List.cons_append, List.nil_append]
      rw [noIndexAhead_cons_space _ (by decide)]
      exact ih hls
    | skip text =>
      obtain ⟨hh, _⟩ := hl
      cases text with
      | nil => simp at hh
      | cons c t =>
        simp only [List.head?_cons, Option.any_some, skipHead, Bool.and_eq_true,
          Bool.not_eq_true', bne_iff_ne, ne_eq] at hh
        obtain ⟨⟨⟨⟨⟨h1, _⟩, _⟩, h4⟩, h5⟩, h6⟩ := hh
        exact noIndexAhead_cons _ h1 h4 h5 h6
    | vdir kw text => exact noIndexAhead_cons _ (by decide) (by decide) (by decide) (by decide)
    | vertex x y z p => exact noIndexAhead_cons _ (by decide) (by decide) (by decide) (by decide)
    | face g cs => exact noIndexAhead_cons _ (by decide) (by decide) (by decide) (by decide)

theorem cost_le_length {F : Type} (l : Line F) : l.cost ≤ l.render.length := by
  cases l <;> simp [Line.cost, Line.render]
  omega

theorem fileCost_le_length {F : Type} (ls : List (Line F)) :
    fileCost ls ≤ (renderFile ls).length := by
  induction ls with
  | nil => simp [fileCost, renderFile]
  | cons l ls ih =>
    have := cost_le_length l
    simp only [fileCost, renderFile, List.length_append]
    omega

/-- Pass 1 on a well formed file is pass 1 line by line. -/
theorem pass1_file {F : Type} (io : Stdio F) (ls : List (Line F)) (h : WellFormedFile io ls)
    (fuel : Nat) (st : LoadState F) :
    pass1 (fuel + 1 + fileCost ls) (renderFile ls) st = Except.ok (pass1Lines st ls) := by
  induction ls generalizing st with
  | nil => simp [fileCost, renderFile, pass1, scanString, skipSpace, pass1Lines]
  | cons l ls ih =>
    have hl : l.WellFormed io := h l (List.mem_cons_self l ls)
    have hls : WellFormedFile io ls := fun m hm => h m (List.mem_cons_of_mem l hm)
    have e : fuel + 1 + fileCost (l :: ls) = (fuel + 1 + fileCost ls) + l.cost := by
      simp only [fileCost]; omega
    rw [e, renderFile, pass1_line io l hl _ (noIndexAhead_renderFile io ls hls), ih hls]
    rfl

/-- Pass 2 on a well formed file is pass 2 line by line. -/
theorem pass2_file {F : Type} [Zero F] (ops : Point3Ops F) (io : Stdio F) (ls : List (Line F))
    (h : WellFormedFile io ls) (fuel : Nat) (st : LoadState F) :
    pass2 ops io (fuel + 1 + fileCost ls) (renderFile ls) st = pass2Lines ops st ls := by
  induction ls generalizing st with
  | nil => simp [fileCost, renderFile, pass2, scanString, skipSpace, pass2Lines]
  | cons l ls ih =>
    have hl : l.WellFormed io := h l (List.mem_cons_self l ls)
    have hls : WellFormedFile io ls := fun m hm => h m (List.mem_cons_of_mem l hm)
    have e : fuel + 1 + fileCost (l :: ls) = (fuel + 1 + fileCost ls) + l.cost := by
      simp only [fileCost]; omega
    rw [e, renderFile, pass2_line ops io l hl _ (noIndexAhead_renderFile io ls hls), pass2Lines]
    cases hE : pass2Line ops st l with
    | error err => rfl
    | ok st2 => exact ih hls st2

/-- The two loops of `loadMesh` on a well formed file: the state after the
second loop is the one computed line by line. -/
theorem loadState_file {F : Type} [Zero F] (ops : Point3Ops F) (io : Stdio F)
    (ind : Indeterminate F) (ls : List (Line F)) (h : WellFormedFile io ls) :
    loadState ops io ind (renderFile ls)
      = pass2Lines ops (betweenPasses (pass1Lines (startState ind) ls)) ls := by
  have hlen := fileCost_le_length ls
  obtain ⟨k, hk⟩ : ∃ k, (renderFile ls).length + 1 = k + 1 + fileCost ls :=
    ⟨(renderFile ls).length - fileCost ls, by omega⟩
  unfold loadState
  simp only [hk, pass1_file io ls h k, pass2_file ops io ls h k]

/-! ## Building faces -/

theorem vertexAt_nat {F : Type} (verts : List (Vertex F)) (i : Nat) (h : i < verts.length) :
    vertexAt verts (i : Int) = Except.ok (i, verts[i]) := by
  simp [vertexAt, List.getElem?_eq_getElem h]

theorem vertexAt_ok {F : Type} {verts : List (Vertex F)} {i : Int} {k : Nat} {v : Vertex F}
    (h : vertexAt verts i = Except.ok (k, v)) :
    i = (k : Int) ∧ k < verts.length ∧ verts[k]? = some v := by
  unfold vertexAt at h
  by_cases hi : 0 ≤ i
  · rw [if_pos hi] at h
    cases hv : verts[i.toNat]? with
    | none => rw [hv] at h; cases h
    | some w =>
      rw [hv] at h
      injection h with h
      injection h with h1 h2
      subst h1 h2
      refine ⟨(Int.toNat_of_nonneg hi).symm, ?_, hv⟩
      exact (List.getElem?_eq_some_iff.1 hv).1
  · rw [if_neg hi] at h
    cases h

theorem faceOn_eq {F : Type} [Zero F] (ops : Point3Ops F) (verts : List (Vertex F))
    (a b c : Nat) (p q r : Vertex F) (ha : verts[a]? = some p) (hb : verts[b]? = some q)
    (hc : verts[c]? = some r) :
    faceOn ops verts (a, b, c)
      = { v0 := a, v1 := b, v2 := c, normal := computeNormal ops p.point q.point r.point } := by
  simp [faceOn, List.getD_eq_getElem?_getD, ha, hb, hc]

/-- The constructor `Face` on three slots inside the store. -/
theorem mkFace_nat {F : Type} [Zero F] (ops : Point3Ops F) (verts : List (Vertex F))
    (a b c : Nat) (ha : a < verts.length) (hb : b < verts.length) (hc : c < verts.length) :
    mkFace ops verts (a : Int) (b : Int) (c : Int) = Except.ok (faceOn ops verts (a, b, c)) := by
  simp only [mkFace, vertexAt_nat verts a ha, vertexAt_nat verts b hb, vertexAt_nat verts c hc]
  rw [faceOn_eq ops verts a b c _ _ _ (List.getElem?_eq_getElem ha)
    (List.getElem?_eq_getElem hb) (List.getElem?_eq_getElem hc)]

/-- A face that was built names three slots inside the store and carries the
normal of the positions found there. -/
theorem mkFace_ok {F : Type} [Zero F] {ops : Point3Ops F} {verts : List (Vertex F)}
    {a b c : Int} {f : Face F} (h : mkFace ops verts a b c = Except.ok f) :
    ∃ i j k : Nat, a = (i : Int) ∧ b = (j : Int) ∧ c = (k : Int) ∧ i < verts.length ∧
      j < verts.length ∧ k < verts.length ∧ f = faceOn ops verts (i, j, k) := by
  unfold mkFace at h
  split at h
  · rename_i i p j q k r h1 h2 h3
    obtain ⟨e1, l1, g1⟩ := vertexAt_ok h1
    obtain ⟨e2, l2, g2⟩ := vertexAt_ok h2
    obtain ⟨e3, l3, g3⟩ := vertexAt_ok h3
    injection h with h
    refine ⟨i, j, k, e1, e2, e3, l1, l2, l3, ?_⟩
    rw [faceOn_eq ops verts i j k p q r g1 g2 g3, ← h]
  · cases h

theorem emplaceFace_nat {F : Type} [Zero F] (ops : Point3Ops F) (st : LoadState F)
    (a b c : Nat) (hva : st.va = (a : Int)) (hvb : st.vb = (b : Int)) (hvc : st.vc = (c : Int))
    (ha : a < st.ret.m_verts.length) (hb : b < st.ret.m_verts.length)
    (hc : c < st.ret.m_verts.length) :
    emplaceFace ops st
      = Except.ok { st with
          ret := { st.ret with m_faces := st.ret.m_faces ++ [faceOn ops st.ret.m_verts (a, c, b)] },
          nt := st.nt + 1, vb := st.vc } := by
  simp only [emplaceFace, hva, hvb, hvc, mkFace_nat ops st.ret.m_verts a c b ha hc hb]

theorem emplaceFace_ok {F : Type} [Zero F] {ops : Point3Ops F} {st st2 : LoadState F}
    (h : emplaceFace ops st = Except.ok st2) :
    ∃ f : Face F, mkFace ops st.ret.m_verts st.va st.vc st.vb = Except.ok f ∧
      st2 = { st with ret := { st.ret with m_faces := st.ret.m_faces ++ [f] },
                      nt := st.nt + 1, vb := st.vc } := by
  unfold emplaceFace at h
  cases hm : mkFace ops st.ret.m_verts st.va st.vc st.vb with
  | error e => rw [hm] at h; cases h
  | ok f =>
    rw [hm] at h
    injection h with h
    exact ⟨f, rfl, h.symm⟩

theorem emplaceFace_slots {F : Type} [Zero F] (ops : Point3Ops F) (st : LoadState F)
    (a b c : Nat) (hva : st.va = (a : Int)) (hvb : st.vb = (b : Int)) (hvc : st.vc = (c : Int))
    (ha : a < st.ret.m_verts.length) (hb : b < st.ret.m_verts.length)
    (hc : c < st.ret.m_verts.length) :
    ∃ st2, emplaceFace ops st = Except.ok st2 ∧ st2.va = (a : Int) ∧ st2.vb = (c : Int) ∧
      st2.ret.m_verts = st.ret.m_verts ∧ st2.nv = st.nv ∧
      st2.ret.m_faces = st.ret.m_faces ++ [faceOn ops st.ret.m_verts (a, c, b)] :=
  ⟨_, emplaceFace_nat ops st a b c hva hvb hvc ha hb hc, hva, hvc, rfl, rfl, rfl⟩

/-- The fan loop on indices inside the store: one face per index, each on the
anchor, the new slot and the slot before it. -/
theorem fanLine_nat {F : Type} [Zero F] (ops : Point3Ops F) (idx : List Nat) (bound : Nat)
    (st : LoadState F) (a b : Nat) (hva : st.va = (a : Int)) (hvb : st.vb = (b : Int))
    (ha : a < bound) (hb : b < bound) (hbound : bound ≤ st.ret.m_verts.length)
    (hidx : ∀ i ∈ idx, 1 ≤ i ∧ i ≤ bound) :
    ∃ st2, fanLine ops (idx.map (fun i : Nat => (i : Int))) st = Except.ok st2 ∧
      st2.ret.m_verts = st.ret.m_verts ∧ st2.nv = st.nv ∧
      st2.ret.m_faces = st.ret.m_faces
        ++ (List.zipWith (fun prev cur => (a, cur, prev)) (b :: idx.map (fun i : Nat => i - 1))
              (idx.map (fun i : Nat => i - 1))).map (faceOn ops st.ret.m_verts) := by
  induction idx generalizing st b with
  | nil => exact ⟨st, rfl, rfl, rfl, by simp⟩
  | cons i idx ih =>
    obtain ⟨hi1, hi2⟩ := hidx i (List.mem_cons_self i idx)
    have hc : ((i : Int) - 1) = ((i - 1 : Nat) : Int) := by omega
    obtain ⟨st1, hE, e1, e2, e3, e4, e5⟩ :=
      emplaceFace_slots ops { st with vc := (i : Int) - 1 } a b (i - 1) hva hvb hc
        (by simpa using (by omega : a < st.ret.m_verts.length))
        (by simpa using (by omega : b < st.ret.m_verts.length))
        (by simpa using (by omega : i - 1 < st.ret.m_verts.length))
    simp only at e3 e4 e5
    obtain ⟨st2, h1, h2, h3, h4⟩ := ih st1 (i - 1) e1 e2 (by omega) (by rw [e3]; exact hbound)
      (fun j hj => hidx j (List.mem_cons_of_mem i hj))
    refine ⟨st2, ?_, ?_, ?_, ?_⟩
    · simp only [List.map_cons, fanLine, hE]
      exact h1
    · rw [h2, e3]
    · rw [h3, e4]
    · rw [h4, e5, e3]
      simp [List.append_assoc]

theorem fanLine_ok {F : Type} [Zero F] {ops : Point3Ops F} (idx : List Int)
    {st st2 : LoadState F} (h : fanLine ops idx st = Except.ok st2) :
    st2.ret.m_verts = st.ret.m_verts ∧ st2.nv = st.nv ∧
      ∃ fs : List (Face F), st2.ret.m_faces = st.ret.m_faces ++ fs ∧ fs.length = idx.length := by
  induction idx generalizing st with
  | nil =>
    injection h with h
    subst h
    exact ⟨rfl, rfl, [], by simp, rfl⟩
  | cons i idx ih =>
    simp only [fanLine] at h
    cases hE : emplaceFace ops { st with vc := i - 1 } with
    | error e => rw [hE] at h; cases h
    | ok st1 =>
      rw [hE] at h
      obtain ⟨f, _, hst1⟩ := emplaceFace_ok hE
      obtain ⟨h2, h3, fs, h4, h5⟩ := ih h
      subst hst1
      exact ⟨h2, h3, f :: fs, by simp [h4], by simp [h5]⟩

/-! ## Pass 2, one line at a time -/

/-- Pass 2 on a face line that is not written `i/j`, with indices inside the
store: the fan is appended. -/
theorem pass2Line_face {F : Type} [Zero F] (ops : Point3Ops F) (g : IndexGrammar)
    (cs : List Corner) (bound : Nat) (st : LoadState F) (hg : g ≠ IndexGrammar.vt)
    (h3 : 3 ≤ cs.length) (hidx : ∀ c ∈ cs, 1 ≤ c.index ∧ c.index ≤ bound)
    (hbound : bound ≤ st.ret.m_verts.length) :
    ∃ st2, pass2Line ops st (Line.face g cs) = Except.ok st2 ∧
      st2.ret.m_verts = st.ret.m_verts ∧ st2.nv = st.nv ∧
      st2.ret.m_faces = st.ret.m_faces ++ (fan (slots cs)).map (faceOn ops st.ret.m_verts) := by
  rcases cs with _ | ⟨c0, _ | ⟨c1, _ | ⟨c2, more⟩⟩⟩
  · simp at h3
  · simp at h3
  · simp at h3
  · obtain ⟨l0, u0⟩ := hidx c0 (by simp)
    obtain ⟨l1, u1⟩ := hidx c1 (by simp)
    obtain ⟨l2, u2⟩ := hidx c2 (by simp)
    have e0 : ((c0.index : Int) - 1) = ((c0.index - 1 : Nat) : Int) := by omega
    have e1 : ((c1.index : Int) - 1) = ((c1.index - 1 : Nat) : Int) := by omega
    have e2 : ((c2.index : Int) - 1) = ((c2.index - 1 : Nat) : Int) := by omega
    obtain ⟨st1, hE, f1, f2, f3, f4, f5⟩ :=
      emplaceFace_slots ops
        { st with va := (c0.index : Int) - 1, vb := (c1.index : Int) - 1,
                  vc := (c2.index : Int) - 1 }
        (c0.index - 1) (c1.index - 1) (c2.index - 1) e0 e1 e2
        (by simpa using (by omega : c0.index - 1 < st.ret.m_verts.length))
        (by simpa using (by omega : c1.index - 1 < st.ret.m_verts.length))
        (by simpa using (by omega : c2.index - 1 < st.ret.m_verts.length))
    simp only at f3 f4 f5
    obtain ⟨st2, k1, k2, k3, k4⟩ :=
      fanLine_nat ops (more.map Corner.index) bound st1 (c0.index - 1) (c2.index - 1) f1 f2
        (by omega) (by omega) (by rw [f3]; exact hbound)
        (fun i hi => by
          obtain ⟨c, hc, rfl⟩ := List.mem_map.1 hi
          exact hidx c (by simp [hc]))
    have hmap : (more.map Corner.index).map (fun i : Nat => (i : Int))
        = more.map (fun c => (c.index : Int)) := by simp
    rw [hmap] at k1
    refine ⟨st2, ?_, by rw [k2, f3], by rw [k3, f4], ?_⟩
    · cases g with
      | vt => exact absurd rfl hg
      | v => simpa [pass2Line, hE] using k1
      | vn => simpa [pass2Line, hE] using k1
      | vtn => simpa [pass2Line, hE] using k1
    · rw [k4, f5, f3]
      simp [fan, slots, List.append_assoc, Function.comp_def]

theorem emplaceFace_keeps {F : Type} [Zero F] {ops : Point3Ops F} {st st2 : LoadState F}
    (h : emplaceFace ops st = Except.ok st2) :
    st2.ret.m_verts = st.ret.m_verts ∧ st2.nv = st.nv ∧
      st2.ret.m_faces.length = st.ret.m_faces.length + 1 := by
  obtain ⟨f, _, rfl⟩ := emplaceFace_ok h
  simp

/-- Whatever pass 2 does on a line: a `v` line finds slot `nv` inside the store
and writes it, other lines leave the store alone; the face list grows by
`N - 2` faces on a face line of `N ≥ 3` corners and not at all on other lines. -/
theorem pass2Line_ok {F : Type} [Zero F] {ops : Point3Ops F} {io : Stdio F} {l : Line F}
    {st st2 : LoadState F} (hl : l.WellFormed io) (h : pass2Line ops st l = Except.ok st2) :
    st2.ret.m_verts = storeAfter st l ∧
      st2.nv = st.nv + (vertexLines [l]).length ∧
      st.nv + (vertexLines [l]).length ≤ max st.nv st.ret.m_verts.length ∧
      st2.ret.m_faces.length = st.ret.m_faces.length + triangleCount [l] := by
  cases l with
  | blank => injection h with h; subst h; simp [triangleCount, vertexLines, storeAfter]
  | skip text => injection h with h; subst h; simp [triangleCount, vertexLines, storeAfter]
  | vdir kw text => injection h with h; subst h; simp [triangleCount, vertexLines, storeAfter]
  | vertex x y z p =>
    by_cases hnv : st.nv < st.ret.m_verts.length
    · simp only [pass2Line, storeVertex, hnv, if_true] at h
      injection h with h
      subst h
      simp [triangleCount, vertexLines, storeAfter]
      omega
    · simp only [pass2Line, storeVertex, hnv, if_false] at h
      cases h
  | face g cs =>
    obtain ⟨h3, _, _⟩ := hl
    rcases cs with _ | ⟨c0, _ | ⟨c1, _ | ⟨c2, more⟩⟩⟩
    · simp at h3
    · simp at h3
    · simp at h3
    · simp only [pass2Line] at h
      split at h
      · rename_i st1 hE
        obtain ⟨b1, b2, b3⟩ := emplaceFace_keeps hE
        obtain ⟨a1, a2, fs, a3, a4⟩ := fanLine_ok _ h
        refine ⟨?_, ?_, ?_, ?_⟩
        · rw [a1, b1]; cases g <;> rfl
        · rw [a2, b2]; cases g <;> rfl
        · simp [vertexLines]
        · rw [a3, List.length_append, b3, a4]
          cases g <;> simp [triangleCount] <;> omega
      · cases h

/-- Pass 2 on a `v` line while a slot is free: the position is stored in slot
`nv`, and `nv` advances. -/
theorem pass2Line_vertex {F : Type} [Zero F] (ops : Point3Ops F) (x y z : List Char)
    (p : Point3 F) (st : LoadState F) (h : st.nv < st.ret.m_verts.length) :
    ∃ st2, pass2Line ops st (Line.vertex x y z p) = Except.ok st2 ∧
      st2.ret.m_verts = st.ret.m_verts.set st.nv (Vertex.ofPoint p) ∧ st2.nv = st.nv + 1 ∧
      st2.ret.m_faces = st.ret.m_faces := by
  refine ⟨{ st with x := p.x, y := p.y, z := p.z, nv := st.nv + 1,
                    ret := { st.ret with
                      m_verts := st.ret.m_verts.set st.nv (Vertex.ofPoint p) } },
    ?_, rfl, rfl, rfl⟩
  simp only [pass2Line, storeVertex, h, if_true]

/-! ## Whole files, line by line -/

theorem vertexLines_cons {F : Type} (l : Line F) (ls : List (Line F)) :
    vertexLines (l :: ls) = vertexLines [l] ++ vertexLines ls := by
  cases l <;> simp [vertexLines]

theorem triangleCount_cons {F : Type} (l : Line F) (ls : List (Line F)) :
    triangleCount (l :: ls) = triangleCount [l] + triangleCount ls := by
  cases l <;> simp [triangleCount]

theorem pass1Line_nv {F : Type} (st : LoadState F) (l : Line F) :
    (pass1Line st l).nv = st.nv + (vertexLines [l]).length ∧ (pass1Line st l).ret = st.ret := by
  cases l with
  | face g cs => cases g <;> simp [pass1Line, vertexLines]
  | _ => simp [pass1Line, vertexLines]

/-- Pass 1 counts the `v` lines and does not touch the mesh. -/
theorem pass1Lines_nv {F : Type} (st : LoadState F) (ls : List (Line F)) :
    (pass1Lines st ls).nv = st.nv + (vertexLines ls).length ∧ (pass1Lines st ls).ret = st.ret := by
  induction ls generalizing st with
  | nil => simp [pass1Lines, vertexLines]
  | cons l ls ih =>
    obtain ⟨h1, h2⟩ := pass1Line_nv st l
    obtain ⟨h3, h4⟩ := ih (pass1Line st l)
    have e : pass1Lines st (l :: ls) = pass1Lines (pass1Line st l) ls := rfl
    rw [e, h3, h4, h1, h2, vertexLines_cons l ls, List.length_append]
    exact ⟨by omega, rfl⟩

/-- The state in which pass 2 starts on a file: `nv = 0`, no face, and a store
of as many default vertices as the file has `v` lines. -/
theorem betweenPasses_file {F : Type} [Zero F] (ind : Indeterminate F) (ls : List (Line F)) :
    (betweenPasses (pass1Lines (startState ind) ls)).nv = 0 ∧
      (betweenPasses (pass1Lines (startState ind) ls)).ret.m_faces = [] ∧
      (betweenPasses (pass1Lines (startState ind) ls)).ret.m_verts
        = List.replicate (vertexLines ls).length (Vertex.ofPoint Point3.origin) := by
  obtain ⟨h1, h2⟩ := pass1Lines_nv (startState ind) ls
  simp only [betweenPasses, h1, h2]
  simp [startState, Mesh.empty]

theorem storeAfter_length {F : Type} [Zero F] (st : LoadState F) (l : Line F) :
    (storeAfter st l).length = st.ret.m_verts.length := by
  cases l <;> simp [storeAfter]

theorem storeAfter_below {F : Type} [Zero F] (st : LoadState F) (l : Line F) (k : Nat)
    (hk : k < st.nv) : (storeAfter st l)[k]? = st.ret.m_verts[k]? := by
  cases l with
  | vertex x y z p =>
    simp only [storeAfter]
    rw [List.getElem?_set_ne (by omega)]
  | _ => rfl

/-- What pass 2 has done when it reaches the end of a file: the store has kept
its size, the slots below the first free one are untouched, the `v` lines of the
file sit in the slots from `nv` on in file order, and the face list has grown by
the number of triangles of the file. -/
theorem pass2Lines_ok {F : Type} [Zero F] {ops : Point3Ops F} {io : Stdio F}
    (ls : List (Line F)) {st st2 : LoadState F} (hwf : WellFormedFile io ls)
    (h : pass2Lines ops st ls = Except.ok st2) :
    st2.ret.m_verts.length = st.ret.m_verts.length ∧
      st2.ret.m_faces.length = st.ret.m_faces.length + triangleCount ls ∧
      st2.nv = st.nv + (vertexLines ls).length ∧
      (∀ k, k < st.nv → st2.ret.m_verts[k]? = st.ret.m_verts[k]?) ∧
      (∀ k (hk : k < (vertexLines ls).length),
        st2.ret.m_verts[st.nv + k]? = some (Vertex.ofPoint ((vertexLines ls)[k]))) := by
  induction ls generalizing st with
  | nil =>
    injection h with h
    subst h
    simp [triangleCount, vertexLines]
  | cons l ls ih =>
    have hl : l.WellFormed io := hwf l (List.mem_cons_self l ls)
    have hls : WellFormedFile io ls := fun m hm => hwf m (List.mem_cons_of_mem l hm)
    simp only [pass2Lines] at h
    cases hE : pass2Line ops st l with
    | error e => rw [hE] at h; cases h
    | ok st1 =>
      rw [hE] at h
      obtain ⟨a1, a2, a3, a4⟩ := pass2Line_ok hl hE
      obtain ⟨b1, b2, b3, b4, b5⟩ := ih hls h
      refine ⟨?_, ?_, ?_, ?_, ?_⟩
      · rw [b1, a1, storeAfter_length]
      · rw [b2, a4, triangleCount_cons l ls]; omega
      · rw [b3, a2, vertexLines_cons l ls, List.length_append]; omega
      · intro k hk
        rw [b4 k (by omega), a1, storeAfter_below st l k hk]
      · intro k hk
        cases l with
        | vertex x y z p =>
          have hnv : st.nv < st.ret.m_verts.length := by
            simp [vertexLines] at a3
            omega
          cases k with
          | zero =>
            rw [Nat.add_zero, b4 st.nv (by rw [a2]; simp [vertexLines]), a1]
            simp [storeAfter, vertexLines, hnv]
          | succ k =>
            have hk2 : k < (vertexLines ls).length := by
              simp [vertexLines] at hk
              exact hk
            have := b5 k hk2
            rw [a2] at this
            simp only [vertexLines, List.length_cons, List.length_nil] at this
            rw [show st.nv + (k + 1) = st.nv + (0 + 1) + k by omega, this]
            simp [vertexLines]
        | blank =>
          have hk2 : k < (vertexLines ls).length := by simpa [vertexLines] using hk
          have := b5 k hk2
          rw [a2] at this
          simpa [vertexLines] using this
        | skip text =>
          have hk2 : k < (vertexLines ls).length := by simpa [vertexLines] using hk
          have := b5 k hk2
          rw [a2] at this
          simpa [vertexLines] using this
        | vdir kw text =>
          have hk2 : k < (vertexLines ls).length := by simpa [vertexLines] using hk
          have := b5 k hk2
          rw [a2] at this
          simpa [vertexLines] using this
        | face g cs =>
          have hk2 : k < (vertexLines ls).length := by simpa [vertexLines] using hk
          have := b5 k hk2
          rw [a2] at this
          simpa [vertexLines] using this

/-- Pass 2 runs to the end of a file whose face lines are not written `i/j` and
name slots of the store, when the store has room for the `v` lines. -/
theorem pass2Lines_defined {F : Type} [Zero F] (ops : Point3Ops F) (io : Stdio F)
    (ls : List (Line F)) (n : Nat) (st : LoadState F) (hwf : WellFormedFile io ls)
    (hin : ls.all (Line.indicesWithin n) = true) (hn : n ≤ st.ret.m_verts.length)
    (hroom : st.nv + (vertexLines ls).length ≤ st.ret.m_verts.length) :
    ∃ st2, pass2Lines ops st ls = Except.ok st2 := by
  induction ls generalizing st with
  | nil => exact ⟨st, rfl⟩
  | cons l ls ih =>
    have hl : l.WellFormed io := hwf l (List.mem_cons_self l ls)
    have hls : WellFormedFile io ls := fun m hm => hwf m (List.mem_cons_of_mem l hm)
    simp only [List.all_cons, Bool.and_eq_true] at hin
    obtain ⟨hin1, hin2⟩ := hin
    rw [vertexLines_cons l ls, List.length_append] at hroom
    have hstep : ∃ st1, pass2Line ops st l = Except.ok st1 := by
      cases l with
      | blank => exact ⟨st, rfl⟩
      | skip text => exact ⟨st, rfl⟩
      | vdir kw text => exact ⟨st, rfl⟩
      | vertex x y z p =>
        obtain ⟨st1, h1, _⟩ := pass2Line_vertex ops x y z p st (by
          simp [vertexLines] at hroom
          omega)
        exact ⟨st1, h1⟩
      | face g cs =>
        simp only [Line.indicesWithin, Bool.and_eq_true, bne_iff_ne, ne_eq, List.all_eq_true,
          decide_eq_true_eq] at hin1
        obtain ⟨st1, h1, _⟩ := pass2Line_face ops g cs n st hin1.1 hl.1 hin1.2 hn
        exact ⟨st1, h1⟩
    obtain ⟨st1, h1⟩ := hstep
    obtain ⟨a1, a2, _, _⟩ := pass2Line_ok hl h1
    obtain ⟨st2, h2⟩ := ih st1 hls hin2 (by rw [a1, storeAfter_length]; exact hn)
      (by rw [a1, storeAfter_length, a2]; omega)
    exact ⟨st2, by simp only [pass2Lines, h1]; exact h2⟩

/-! ## `init` and the final bounding box keep positions and faces -/

theorem map_updateAt {α β : Type} (g : α → β) (f : α → α) (hf : ∀ a, g (f a) = g a) (i : Nat)
    (l : List α) : (updateAt f i l).map g = l.map g := by
  induction l generalizing i with
  | nil => cases i <;> rfl
  | cons a l ih =>
    cases i with
    | zero => simp [updateAt, hf]
    | succ i => simp [updateAt, ih]

theorem accumulateFace_points {F : Type} (ops : Point3Ops F) (verts : List (Vertex F))
    (f : Face F) : (accumulateFace ops verts f).map Vertex.point = verts.map Vertex.point := by
  unfold accumulateFace
  generalize f.verts = is
  induction is generalizing verts with
  | nil => rfl
  | cons i is ih =>
    rw [List.foldl_cons, ih]
    exact map_updateAt Vertex.point
      (fun v : Vertex F => { v with normal := ops.addAssign v.normal f.normal })
      (fun _ => rfl) i verts

theorem foldl_accumulateFace_points {F : Type} (ops : Point3Ops F) (faces : List (Face F))
    (verts : List (Vertex F)) :
    (faces.foldl (accumulateFace ops) verts).map Vertex.point = verts.map Vertex.point := by
  induction faces generalizing verts with
  | nil => rfl
  | cons f faces ih => rw [List.foldl_cons, ih, accumulateFace_points]

/-- The function `computeNormalsPerVertex` moves no vertex. -/
theorem computeNormalsPerVertex_points {F : Type} [Zero F] (ops : Point3Ops F) (m : Mesh F) :
    (computeNormalsPerVertex ops m).m_verts.map Vertex.point = m.m_verts.map Vertex.point := by
  simp only [computeNormalsPerVertex, List.map_map]
  have h1 : (Vertex.point ∘ fun v : Vertex F => { v with normal := ops.normalize v.normal })
      = Vertex.point := rfl
  have h2 : (Vertex.point ∘ fun v : Vertex F => { v with normal := Point3.origin })
      = Vertex.point := rfl
  rw [h1, foldl_accumulateFace_points, List.map_map, h2]

/-- What `loadMesh` returns on an opened file: the mesh of the state after the
second loop, with its faces and positions, after `init` and the second
`computeBoundingBox`. -/
theorem loadMesh_ok {F : Type} [Zero F] [LT F] [DecidableRel (fun a b : F => a < b)]
    {ops : Point3Ops F} {io : Stdio F} {ind : Indeterminate F} {content : List Char}
    {mesh : Mesh F} (h : loadMesh ops io ind (some content) = Except.ok mesh) :
    ∃ st, loadState ops io ind content = Except.ok st ∧ mesh.m_faces = st.ret.m_faces ∧
      mesh.m_verts.map Vertex.point = st.ret.m_verts.map Vertex.point := by
  simp only [loadMesh] at h
  cases hs : loadState ops io ind content with
  | error e => rw [hs] at h; cases h
  | ok st =>
    rw [hs] at h
    injection h with h
    subst h
    exact ⟨st, rfl, rfl, computeNormalsPerVertex_points ops st.ret⟩

theorem loadMesh_of_loadState {F : Type} [Zero F] [LT F] [DecidableRel (fun a b : F => a < b)]
    (ops : Point3Ops F) (io : Stdio F) (ind : Indeterminate F) (content : List Char)
    (st : LoadState F) (h : loadState ops io ind content = Except.ok st) :
    ∃ mesh, loadMesh ops io ind (some content) = Except.ok mesh ∧
      mesh.m_faces = st.ret.m_faces ∧
      mesh.m_verts.map Vertex.point = st.ret.m_verts.map Vertex.point := by
  refine ⟨computeBoundingBox io ind.box2 (init ops io ind.box1 st.ret), ?_, rfl,
    computeNormalsPerVertex_points ops st.ret⟩
  simp only [loadMesh, h]

/-- The state after the two loops on a well formed file, when there is one: no
more and no fewer vertices than `v` lines, each `v` line in its slot, and as
many faces as the face lines have triangles. -/
theorem loadState_file_ok {F : Type} [Zero F] {ops : Point3Ops F} {io : Stdio F}
    {ind : Indeterminate F} (ls : List (Line F)) {st : LoadState F}
    (hwf : WellFormedFile io ls)
    (h : loadState ops io ind (renderFile ls) = Except.ok st) :
    st.ret.m_verts = (vertexLines ls).map Vertex.ofPoint ∧
      st.ret.m_faces.length = triangleCount ls ∧ st.nv = (vertexLines ls).length := by
  rw [loadState_file ops io ind ls hwf] at h
  obtain ⟨b1, b2, b3⟩ := betweenPasses_file ind ls
  obtain ⟨a1, a2, a3, _, a5⟩ := pass2Lines_ok ls hwf h
  rw [b1] at a3 a5
  rw [b2] at a2
  rw [b3] at a1
  refine ⟨?_, by simpa using a2, by simpa using a3⟩
  apply List.ext_getElem?
  intro k
  by_cases hk : k < (vertexLines ls).length
  · have := a5 k hk
    rw [Nat.zero_add] at this
    rw [this]
    simp [hk]
  · have h1 : st.ret.m_verts.length ≤ k := by
      rw [a1]; simp; omega
    rw [List.getElem?_eq_none h1, List.getElem?_eq_none (by simp; omega)]

/-- The two loops run to their end on a well formed file whose face lines are
not written `i/j` and name `v` lines of the file. -/
theorem loadState_file_defined {F : Type} [Zero F] (ops : Point3Ops F) (io : Stdio F)
    (ind : Indeterminate F) (ls : List (Line F)) (hwf : WellFormedFile io ls)
    (hin : FacesInRange ls) : ∃ st, loadState ops io ind (renderFile ls) = Except.ok st := by
  rw [loadState_file ops io ind ls hwf]
  obtain ⟨b1, _, b3⟩ := betweenPasses_file ind ls
  exact pass2Lines_defined ops io ls (vertexLines ls).length _ hwf hin
    (by rw [b3]; simp) (by rw [b1, b3]; simp)

/-! ## The sample instance reads its files -/

theorem sampleStdio_reads (ds : List Char) (h : isNumeral ds = true) :
    sampleStdio.Reads ds (((decVal ds : Nat) : ℤ) : ExtInt) := by
  obtain ⟨hne, hdig⟩ := (isNumeral_iff ds).1 h
  refine ⟨hne, fun c hc => isspace_of_isDigit (hdig c hc), ?_⟩
  intro c r hc
  have hstop : ∀ d ∈ (c :: r).head?, d.isDigit = false := by
    intro d hd
    simp only [List.head?_cons, Option.mem_def, Option.some.injEq] at hd
    subst hd
    cases hdg : c.isDigit with
    | false => rfl
    | true => rw [isspace_of_isDigit hdg] at hc; cases hc
  show sampleScanFloat (ds ++ c :: r) = _
  simp only [sampleScanFloat, scanDecimal_numeral ds (c :: r) h hstop]

theorem squareFile_wellFormed : WellFormedFile sampleStdio squareFile := by
  have h0 : sampleStdio.Reads ['0'] (0 : ExtInt) := sampleStdio_reads ['0'] (by decide)
  have h1 : sampleStdio.Reads ['1'] (1 : ExtInt) := sampleStdio_reads ['1'] (by decide)
  intro l hl
  simp only [squareFile, squareVertices, List.cons_append, List.nil_append, List.mem_cons,
    List.mem_singleton, List.not_mem_nil, or_false] at hl
  rcases hl with rfl | rfl | rfl | rfl | rfl | rfl | rfl | rfl
  · exact ⟨by decide, by decide⟩
  · exact ⟨by decide, by decide, by decide⟩
  · exact ⟨h0, h0, h0, by decide⟩
  · exact ⟨h1, h0, h0, by decide⟩
  · exact ⟨h1, h1, h0, by decide⟩
  · exact ⟨h0, h1, h0, by decide⟩
  · trivial
  · exact ⟨by decide, by decide, by decide⟩

/-! ## Normals per vertex -/

theorem stdMin_le_left {F : Type} [LinearOrder F] (a b : F) : stdMin a b ≤ a := by
  unfold stdMin
  split
  · rename_i h; exact le_of_lt h
  · exact le_refl a

theorem stdMin_le_right {F : Type} [LinearOrder F] (a b : F) : stdMin a b ≤ b := by
  unfold stdMin
  split
  · exact le_refl b
  · rename_i h; exact not_lt.1 h

theorem le_stdMax_left {F : Type} [LinearOrder F] (a b : F) : a ≤ stdMax a b := by
  unfold stdMax
  split
  · rename_i h; exact le_of_lt h
  · exact le_refl a

theorem le_stdMax_right {F : Type} [LinearOrder F] (a b : F) : b ≤ stdMax a b := by
  unfold stdMax
  split
  · exact le_refl b
  · rename_i h; exact not_lt.1 h

/-- The scan of `computeBoundingBox`: the running minima only go down, the
running maxima only go up, and every vertex scanned lies between them. -/
theorem foldl_boxStep {F : Type} [LinearOrder F] (vs : List (Vertex F)) (e : Extrema F) :
    ((vs.foldl boxStep e).min_x ≤ e.min_x ∧ (vs.foldl boxStep e).min_y ≤ e.min_y ∧
      (vs.foldl boxStep e).min_z ≤ e.min_z ∧ e.max_x ≤ (vs.foldl boxStep e).max_x ∧
      e.max_y ≤ (vs.foldl boxStep e).max_y ∧ e.max_z ≤ (vs.foldl boxStep e).max_z) ∧
    ∀ v ∈ vs,
      (vs.foldl boxStep e).min_x ≤ v.point.x ∧ v.point.x ≤ (vs.foldl boxStep e).max_x ∧
      (vs.foldl boxStep e).min_y ≤ v.point.y ∧ v.point.y ≤ (vs.foldl boxStep e).max_y ∧
      (vs.foldl boxStep e).min_z ≤ v.point.z ∧ v.point.z ≤ (vs.foldl boxStep e).max_z := by
  induction vs generalizing e with
  | nil => exact ⟨⟨le_refl _, le_refl _, le_refl _, le_refl _, le_refl _, le_refl _⟩,
      fun v hv => by cases hv⟩
  | cons w vs ih =>
    obtain ⟨⟨a1, a2, a3, a4, a5, a6⟩, hall⟩ := ih (boxStep e w)
    simp only [List.foldl_cons]
    refine ⟨⟨le_trans a1 (stdMin_le_left _ _), le_trans a2 (stdMin_le_left _ _),
      le_trans a3 (stdMin_le_left _ _), le_trans (le_stdMax_left _ _) a4,
      le_trans (le_stdMax_left _ _) a5, le_trans (le_stdMax_left _ _) a6⟩, ?_⟩
    intro v hv
    rcases List.mem_cons.1 hv with h | h
    · subst h
      exact ⟨le_trans a1 (stdMin_le_right _ _), le_trans (le_stdMax_right _ _) a4,
        le_trans a2 (stdMin_le_right _ _), le_trans (le_stdMax_right _ _) a5,
        le_trans a3 (stdMin_le_right _ _), le_trans (le_stdMax_right _ _) a6⟩
    · exact hall v h

/-! ## Theorems about the claims of the specification -/

set_option maxRecDepth 100000

/-- C2: the code at the failing input.  The file of four `v` lines and the one
face line `f 1 2 3 4` gives the two faces `(0, 2, 1)`, `(0, 3, 2)`.  With a `#`
line of 136 characters and its newline put before the face line, `fgets` takes
127 characters of the comment and the rest of it, `f 1 3 2`, is read as a face
line in both passes: the mesh returned has three faces, while the sum of
`N - 2` over the face lines of the file is two. -/
theorem long_comment_line_adds_a_face :
    (loadMesh sampleOps sampleStdio sampleGarbage
        (some ("v 0 0 0\nv 1 0 0\nv 1 1 0\nv 0 1 0\n".toList ++ "f 1 2 3 4\n".toList))).map
      (fun m => m.m_faces.map Face.verts) = Except.ok [[0, 2, 1], [0, 3, 2]] ∧
    ('#' :: ' ' :: List.replicate 126 '-' ++ " f 1 3 2\n".toList).length = 137 ∧
    (loadMesh sampleOps sampleStdio sampleGarbage
        (some ("v 0 0 0\nv 1 0 0\nv 1 1 0\nv 0 1 0\n".toList
          ++ ('#' :: ' ' :: List.replicate 126 '-' ++ " f 1 3 2\n".toList)
          ++ "f 1 2 3 4\n".toList))).map
      (fun m => m.m_faces.map Face.verts) = Except.ok [[0, 1, 2], [0, 2, 1], [0, 3, 2]] :=
  ⟨rfl, rfl, rfl⟩

/-- Face count on well formed files.  On a face line of `N ≥ 3` corners in any
of the four grammars, whenever the body of the loop of pass 2 completes, the
face list has grown by exactly `N - 2` faces; hence for every well formed file
the mesh `loadMesh` returns has as many faces as the sum of `N - 2` over its
face lines, and `loadMesh` does return a mesh when no face line is written
`i/j` and every index names a `v` line. -/
theorem face_count_of_file {F : Type} [Zero F] [LT F] [DecidableRel (fun a b : F => a < b)]
    (ops : Point3Ops F) (io : Stdio F) (ind : Indeterminate F) (ls : List (Line F))
    (hwf : WellFormedFile io ls) :
    (∀ (g : IndexGrammar) (cs : List Corner) (rest s2 : List Char) (st st2 : LoadState F),
        (Line.face g cs : Line F).WellFormed io → noIndexAhead rest = true →
        pass2Body ops io ['f'] (renderCorners g cs ++ '\n' :: rest) st = Except.ok (st2, s2) →
        st2.ret.m_faces.length = st.ret.m_faces.length + (cs.length - 2)) ∧
    (∀ mesh, loadMesh ops io ind (some (renderFile ls)) = Except.ok mesh →
        mesh.m_faces.length = triangleCount ls) ∧
    (FacesInRange ls →
      ∃ mesh, loadMesh ops io ind (some (renderFile ls)) = Except.ok mesh ∧
        mesh.m_faces.length = triangleCount ls) := by
  refine ⟨?_, ?_, ?_⟩
  · intro g cs rest s2 st st2 hl hrest h
    obtain ⟨h3, hcs, hfirst⟩ := hl
    rcases cs with _ | ⟨c0, _ | ⟨c1, _ | ⟨c2, more⟩⟩⟩
    · simp at h3
    · simp at h3
    · simp at h3
    · have hlen : (c0.render g).length ≤ 127 := hfirst c0 (by simp)
      have hb : pass2Body ops io ['f'] (renderCorners g (c0 :: c1 :: c2 :: more) ++ '\n' :: rest) st
          = facePass2 ops ['f'] (renderCorners g (c0 :: c1 :: c2 :: more) ++ '\n' :: rest) st := by
        simp [pass2Body, BUF_SIZE, cstr]
      rw [hb, facePass2_render ops g c0 c1 c2 more rest hcs hlen hrest st] at h
      cases hE : pass2Line ops st (Line.face g (c0 :: c1 :: c2 :: more)) with
      | error e => rw [hE] at h; cases h
      | ok st3 =>
        rw [hE] at h
        injection h with h
        injection h with h1 h2
        subst h1
        have := (@pass2Line_ok F _ ops io (Line.face g (c0 :: c1 :: c2 :: more)) st st3
          ⟨h3, hcs, hfirst⟩ hE).2.2.2
        simpa [triangleCount] using this
  · intro mesh h
    obtain ⟨st, h1, h2, _⟩ := loadMesh_ok h
    rw [h2, (loadState_file_ok ls hwf h1).2.1]
  · intro hin
    obtain ⟨st, h1⟩ := loadState_file_defined ops io ind ls hwf hin
    obtain ⟨mesh, h2, h3, _⟩ := loadMesh_of_loadState ops io ind _ st h1
    exact ⟨mesh, h2, by rw [h3, (loadState_file_ok ls hwf h1).2.1]⟩

/-- The face count at the file of the unit square with the single face line `f 1 2 3 4`:
two faces. -/
theorem face_count_of_file_witness :
    WellFormedFile sampleStdio squareFile ∧ FacesInRange squareFile ∧
    triangleCount squareFile = 2 ∧
    ∃ mesh, loadMesh sampleOps sampleStdio sampleGarbage (some (renderFile squareFile))
        = Except.ok mesh ∧ mesh.m_faces.length = triangleCount squareFile :=
  ⟨squareFile_wellFormed, by decide, by decide,
   (face_count_of_file sampleOps sampleStdio sampleGarbage squareFile
      squareFile_wellFormed).2.2 (by decide)⟩

/-- C3: the code at the failing input.  The file has three lines led by `v`,
one line led by `g` and one face line.  The line led by `g` has 136 characters
and its newline; the `fgets` of the default branch takes 127 characters of it
and the rest of the line, `v 1 1 0`, is read as a vertex line: pass 1 (run
with fuel for 200 tokens, more than the file has) counts four vertices and the
mesh returned has four, the fourth at `(1, 1, 0)`. -/
theorem long_group_line_adds_a_vertex :
    ('g' :: ' ' :: List.replicate 126 'x' ++ " v 1 1 0\n".toList).length = 137 ∧
    (pass1 200 ("v 0 0 0\nv 1 0 0\nv 0 1 0\n".toList
        ++ ('g' :: ' ' :: List.replicate 126 'x' ++ " v 1 1 0\n".toList)
        ++ "f 1 2 3\n".toList) (startState sampleGarbage)).map (fun st => st.nv)
      = Except.ok 4 ∧
    (loadMesh sampleOps sampleStdio sampleGarbage
        (some ("v 0 0 0\nv 1 0 0\nv 0 1 0\n".toList
          ++ ('g' :: ' ' :: List.replicate 126 'x' ++ " v 1 1 0\n".toList)
          ++ "f 1 2 3\n".toList))).map
      (fun m => m.m_verts.map Vertex.point)
        = Except.ok [⟨0, 0, 0⟩, ⟨1, 0, 0⟩, ⟨0, 1, 0⟩, ⟨1, 1, 0⟩] :=
  ⟨rfl, rfl, rfl⟩

/-- Vertex count on well formed files.  On every well formed file pass 1 ends
with `nv` equal to the number of lines whose leading token is `v` (lines led by
`vn`, `vt`, a comment or another token add nothing), so the store is sized to
that number; the mesh `loadMesh` returns has exactly that many vertices, and
`loadMesh` does return a mesh when no face line is written `i/j` and every
index names a `v` line. -/
theorem vertex_count_of_file {F : Type} [Zero F] [LT F] [DecidableRel (fun a b : F => a < b)]
    (ops : Point3Ops F) (io : Stdio F) (ind : Indeterminate F) (ls : List (Line F))
    (hwf : WellFormedFile io ls) :
    (∃ st1, pass1 ((renderFile ls).length + 1) (renderFile ls) (startState ind) = Except.ok st1 ∧
        st1.nv = (vertexLines ls).length ∧
        (betweenPasses st1).ret.m_verts.length = (vertexLines ls).length) ∧
    (∀ mesh, loadMesh ops io ind (some (renderFile ls)) = Except.ok mesh →
        mesh.m_verts.length = (vertexLines ls).length) ∧
    (FacesInRange ls →
      ∃ mesh, loadMesh ops io ind (some (renderFile ls)) = Except.ok mesh ∧
        mesh.m_verts.length = (vertexLines ls).length) := by
  have key : ∀ (mesh : Mesh F) (st : LoadState F), loadState ops io ind (renderFile ls) = Except.ok st →
      mesh.m_verts.map Vertex.point = st.ret.m_verts.map Vertex.point →
      mesh.m_verts.length = (vertexLines ls).length := by
    intro mesh st h1 h3
    have := congrArg List.length h3
    rw [(loadState_file_ok ls hwf h1).1] at this
    simpa using this
  refine ⟨?_, ?_, ?_⟩
  · obtain ⟨k, hk⟩ : ∃ k, (renderFile ls).length + 1 = k + 1 + fileCost ls :=
      ⟨(renderFile ls).length - fileCost ls, by have := fileCost_le_length ls; omega⟩
    refine ⟨pass1Lines (startState ind) ls, ?_, ?_, ?_⟩
    · rw [hk, pass1_file io ls hwf k]
    · rw [(pass1Lines_nv (startState ind) ls).1]
      simp [startState]
    · rw [(betweenPasses_file ind ls).2.2]
      simp
  · intro mesh h
    obtain ⟨st, h1, _, h3⟩ := loadMesh_ok h
    exact key mesh st h1 h3
  · intro hin
    obtain ⟨st, h1⟩ := loadState_file_defined ops io ind ls hwf hin
    obtain ⟨mesh, h2, _, h3⟩ := loadMesh_of_loadState ops io ind _ st h1
    exact ⟨mesh, h2, key mesh st h1 h3⟩

/-- The vertex count at the file of the unit square, which has a comment, a `vn` line, four
`v` lines, an empty line and a face line: four vertices. -/
theorem vertex_count_of_file_witness :
    WellFormedFile sampleStdio squareFile ∧ (vertexLines squareFile).length = 4 ∧
    ∀ mesh, loadMesh sampleOps sampleStdio sampleGarbage (some (renderFile squareFile))
        = Except.ok mesh → mesh.m_verts.length = (vertexLines squareFile).length :=
  ⟨squareFile_wellFormed, by decide,
   (vertex_count_of_file sampleOps sampleStdio sampleGarbage squareFile
      squareFile_wellFormed).2.1⟩

/-- C4: the code at the failing input.  (a) A `#` line of 136 characters and
its newline stands before the three `v` lines; `fgets` takes 127 characters of
it and the rest, `v 1 1 0`, is read as a vertex line in both passes: slot 0 of
the store holds `(1, 1, 0)` and slot `k` holds the position of the `k`-th `v`
line, not of the `(k+1)`-th, so the face index 1 names no `v` line of the file.
(b) The one line `v 5 6 7 #---...--- v 1 1 1` (119 times `-`): in pass 1 (run
with fuel for 200 tokens) the `fgets` after `v` takes 127 characters and
`v 1 1 1` is counted as a second vertex; in pass 2 the three numbers are read, the token led by `#` is a comment
and its `fgets` takes the rest of the line: two slots are allocated and the
second is never written. -/
theorem long_comment_line_shifts_the_slots :
    (loadMesh sampleOps sampleStdio sampleGarbage
        (some (('#' :: ' ' :: List.replicate 126 '-' ++ " v 1 1 0\n".toList)
          ++ "v 0 0 0\nv 1 0 0\nv 0 1 0\n".toList ++ "f 1 2 3\n".toList))).map
      (fun m => (m.m_verts.map Vertex.point, m.m_faces.map Face.verts))
        = Except.ok ([⟨1, 1, 0⟩, ⟨0, 0, 0⟩, ⟨1, 0, 0⟩, ⟨0, 1, 0⟩], [[0, 2, 1]]) ∧
    (pass1 200 ("v 5 6 7 #".toList ++ List.replicate 119 '-' ++ " v 1 1 1\n".toList)
        (startState sampleGarbage)).map (fun st => st.nv) = Except.ok 2 ∧
    (loadState sampleOps sampleStdio sampleGarbage
        ("v 5 6 7 #".toList ++ List.replicate 119 '-' ++ " v 1 1 1\n".toList)).map
      (fun st => (st.nv, st.ret.m_verts.map Vertex.point))
        = Except.ok (1, [⟨5, 6, 7⟩, ⟨0, 0, 0⟩]) :=
  ⟨rfl, rfl, rfl⟩

/-- Vertex positions on well formed files.  On every well formed file (each
`v` line carries three numbers `%f` reads), the mesh `loadMesh` returns holds
in slot `k` the position of the `(k+1)`-th `v` line: the positions of the
store, in slot order, are the positions of the `v` lines, in file order, every
slot written; and `loadMesh` does return a mesh when no face line is written
`i/j` and every index names a `v` line. -/
theorem vertex_positions_of_file {F : Type} [Zero F] [LT F]
    [DecidableRel (fun a b : F => a < b)]
    (ops : Point3Ops F) (io : Stdio F) (ind : Indeterminate F) (ls : List (Line F))
    (hwf : WellFormedFile io ls) :
    (∀ st, loadState ops io ind (renderFile ls) = Except.ok st →
        st.nv = (vertexLines ls).length ∧
        st.ret.m_verts = (vertexLines ls).map Vertex.ofPoint) ∧
    (∀ mesh, loadMesh ops io ind (some (renderFile ls)) = Except.ok mesh →
        mesh.m_verts.map Vertex.point = vertexLines ls) ∧
    (FacesInRange ls →
      ∃ mesh, loadMesh ops io ind (some (renderFile ls)) = Except.ok mesh ∧
        mesh.m_verts.map Vertex.point = vertexLines ls) := by
  have key : ∀ (mesh : Mesh F) (st : LoadState F), loadState ops io ind (renderFile ls) = Except.ok st →
      mesh.m_verts.map Vertex.point = st.ret.m_verts.map Vertex.point →
      mesh.m_verts.map Vertex.point = vertexLines ls := by
    intro mesh st h1 h3
    rw [h3, (loadState_file_ok ls hwf h1).1, List.map_map]
    have : (Vertex.point ∘ Vertex.ofPoint : Point3 F → Point3 F) = id := rfl
    rw [this, List.map_id]
  refine ⟨?_, ?_, ?_⟩
  · intro st h
    exact ⟨(loadState_file_ok ls hwf h).2.2, (loadState_file_ok ls hwf h).1⟩
  · intro mesh h
    obtain ⟨st, h1, _, h3⟩ := loadMesh_ok h
    exact key mesh st h1 h3
  · intro hin
    obtain ⟨st, h1⟩ := loadState_file_defined ops io ind ls hwf hin
    obtain ⟨mesh, h2, _, h3⟩ := loadMesh_of_loadState ops io ind _ st h1
    exact ⟨mesh, h2, key mesh st h1 h3⟩

/-- The vertex positions at the file of the unit square: the four positions, in file order. -/
theorem vertex_positions_of_file_witness :
    WellFormedFile sampleStdio squareFile ∧ FacesInRange squareFile ∧
    ∃ mesh, loadMesh sampleOps sampleStdio sampleGarbage (some (renderFile squareFile))
        = Except.ok mesh ∧
      mesh.m_verts.map Vertex.point = [⟨0, 0, 0⟩, ⟨1, 0, 0⟩, ⟨1, 1, 0⟩, ⟨0, 1, 0⟩] :=
  ⟨squareFile_wellFormed, by decide,
   (vertex_positions_of_file sampleOps sampleStdio sampleGarbage squareFile
      squareFile_wellFormed).2.2 (by decide)⟩

/-- C7: the code at the failing input.  For the four vertices `(0,0,0)`,
`(1,0,0)`, `(1,1,0)`, `(0,1,0)`, with `-5` left in `min_x`, `min_y` and `5` left
in `max_x`, `max_y` (only `min_z` and `max_z` are initialised),
`computeBoundingBox` stores `bbmin = (-5, -5, 0)` and `bbmax = (5, 5, 0)`, not
`(0, 0, 0)` and `(1, 1, 0)`; the same box comes back from `loadMesh` on the file
of the unit square. -/
theorem bounding_box_of_square_with_garbage :
    (computeBoundingBox sampleStdio sampleGarbage.box1 squareMesh).bbmin
        = ⟨((-5 : ℤ) : ExtInt), ((-5 : ℤ) : ExtInt), 0⟩ ∧
    (computeBoundingBox sampleStdio sampleGarbage.box1 squareMesh).bbmax = ⟨5, 5, 0⟩ ∧
    ∃ mesh, loadMesh sampleOps sampleStdio sampleGarbage
        (some "v 0 0 0\nv 1 0 0\nv 1 1 0\nv 0 1 0\nf 1 2 3 4\n".toList) = Except.ok mesh ∧
      mesh.m_faces.length = 2 ∧
      mesh.bbmin = ⟨((-5 : ℤ) : ExtInt), ((-5 : ℤ) : ExtInt), 0⟩ ∧ mesh.bbmax = ⟨5, 5, 0⟩ :=
  ⟨by decide, by decide, _, rfl, by decide, by decide, by decide⟩

/-- C8, as stated, fails on `float`s that are not numbers.  (a) The mesh has
the vertices `(0, 0, 0)` and `(1, 1, NaN)`: `std::min` and `std::max` keep the
extremum they hold when they are given a NaN, so the box ends with
`bbmin.z = bbmax.z = 0`, and neither `bbmin.z <= NaN` nor `NaN <= bbmax.z`
holds.  (b) The mesh has the vertices `(0, 0, 0)` and `(1, 1, 1)` and the
uninitialised `min_x` holds a NaN when `computeBoundingBox` starts: no
comparison with it holds, `bbmin.x` stays NaN and `bbmin.x <= 1` does not
hold. -/
theorem bounding_box_misses_nan :
    (⟨⟨NanInt.num 1, NanInt.num 1, NanInt.nan⟩,
        ⟨NanInt.num 0, NanInt.num 0, NanInt.num 0⟩⟩ : Vertex NanInt) ∈ nanMesh.m_verts ∧
    (computeBoundingBox nanStdio ⟨NanInt.num 0, NanInt.num 0, NanInt.num 0, NanInt.num 0⟩
        nanMesh).bbmin.z = NanInt.num 0 ∧
    (computeBoundingBox nanStdio ⟨NanInt.num 0, NanInt.num 0, NanInt.num 0, NanInt.num 0⟩
        nanMesh).bbmax.z = NanInt.num 0 ∧
    ¬ ((computeBoundingBox nanStdio ⟨NanInt.num 0, NanInt.num 0, NanInt.num 0, NanInt.num 0⟩
        nanMesh).bbmin.z ≤ NanInt.nan) ∧
    ¬ (NanInt.nan ≤ (computeBoundingBox nanStdio
        ⟨NanInt.num 0, NanInt.num 0, NanInt.num 0, NanInt.num 0⟩ nanMesh).bbmax.z) ∧
    (⟨⟨NanInt.num 1, NanInt.num 1, NanInt.num 1⟩,
        ⟨NanInt.num 0, NanInt.num 0, NanInt.num 0⟩⟩ : Vertex NanInt) ∈ segmentMesh.m_verts ∧
    (computeBoundingBox nanStdio ⟨NanInt.nan, NanInt.num 0, NanInt.num 0, NanInt.num 0⟩
        segmentMesh).bbmin.x = NanInt.nan ∧
    ¬ ((computeBoundingBox nanStdio ⟨NanInt.nan, NanInt.num 0, NanInt.num 0, NanInt.num 0⟩
        segmentMesh).bbmin.x ≤ NanInt.num 1) :=
  ⟨by decide, by decide, by decide, by decide, by decide, by decide, by decide, by decide⟩

/-- C8, amended.  When `float`s are compared as numbers are, by a linear order
(no coordinate of the mesh and none of the values the uninitialised extrema
`min_x`, `min_y`, `max_x`, `max_y` hold at the start is a NaN), then for every
mesh and every vertex `v` of it, after `computeBoundingBox`
`bbmin.c ≤ v.point.c ≤ bbmax.c` holds in each of the components `x`, `y`, `z`,
whatever the uninitialised extrema held. -/
theorem bounding_box_contains_vertices {F : Type} [LinearOrder F] (io : Stdio F)
    (g : BoxGarbage F) (m : Mesh F) (v : Vertex F) (hv : v ∈ m.m_verts) :
    (computeBoundingBox io g m).bbmin.x ≤ v.point.x ∧
    v.point.x ≤ (computeBoundingBox io g m).bbmax.x ∧
    (computeBoundingBox io g m).bbmin.y ≤ v.point.y ∧
    v.point.y ≤ (computeBoundingBox io g m).bbmax.y ∧
    (computeBoundingBox io g m).bbmin.z ≤ v.point.z ∧
    v.point.z ≤ (computeBoundingBox io g m).bbmax.z := by
  have h := (foldl_boxStep m.m_verts
    { min_x := g.min_x, min_y := g.min_y, min_z := io.INFINITY
      max_x := g.max_x, max_y := g.max_y, max_z := io.fneg io.INFINITY }).2 v hv
  exact h

/-- C8, amended, at the third vertex `(1, 1, 0)` of the unit square. -/
theorem bounding_box_contains_vertices_witness :
    (⟨⟨1, 1, 0⟩, ⟨9, 9, 9⟩⟩ : Vertex ExtInt) ∈ squareMesh.m_verts ∧
    (computeBoundingBox sampleStdio sampleGarbage.box1 squareMesh).bbmin.x ≤ (1 : ExtInt) ∧
    (1 : ExtInt) ≤ (computeBoundingBox sampleStdio sampleGarbage.box1 squareMesh).bbmax.x ∧
    (computeBoundingBox sampleStdio sampleGarbage.box1 squareMesh).bbmin.y ≤ (1 : ExtInt) ∧
    (1 : ExtInt) ≤ (computeBoundingBox sampleStdio sampleGarbage.box1 squareMesh).bbmax.y ∧
    (computeBoundingBox sampleStdio sampleGarbage.box1 squareMesh).bbmin.z ≤ (0 : ExtInt) ∧
    (0 : ExtInt) ≤ (computeBoundingBox sampleStdio sampleGarbage.box1 squareMesh).bbmax.z :=
  ⟨by decide,
   bounding_box_contains_vertices sampleStdio sampleGarbage.box1 squareMesh
    ⟨⟨1, 1, 0⟩, ⟨9, 9, 9⟩⟩ (by decide)⟩

/-- C9: the code at the failing input.  On the file `v 0 0 0`, `v 1 0 0`,
`v 0 1 0`, `f 1/1 2/2 3/3` the branch of pass 2 for the `i/j` grammar reads the
second and third corner into `va` and never sets `vb` and `vc`, which still hold
what pass 1 left there: the one face of the mesh is on the slots `(2, 2, 1)`,
whatever the locals held at the start, while the plain line `f 1 2 3` gives the
fan `(0, 2, 1)`. -/
theorem texcoord_face_line_uses_stale_indices (ind : Indeterminate ExtInt) :
    (loadState sampleOps sampleStdio ind "v 0 0 0\nv 1 0 0\nv 0 1 0\nf 1/1 2/2 3/3\n".toList).map
        (fun st => st.ret.m_faces.map Face.verts) = Except.ok [[2, 2, 1]] ∧
    (loadState sampleOps sampleStdio ind "v 0 0 0\nv 1 0 0\nv 0 1 0\nf 1 2 3\n".toList).map
        (fun st => st.ret.m_faces.map Face.verts) = Except.ok [[0, 2, 1]] ∧
    fan (slots [corner '1' '1' '1', corner '2' '2' '2', corner '3' '3' '3']) = [(0, 2, 1)] :=
  ⟨rfl, rfl, by decide⟩

/-- C10: the code.  For every mesh, `renderFlat` with wireframe off issues
`glBegin(GL_TRIANGLES)` and `glEnd()` and nothing in between: the loop over the
faces sits inside `if (goraud_shading)`, which `renderFlat` passes as `false`,
so no face normal and no vertex is sent; with two faces `renderGouraud` sends
six vertices and `renderFlat` none. -/
theorem renderFlat_sends_no_triangle {F : Type} (m : Mesh F) :
    renderFlat m false = [GLCall.glBeginTriangles, GLCall.glEnd] ∧
    (renderGouraud squareMesh false).length = 14 ∧ (renderFlat squareMesh false).length = 2 :=
  ⟨rfl, by decide, by decide⟩

/-! ## Traversals and repeated initialisation -/

theorem flatMap_flatMap {α β γ : Type} (l : List α) (g : α → List β) (h : β → List γ) :
    (l.flatMap g).flatMap h = l.flatMap (fun a => (g a).flatMap h) := by
  induction l with
  | nil => rfl
  | cons a l ih => simp [List.flatMap_cons, List.flatMap_append, ih]

theorem renderFaceVerts_inStore {F : Type} [Zero F] (m : Mesh F) (f : Face F)
    (h0 : f.v0 < m.m_verts.length) (h1 : f.v1 < m.m_verts.length)
    (h2 : f.v2 < m.m_verts.length) :
    renderFaceVerts m f true
      = (f.verts.map (fun i => (m.pos i, m.vertexNormal i))).flatMap sendPair := by
  simp [renderFaceVerts, Face.verts, List.getElem?_eq_getElem h0, List.getElem?_eq_getElem h1,
    List.getElem?_eq_getElem h2, Vertex.render, Normal3.render, sendPair, Mesh.pos,
    Mesh.vertexNormal, List.getD_eq_getElem?_getD]

theorem map_accumulateFace {F β : Type} (ops : Point3Ops F) (g : Vertex F → β)
    (hg : ∀ (v : Vertex F) (n : Normal3 F), g { v with normal := n } = g v)
    (verts : List (Vertex F)) (f : Face F) :
    (accumulateFace ops verts f).map g = verts.map g := by
  unfold accumulateFace
  generalize f.verts = is
  induction is generalizing verts with
  | nil => rfl
  | cons i is ih =>
    rw [List.foldl_cons, ih]
    exact map_updateAt g
      (fun v : Vertex F => { v with normal := ops.addAssign v.normal f.normal })
      (fun v => hg v _) i verts

theorem map_foldl_accumulateFace {F β : Type} (ops : Point3Ops F) (g : Vertex F → β)
    (hg : ∀ (v : Vertex F) (n : Normal3 F), g { v with normal := n } = g v)
    (faces : List (Face F)) (verts : List (Vertex F)) :
    (faces.foldl (accumulateFace ops) verts).map g = verts.map g := by
  induction faces generalizing verts with
  | nil => rfl
  | cons f faces ih => rw [List.foldl_cons, ih, map_accumulateFace ops g hg]

/-! ## Every face built names slots of the store -/

theorem emplaceFace_inStore {F : Type} [Zero F] {ops : Point3Ops F} {st st2 : LoadState F}
    (h : emplaceFace ops st = Except.ok st2)
    (hst : ∀ f ∈ st.ret.m_faces, f.v0 < st.ret.m_verts.length ∧ f.v1 < st.ret.m_verts.length ∧
      f.v2 < st.ret.m_verts.length) :
    ∀ f ∈ st2.ret.m_faces, f.v0 < st2.ret.m_verts.length ∧ f.v1 < st2.ret.m_verts.length ∧
      f.v2 < st2.ret.m_verts.length := by
  obtain ⟨g, hg, rfl⟩ := emplaceFace_ok h
  obtain ⟨i, j, k, _, _, _, hi, hj, hk, rfl⟩ := mkFace_ok hg
  intro f hf
  simp only [List.mem_append, List.mem_singleton] at hf
  rcases hf with hf | rfl
  · exact hst f hf
  · exact ⟨hi, hj, hk⟩

theorem fanLine_inStore {F : Type} [Zero F] {ops : Point3Ops F} (idx : List Int)
    {st st2 : LoadState F} (h : fanLine ops idx st = Except.ok st2)
    (hst : ∀ f ∈ st.ret.m_faces, f.v0 < st.ret.m_verts.length ∧ f.v1 < st.ret.m_verts.length ∧
      f.v2 < st.ret.m_verts.length) :
    ∀ f ∈ st2.ret.m_faces, f.v0 < st2.ret.m_verts.length ∧ f.v1 < st2.ret.m_verts.length ∧
      f.v2 < st2.ret.m_verts.length := by
  induction idx generalizing st with
  | nil =>
    injection h with h
    subst h
    exact hst
  | cons i idx ih =>
    simp only [fanLine] at h
    cases hE : emplaceFace ops { st with vc := i - 1 } with
    | error e => rw [hE] at h; cases h
    | ok st1 =>
      rw [hE] at h
      exact ih h (emplaceFace_inStore hE hst)

theorem pass2Line_inStore {F : Type} [Zero F] {ops : Point3Ops F} {l : Line F}
    {st st2 : LoadState F} (h : pass2Line ops st l = Except.ok st2)
    (hst : ∀ f ∈ st.ret.m_faces, f.v0 < st.ret.m_verts.length ∧ f.v1 < st.ret.m_verts.length ∧
      f.v2 < st.ret.m_verts.length) :
    ∀ f ∈ st2.ret.m_faces, f.v0 < st2.ret.m_verts.length ∧ f.v1 < st2.ret.m_verts.length ∧
      f.v2 < st2.ret.m_verts.length := by
  cases l with
  | blank => injection h with h; subst h; exact hst
  | skip text => injection h with h; subst h; exact hst
  | vdir kw text => injection h with h; subst h; exact hst
  | vertex x y z p =>
    by_cases hnv : st.nv < st.ret.m_verts.length
    · simp only [pass2Line, storeVertex, hnv, if_true] at h
      injection h with h
      subst h
      simpa using hst
    · simp only [pass2Line, storeVertex, hnv, if_false] at h
      cases h
  | face g cs =>
    simp only [pass2Line] at h
    split at h
    · rename_i st1 hE
      refine fanLine_inStore _ h (emplaceFace_inStore hE ?_)
      cases g <;> exact hst
    · cases h

/-- Pass 2 builds only faces on slots of the store. -/
theorem pass2Lines_inStore {F : Type} [Zero F] {ops : Point3Ops F} (ls : List (Line F))
    {st st2 : LoadState F} (h : pass2Lines ops st ls = Except.ok st2)
    (hst : ∀ f ∈ st.ret.m_faces, f.v0 < st.ret.m_verts.length ∧ f.v1 < st.ret.m_verts.length ∧
      f.v2 < st.ret.m_verts.length) :
    ∀ f ∈ st2.ret.m_faces, f.v0 < st2.ret.m_verts.length ∧ f.v1 < st2.ret.m_verts.length ∧
      f.v2 < st2.ret.m_verts.length := by
  induction ls generalizing st with
  | nil =>
    injection h with h
    subst h
    exact hst
  | cons l ls ih =>
    simp only [pass2Lines] at h
    cases hE : pass2Line ops st l with
    | error e => rw [hE] at h; cases h
    | ok st1 =>
      rw [hE] at h
      exact ih h (pass2Line_inStore hE hst)

/-! ## Two runs on the same file -/

theorem sameUpTo_of_sameFace {F : Type} {s t : LoadState F} (b : Bool) (h : SameFace s t) :
    SameUpTo b s t :=
  ⟨⟨h.1, h.2.2.2.2⟩, fun _ => ⟨h.2.2.1, h.2.2.2.1⟩⟩

theorem agree_mono {α : Type} {R S : α → α → Prop} (hRS : ∀ a b, R a b → S a b)
    {x y : Except Fault α} (h : Agree R x y) : Agree S x y := by
  cases x <;> cases y <;> simp only [Agree] at h ⊢
  · exact h
  · exact hRS _ _ h

theorem emplaceFace_agree {F : Type} (ops : Point3Ops F) {s t : LoadState F}
    (h : SameFace s t) : Agree SameFace (emplaceFace ops s) (emplaceFace ops t) := by
  obtain ⟨h1, h2, h3, h4, h5⟩ := h
  simp only [emplaceFace, ← h2, ← h3, ← h4, ← h5]
  cases mkFace ops s.ret.m_verts s.va s.vc s.vb with
  | error e => simp [Agree]
  | ok f => simp [Agree, SameFace, h1, h2, h4, h5]

theorem fanLine_agree {F : Type} (ops : Point3Ops F) (idx : List Int) {s t : LoadState F}
    (h : SameFace s t) : Agree SameFace (fanLine ops idx s) (fanLine ops idx t) := by
  induction idx generalizing s t with
  | nil => exact h
  | cons a idx ih =>
    have hs : SameFace { s with vc := a - 1 } { t with vc := a - 1 } :=
      ⟨h.1, h.2.1, h.2.2.1, rfl, h.2.2.2.2⟩
    have hE := emplaceFace_agree ops hs
    simp only [fanLine]
    cases h1 : emplaceFace ops { s with vc := a - 1 } <;>
      cases h2 : emplaceFace ops { t with vc := a - 1 } <;>
      rw [h1, h2] at hE <;> simp only [Agree] at hE
    · exact hE
    · exact ih hE

theorem fanFromLine_agree {F : Type} (ops : Point3Ops F) (idx : List Int) {s t : LoadState F}
    (h : SameFace s t) :
    Agree SameFace
      (match emplaceFace ops s with
        | Except.ok st2 => fanLine ops idx st2
        | Except.error e => Except.error e)
      (match emplaceFace ops t with
        | Except.ok st2 => fanLine ops idx st2
        | Except.error e => Except.error e) := by
  have hE := emplaceFace_agree ops h
  cases h1 : emplaceFace ops s <;> cases h2 : emplaceFace ops t <;>
    rw [h1, h2] at hE <;> simp only [Agree] at hE
  · exact hE
  · exact fanLine_agree ops idx hE

theorem hasTexcoordFace_cons {F : Type} (l : Line F) (ls : List (Line F)) :
    hasTexcoordFace (l :: ls) = (l.isTexcoordFace || hasTexcoordFace ls) := by
  simp [hasTexcoordFace]

theorem getD_of_lt (l : List Int) (k : Nat) (h : k < l.length) (a b : Int) :
    l.getD k a = l.getD k b := by
  simp [List.getD_eq_getElem?_getD, List.getElem?_eq_getElem h]

/-- One line of pass 2 in two runs that hold the same mesh, and the same `vb`
and `vc` if an `i/j` line is still to come. -/
theorem pass2Line_agree {F : Type} [Zero F] (ops : Point3Ops F) (io : Stdio F) (l : Line F)
    (ls : List (Line F)) (hwf : l.WellFormed io) {s t : LoadState F}
    (h : SameUpTo (hasTexcoordFace (l :: ls)) s t) :
    Agree (SameUpTo (hasTexcoordFace ls)) (pass2Line ops s l) (pass2Line ops t l) := by
  obtain ⟨⟨hnv, hret⟩, hb⟩ := h
  rw [hasTexcoordFace_cons] at hb
  have hrest : SameUpTo (hasTexcoordFace ls) s t :=
    ⟨⟨hnv, hret⟩, fun hl => hb (by simp [hl])⟩
  cases l with
  | blank => exact hrest
  | skip text => exact hrest
  | vdir kw text => exact hrest
  | vertex x y z p =>
    simp only [pass2Line, storeVertex, ← hnv, ← hret]
    by_cases hlt : s.nv < s.ret.m_verts.length
    · simp only [hlt, if_true, Agree]
      exact ⟨⟨by simp [hnv], by simp [hret, hnv]⟩, fun hl => hb (by simp [hl])⟩
    · simp only [hlt, if_false, Agree]
  | face g cs =>
    have hlen : 3 ≤ (cs.map (fun c => (c.index : Int))).length := by
      rw [List.length_map]; exact hwf.1
    have h0 := getD_of_lt (cs.map (fun c => (c.index : Int))) 0 (by omega) s.va t.va
    have h1 := getD_of_lt (cs.map (fun c => (c.index : Int))) 1 (by omega) s.vb t.vb
    have h2 := getD_of_lt (cs.map (fun c => (c.index : Int))) 2 (by omega) s.vc t.vc
    have h2a := getD_of_lt (cs.map (fun c => (c.index : Int))) 2 (by omega) s.va t.va
    apply agree_mono (fun a b hab => sameUpTo_of_sameFace _ hab)
    cases g with
    | vt =>
      obtain ⟨hvb, hvc⟩ := hb (by simp [Line.isTexcoordFace])
      simp only [pass2Line, h2a, hvb, hvc]
      exact fanFromLine_agree ops _ ⟨hnv, rfl, rfl, rfl, hret⟩
    | v =>
      simp only [pass2Line, h0, h1, h2]
      exact fanFromLine_agree ops _ ⟨hnv, rfl, rfl, rfl, hret⟩
    | vn =>
      simp only [pass2Line, h0, h1, h2]
      exact fanFromLine_agree ops _ ⟨hnv, rfl, rfl, rfl, hret⟩
    | vtn =>
      simp only [pass2Line, h0, h1, h2]
      exact fanFromLine_agree ops _ ⟨hnv, rfl, rfl, rfl, hret⟩

theorem pass2Lines_agree {F : Type} [Zero F] (ops : Point3Ops F) (io : Stdio F)
    (ls : List (Line F)) (hwf : WellFormedFile io ls) {s t : LoadState F}
    (h : SameUpTo (hasTexcoordFace ls) s t) :
    Agree SameMesh (pass2Lines ops s ls) (pass2Lines ops t ls) := by
  induction ls generalizing s t with
  | nil => exact h.1
  | cons l ls ih =>
    have hL := pass2Line_agree ops io l ls (hwf l (List.mem_cons_self _ _)) h
    simp only [pass2Lines]
    cases h1 : pass2Line ops s l <;> cases h2 : pass2Line ops t l <;>
      rw [h1, h2] at hL <;> simp only [Agree] at hL
    · exact hL
    · exact ih (fun x hx => hwf x (List.mem_cons_of_mem _ hx)) hL

/-- One line of pass 1 in two runs: the mesh and `nv` stay the same, and `vb`
and `vc` are the same after an `i/j` line. -/
theorem pass1Line_agree {F : Type} (io : Stdio F) (l : Line F) (hwf : l.WellFormed io)
    (c : Bool) {s t : LoadState F} (h : SameUpTo c s t) :
    SameUpTo (c || l.isTexcoordFace) (pass1Line s l) (pass1Line t l) := by
  obtain ⟨⟨hnv, hret⟩, hb⟩ := h
  cases l with
  | blank => exact ⟨⟨hnv, hret⟩, fun hc => hb (by simpa [Line.isTexcoordFace] using hc)⟩
  | skip text => exact ⟨⟨hnv, hret⟩, fun hc => hb (by simpa [Line.isTexcoordFace] using hc)⟩
  | vdir kw text => exact ⟨⟨hnv, hret⟩, fun hc => hb (by simpa [Line.isTexcoordFace] using hc)⟩
  | vertex x y z p =>
    exact ⟨⟨by simp [pass1Line, hnv], hret⟩,
      fun hc => hb (by simpa [Line.isTexcoordFace] using hc)⟩
  | face g cs =>
    have hlen : 3 ≤ (cs.map (fun c => (c.index : Int))).length := by
      rw [List.length_map]; exact hwf.1
    have h1 := getD_of_lt (cs.map (fun c => (c.index : Int))) 1 (by omega) s.vb t.vb
    have h2 := getD_of_lt (cs.map (fun c => (c.index : Int))) 2 (by omega) s.vc t.vc
    have h2b := getD_of_lt (cs.map (fun c => (c.index : Int))) 2 (by omega) s.vb t.vb
    cases g with
    | v =>
      refine ⟨⟨hnv, hret⟩, fun hc => ?_⟩
      obtain ⟨hvb, hvc⟩ := hb (by simpa [Line.isTexcoordFace] using hc)
      exact ⟨h2b, by simp only [pass1Line, hvc]⟩
    | vt => exact ⟨⟨hnv, hret⟩, fun _ => ⟨h1, h2⟩⟩
    | vn => exact ⟨⟨hnv, hret⟩, fun _ => ⟨h1, h2⟩⟩
    | vtn => exact ⟨⟨hnv, hret⟩, fun _ => ⟨h1, h2⟩⟩

theorem pass1Lines_agree {F : Type} (io : Stdio F) (ls : List (Line F))
    (hwf : WellFormedFile io ls) (c : Bool) {s t : LoadState F} (h : SameUpTo c s t) :
    SameUpTo (c || hasTexcoordFace ls) (pass1Lines s ls) (pass1Lines t ls) := by
  induction ls generalizing s t c with
  | nil => simpa [hasTexcoordFace, pass1Lines] using h
  | cons l ls ih =>
    have hL := pass1Line_agree io l (hwf l (List.mem_cons_self _ _)) c h
    have hR := ih (fun x hx => hwf x (List.mem_cons_of_mem _ hx)) _ hL
    rw [hasTexcoordFace_cons, ← Bool.or_assoc]
    exact hR

theorem betweenPasses_agree {F : Type} [Zero F] (c : Bool) {s t : LoadState F}
    (h : SameUpTo c s t) : SameUpTo c (betweenPasses s) (betweenPasses t) := by
  obtain ⟨⟨hnv, hret⟩, hb⟩ := h
  exact ⟨⟨rfl, by simp only [betweenPasses, hnv, hret]⟩, hb⟩

/-- The two loops of `loadMesh` on a well formed file end alike whatever the
uninitialised locals hold. -/
theorem loadState_agree {F : Type} [Zero F] (ops : Point3Ops F) (io : Stdio F)
    (ind1 ind2 : Indeterminate F) (ls : List (Line F)) (hwf : WellFormedFile io ls) :
    Agree SameMesh (loadState ops io ind1 (renderFile ls))
      (loadState ops io ind2 (renderFile ls)) := by
  rw [loadState_file ops io ind1 ls hwf, loadState_file ops io ind2 ls hwf]
  have h0 : SameUpTo false (startState ind1) (startState ind2) :=
    ⟨⟨rfl, rfl⟩, fun hc => by cases hc⟩
  have h1 := betweenPasses_agree _ (pass1Lines_agree io ls hwf false h0)
  rw [Bool.false_or] at h1
  exact pass2Lines_agree ops io ls hwf h1

theorem computeBoundingBox_store {F : Type} [LT F] [DecidableRel (fun a b : F => a < b)]
    (io : Stdio F) (g : BoxGarbage F) (m : Mesh F) :
    (computeBoundingBox io g m).m_verts = m.m_verts ∧
      (computeBoundingBox io g m).m_faces = m.m_faces := ⟨rfl, rfl⟩

theorem loadMesh_agree {F : Type} [Zero F] [LT F] [DecidableRel (fun a b : F => a < b)]
    (ops : Point3Ops F) (io : Stdio F) (ind1 ind2 : Indeterminate F) (ls : List (Line F))
    (hwf : WellFormedFile io ls) :
    Agree (fun m1 m2 : Mesh F => m2.m_verts = m1.m_verts ∧ m2.m_faces = m1.m_faces)
      (loadMesh ops io ind1 (some (renderFile ls)))
      (loadMesh ops io ind2 (some (renderFile ls))) := by
  have h := loadState_agree ops io ind1 ind2 ls hwf
  simp only [loadMesh]
  cases h1 : loadState ops io ind1 (renderFile ls) <;>
    cases h2 : loadState ops io ind2 (renderFile ls) <;>
    rw [h1, h2] at h <;> simp only [Agree] at h ⊢
  · exact h
  · obtain ⟨_, hret⟩ := h
    rw [hret]
    exact ⟨rfl, rfl⟩

theorem texcoordFile_wellFormed : WellFormedFile sampleStdio texcoordFile := by
  have h0 : sampleStdio.Reads ['0'] (0 : ExtInt) := sampleStdio_reads ['0'] (by decide)
  have h1 : sampleStdio.Reads ['1'] (1 : ExtInt) := sampleStdio_reads ['1'] (by decide)
  intro l hl
  simp only [texcoordFile, List.mem_cons, List.mem_singleton, List.not_mem_nil, or_false] at hl
  rcases hl with rfl | rfl | rfl | rfl
  · exact ⟨h0, h0, h0, by decide⟩
  · exact ⟨h1, h0, h0, by decide⟩
  · exact ⟨h0, h1, h0, by decide⟩
  · exact ⟨by decide, by decide, by decide⟩

/-! ## Lines without effect -/

theorem pass2Lines_append {F : Type} [Zero F] (ops : Point3Ops F) (st : LoadState F)
    (a b : List (Line F)) :
    pass2Lines ops st (a ++ b)
      = match pass2Lines ops st a with
        | Except.ok st2 => pass2Lines ops st2 b
        | Except.error e => Except.error e := by
  induction a generalizing st with
  | nil => rfl
  | cons l a ih =>
    simp only [List.cons_append, pass2Lines]
    cases pass2Line ops st l with
    | error e => rfl
    | ok st2 => exact ih st2

theorem pass1Line_skipped {F : Type} (st : LoadState F) (l : Line F)
    (hl : l.isSkipped = true) : pass1Line st l = st := by
  cases l <;> first | rfl | cases hl

theorem pass2Line_skipped {F : Type} [Zero F] (ops : Point3Ops F) (st : LoadState F)
    (l : Line F) (hl : l.isSkipped = true) : pass2Line ops st l = Except.ok st := by
  cases l <;> first | rfl | cases hl

theorem pass1Lines_insert {F : Type} (st : LoadState F) (pre post : List (Line F))
    (l : Line F) (hl : l.isSkipped = true) :
    pass1Lines st (pre ++ l :: post) = pass1Lines st (pre ++ post) := by
  simp only [pass1Lines, List.foldl_append, List.foldl_cons, pass1Line_skipped _ l hl]

theorem pass2Lines_insert {F : Type} [Zero F] (ops : Point3Ops F) (st : LoadState F)
    (pre post : List (Line F)) (l : Line F) (hl : l.isSkipped = true) :
    pass2Lines ops st (pre ++ l :: post) = pass2Lines ops st (pre ++ post) := by
  rw [pass2Lines_append, pass2Lines_append]
  cases pass2Lines ops st pre with
  | error e => rfl
  | ok st2 => simp only [pass2Lines, pass2Line_skipped ops st2 l hl]

theorem wellFormedFile_insert {F : Type} (io : Stdio F) (pre post : List (Line F))
    (l : Line F) (hwl : l.WellFormed io) (hwf : WellFormedFile io (pre ++ post)) :
    WellFormedFile io (pre ++ l :: post) := by
  intro x hx
  rcases List.mem_append.1 hx with h | h
  · exact hwf x (List.mem_append_left _ h)
  · rcases List.mem_cons.1 h with h | h
    · rw [h]; exact hwl
    · exact hwf x (List.mem_append_right _ h)

/-- C11. Gouraud traversal.  For every mesh whose faces name slots of its
vertex store, `renderGouraud` with wireframe off issues, between
`glBegin(GL_TRIANGLES)` and `glEnd()`, exactly the (position, vertex normal)
pairs of the triangle stream: the faces in face-list order (the order in which
the importer appended them), the vertices of a face in the order `verts[0]`,
`verts[1]`, `verts[2]`, each pair as the normal of the vertex followed by its
position, and no face normal; the stream has `3 * faceCount` pairs, and being a
function of the mesh it is the same on every call. -/
theorem renderGouraud_stream {F : Type} [Zero F] (m : Mesh F) (hm : m.FacesInStore) :
    renderGouraud m false
        = GLCall.glBeginTriangles :: ((trianglePairs m).flatMap sendPair ++ [GLCall.glEnd]) ∧
    (trianglePairs m).length = 3 * m.m_faces.length ∧
    trianglePairs m
        = m.m_faces.flatMap (fun f =>
            [(m.pos f.v0, m.vertexNormal f.v0), (m.pos f.v1, m.vertexNormal f.v1),
             (m.pos f.v2, m.vertexNormal f.v2)]) := by
  refine ⟨?_, ?_, rfl⟩
  · have key : ∀ (fs : List (Face F)),
        (∀ f ∈ fs, f.v0 < m.m_verts.length ∧ f.v1 < m.m_verts.length ∧
          f.v2 < m.m_verts.length) →
        fs.flatMap (fun f => renderFaceVerts m f true)
          = (fs.flatMap (fun f => f.verts.map (fun i => (m.pos i, m.vertexNormal i)))).flatMap
              sendPair := by
      intro fs hfs
      rw [flatMap_flatMap]
      induction fs with
      | nil => rfl
      | cons f fs ih =>
        obtain ⟨h0, h1, h2⟩ := hfs f (List.mem_cons_self f fs)
        rw [List.flatMap_cons, List.flatMap_cons, renderFaceVerts_inStore m f h0 h1 h2,
          ih (fun g hg => hfs g (List.mem_cons_of_mem f hg))]
    have := key m.m_faces hm
    simp only [renderGouraud, render, trianglePairs] at this ⊢
    simp [this]
  · unfold trianglePairs
    generalize m.m_faces = fs
    induction fs with
    | nil => rfl
    | cons f fs ih =>
      rw [List.flatMap_cons, List.length_append, ih]
      simp [Face.verts]
      omega

/-- C11 at the mesh of the unit square: two faces, six pairs. -/
theorem renderGouraud_stream_witness :
    squareMesh.FacesInStore ∧ (trianglePairs squareMesh).length = 6 ∧
    renderGouraud squareMesh false
      = GLCall.glBeginTriangles
          :: ((trianglePairs squareMesh).flatMap sendPair ++ [GLCall.glEnd]) :=
  ⟨by intro f hf; revert f; decide, by decide,
   (renderGouraud_stream squareMesh (by intro f hf; revert f; decide)).1⟩

/-- C12: the code at the failing input.  The file of the unit square is
loaded twice, the two runs finding different values left in the uninitialised
locals.  Both runs return a mesh with the same vertices and the same faces, but
the bounding box of the first is `(-5, -5, 0)`, `(5, 5, 0)` and that of the
second is `(0, 0, 0)`, `(8, 1, 0)`: `computeBoundingBox` starts its `x` and `y`
extrema from what the locals `min_x`, `min_y`, `max_x`, `max_y` happen to hold,
so the mesh returned is not a function of the file alone. -/
theorem loadMesh_box_differs_between_runs :
    ∃ m1 m2,
      loadMesh sampleOps sampleStdio sampleGarbage
        (some "v 0 0 0\nv 1 0 0\nv 1 1 0\nv 0 1 0\nf 1 2 3 4\n".toList) = Except.ok m1 ∧
      loadMesh sampleOps sampleStdio otherGarbage
        (some "v 0 0 0\nv 1 0 0\nv 1 1 0\nv 0 1 0\nf 1 2 3 4\n".toList) = Except.ok m2 ∧
      m1.m_verts = m2.m_verts ∧ m1.m_faces = m2.m_faces ∧
      m1.bbmin = ⟨((-5 : ℤ) : ExtInt), ((-5 : ℤ) : ExtInt), 0⟩ ∧ m1.bbmax = ⟨5, 5, 0⟩ ∧
      m2.bbmin = ⟨0, 0, 0⟩ ∧ m2.bbmax = ⟨8, 1, 0⟩ ∧ m1 ≠ m2 :=
  ⟨_, _, rfl, rfl, by decide, by decide, by decide, by decide, by decide, by decide,
    by decide⟩

/-- Vertices and faces do not depend on the uninitialised locals of
`loadMesh`.  For every well formed file, whichever of the
four face syntaxes its face lines use, and for any two sets of values the
uninitialised locals of `loadMesh` may hold, the two runs of `loadMesh` on the
characters of the file end alike: when one returns a mesh the other returns a
mesh with the same vertex list (positions and vertex normals) and the same
face list (slots and face normals), and when one stops with a fault the other
stops with the same fault; and when the face lines are written `i`, `i//k` or
`i/j/k` with indices in range, both runs do return such meshes.  The bounding
box fields `bbmin` and `bbmax` are not part of this statement. -/
theorem loadMesh_deterministic {F : Type} [Zero F] [LT F]
    [DecidableRel (fun a b : F => a < b)]
    (ops : Point3Ops F) (io : Stdio F) (ind1 ind2 : Indeterminate F) (ls : List (Line F))
    (hwf : WellFormedFile io ls) :
    (∀ m1, loadMesh ops io ind1 (some (renderFile ls)) = Except.ok m1 →
      ∃ m2, loadMesh ops io ind2 (some (renderFile ls)) = Except.ok m2 ∧
        m2.m_verts = m1.m_verts ∧ m2.m_faces = m1.m_faces) ∧
    (∀ e, loadMesh ops io ind1 (some (renderFile ls)) = Except.error e →
      loadMesh ops io ind2 (some (renderFile ls)) = Except.error e) ∧
    (FacesInRange ls →
      ∃ m1 m2, loadMesh ops io ind1 (some (renderFile ls)) = Except.ok m1 ∧
        loadMesh ops io ind2 (some (renderFile ls)) = Except.ok m2 ∧
        m2.m_verts = m1.m_verts ∧ m2.m_faces = m1.m_faces) := by
  have h := loadMesh_agree ops io ind1 ind2 ls hwf
  have hA : ∀ m1, loadMesh ops io ind1 (some (renderFile ls)) = Except.ok m1 →
      ∃ m2, loadMesh ops io ind2 (some (renderFile ls)) = Except.ok m2 ∧
        m2.m_verts = m1.m_verts ∧ m2.m_faces = m1.m_faces := by
    intro m1 h1
    rw [h1] at h
    cases h2 : loadMesh ops io ind2 (some (renderFile ls)) with
    | error e => rw [h2] at h; exact h.elim
    | ok m2 => rw [h2] at h; exact ⟨m2, rfl, h⟩
  refine ⟨hA, ?_, ?_⟩
  · intro e h1
    rw [h1] at h
    cases h2 : loadMesh ops io ind2 (some (renderFile ls)) with
    | error e2 => rw [h2] at h; simp only [Agree] at h; rw [h]
    | ok m2 => rw [h2] at h; exact h.elim
  · intro hin
    obtain ⟨st, h1⟩ := loadState_file_defined ops io ind1 ls hwf hin
    obtain ⟨m1, hm1, _⟩ := loadMesh_of_loadState ops io ind1 _ st h1
    obtain ⟨m2, hm2, hv, hf⟩ := hA m1 hm1
    exact ⟨m1, m2, hm1, hm2, hv, hf⟩

/-- The same at the file of three `v` lines and the face line `f 1/1 2/2 3/3`, with
two different sets of left-over values in the uninitialised locals. -/
theorem loadMesh_deterministic_witness :
    WellFormedFile sampleStdio texcoordFile ∧
    ∀ m1, loadMesh sampleOps sampleStdio sampleGarbage (some (renderFile texcoordFile))
        = Except.ok m1 →
      ∃ m2, loadMesh sampleOps sampleStdio otherGarbage (some (renderFile texcoordFile))
          = Except.ok m2 ∧ m2.m_verts = m1.m_verts ∧ m2.m_faces = m1.m_faces :=
  ⟨texcoordFile_wellFormed,
   (loadMesh_deterministic sampleOps sampleStdio sampleGarbage otherGarbage texcoordFile
      texcoordFile_wellFormed).1⟩

/-- C13: the code.  When `fopen` returns a null pointer, `loadMesh` logs the
failure and calls `exit(EXIT_FAILURE)`: the process ends, and the caller gets
neither a mesh nor an error value. -/
theorem loadMesh_exits_when_file_cannot_be_opened {F : Type} [Zero F] [LT F]
    [DecidableRel (fun a b : F => a < b)] (ops : Point3Ops F) (io : Stdio F)
    (ind : Indeterminate F) :
    loadMesh ops io ind none = Except.error Fault.exitFailure ∧
    ∀ mesh, loadMesh ops io ind none ≠ Except.ok mesh :=
  ⟨rfl, fun _ h => by cases h⟩

/-- C14: the code at the failing input.  The file `v 0 0 0`, `v 1 0 0`,
`v 0 1 0`, `f 1 2 3`, `# end` gives three vertices and the one face
`(0, 2, 1)`.  With a `#` line of 136 characters and its newline put between the third `v` line
and the `f` line, the `fgets(buf, sizeof(buf), file)` that is to eat up the
rest of the line takes 127 characters of it, and what is left of the comment,
`v 1 1 0`, is read as a vertex line in both passes: the mesh returned has four
vertices. -/
theorem long_comment_line_changes_import :
    (loadMesh sampleOps sampleStdio sampleGarbage
        (some ("v 0 0 0\nv 1 0 0\nv 0 1 0\n".toList ++ "f 1 2 3\n# end\n".toList))).map
      (fun m => (m.m_verts.length, m.m_faces.map Face.verts)) = Except.ok (3, [[0, 2, 1]]) ∧
    ('#' :: ' ' :: List.replicate 126 '-' ++ " v 1 1 0\n".toList).length = 137 ∧
    (loadMesh sampleOps sampleStdio sampleGarbage
        (some ("v 0 0 0\nv 1 0 0\nv 0 1 0\n".toList
          ++ ('#' :: ' ' :: List.replicate 126 '-' ++ " v 1 1 0\n".toList)
          ++ "f 1 2 3\n# end\n".toList))).map
      (fun m => (m.m_verts.length, m.m_faces.map Face.verts)) = Except.ok (4, [[0, 2, 1]]) ∧
    (loadState sampleOps sampleStdio sampleGarbage
        ("v 0 0 0\nv 1 0 0\nv 0 1 0\n".toList
          ++ ('#' :: ' ' :: List.replicate 126 '-' ++ " v 1 1 0\n".toList)
          ++ "f 1 2 3\n# end\n".toList)).map (fun st => (st.nv, st.nf))
        = Except.ok (4, 1) :=
  ⟨rfl, rfl, rfl, rfl⟩

/-- A line led by a number, put after a face line, is read by the fan loop of
that face line as one more index: with `2 triangles` between `f 1 2 3` and
`# end` the mesh has the second face `(0, 1, 2)`. -/
theorem number_led_line_read_as_index :
    (loadMesh sampleOps sampleStdio sampleGarbage
        (some "v 0 0 0\nv 1 0 0\nv 0 1 0\nf 1 2 3\n2 triangles\n# end\n".toList)).map
      (fun m => (m.m_verts.length, m.m_faces.map Face.verts))
        = Except.ok (3, [[0, 2, 1], [0, 1, 2]]) :=
  rfl

/-- Lines the code does pass over.  For every well formed file, putting one
more well formed line that is empty, or led by `#` or by another token that
starts with none of `v`, `f`, white space, a digit or a sign and is at most 126
characters long, or is a `vn`/`vt` line, between any two of its lines (or
before the first, or after the last) changes nothing: pass 1 ends in the same
state, so with the same vertex and face counts, the two loops of `loadMesh` end
in the same state, and `loadMesh` returns the same mesh or stops with the same
fault. -/
theorem skipped_line_has_no_effect {F : Type} [Zero F] [LT F]
    [DecidableRel (fun a b : F => a < b)]
    (ops : Point3Ops F) (io : Stdio F) (ind : Indeterminate F) (pre post : List (Line F))
    (l : Line F) (hl : l.isSkipped = true) (hwl : l.WellFormed io)
    (hwf : WellFormedFile io (pre ++ post)) :
    (∀ k, pass1 (k + 1 + fileCost (pre ++ l :: post)) (renderFile (pre ++ l :: post))
        (startState ind)
      = pass1 (k + 1 + fileCost (pre ++ post)) (renderFile (pre ++ post)) (startState ind)) ∧
    loadState ops io ind (renderFile (pre ++ l :: post))
      = loadState ops io ind (renderFile (pre ++ post)) ∧
    loadMesh ops io ind (some (renderFile (pre ++ l :: post)))
      = loadMesh ops io ind (some (renderFile (pre ++ post))) := by
  have hwf2 := wellFormedFile_insert io pre post l hwl hwf
  have hS : loadState ops io ind (renderFile (pre ++ l :: post))
      = loadState ops io ind (renderFile (pre ++ post)) := by
    rw [loadState_file ops io ind _ hwf2, loadState_file ops io ind _ hwf,
      pass1Lines_insert _ pre post l hl, pass2Lines_insert ops _ pre post l hl]
  refine ⟨fun k => ?_, hS, ?_⟩
  · rw [pass1_file io _ hwf2 k, pass1_file io _ hwf k, pass1Lines_insert _ pre post l hl]
  · simp only [loadMesh, hS]

/-- The file of the unit square with the line `# note` put after its third
line loads as the file of the unit square does. -/
theorem skipped_line_has_no_effect_at_square :
    loadMesh sampleOps sampleStdio sampleGarbage
        (some (renderFile (squareFile.take 3 ++ Line.skip "# note".toList :: squareFile.drop 3)))
      = loadMesh sampleOps sampleStdio sampleGarbage
        (some (renderFile (squareFile.take 3 ++ squareFile.drop 3))) :=
  (skipped_line_has_no_effect sampleOps sampleStdio sampleGarbage (squareFile.take 3)
    (squareFile.drop 3) (Line.skip "# note".toList) rfl ⟨by decide, by decide⟩
    (by rw [List.take_append_drop]; exact squareFile_wellFormed)).2.2

/-- C17: the code at the failing input.  The file has three `v` lines, each with
three numbers, one `#` line and the face line `f 1 2 3`, whose indices lie
between 1 and 3.  The `#` line has 136 characters and its newline; `fgets`
takes 127 characters of it and the rest, `f 1 2 9`, is read as a face line: in
pass 2 the code forms `m_verts[8]` on a store of three vertices. -/
theorem long_comment_line_leaves_the_store :
    ('#' :: ' ' :: List.replicate 126 '-' ++ " f 1 2 9\n".toList).length = 137 ∧
    (loadState sampleOps sampleStdio sampleGarbage
        ("v 0 0 0\nv 1 0 0\nv 0 1 0\n".toList ++ "f 1 2 3\n".toList)).map
      (fun st => (st.ret.m_verts.length, st.ret.m_faces.map Face.verts))
        = Except.ok (3, [[0, 2, 1]]) ∧
    loadMesh sampleOps sampleStdio sampleGarbage
        (some ("v 0 0 0\nv 1 0 0\nv 0 1 0\n".toList
          ++ ('#' :: ' ' :: List.replicate 126 '-' ++ " f 1 2 9\n".toList)
          ++ "f 1 2 3\n".toList)) = Except.error Fault.outOfRange :=
  ⟨rfl, rfl, rfl⟩

/-- Index safety on well formed files.  For every well formed file whose `v`
lines carry three
numbers and whose face lines are written `i`, `i//k` or `i/j/k` with at least
three indices, each between 1 and the number of `v` lines, the two loops of
`loadMesh` run to their end without a subscript of `m_verts` leaving
`0 .. vertexCount - 1`: the writes `m_verts[nv]` are those for `nv = 0 ..
vertexCount - 1`, every face built names three slots below `vertexCount`, and
`loadMesh` returns a mesh. -/
theorem loadMesh_subscripts_in_range {F : Type} [Zero F] [LT F]
    [DecidableRel (fun a b : F => a < b)]
    (ops : Point3Ops F) (io : Stdio F) (ind : Indeterminate F) (ls : List (Line F))
    (hwf : WellFormedFile io ls) (hin : FacesInRange ls) :
    (∃ st, loadState ops io ind (renderFile ls) = Except.ok st ∧
        st.ret.m_verts.length = (vertexLines ls).length ∧ st.nv = (vertexLines ls).length ∧
        ∀ f ∈ st.ret.m_faces, f.v0 < (vertexLines ls).length ∧
          f.v1 < (vertexLines ls).length ∧ f.v2 < (vertexLines ls).length) ∧
    (∃ mesh, loadMesh ops io ind (some (renderFile ls)) = Except.ok mesh ∧ mesh.FacesInStore) ∧
    loadMesh ops io ind (some (renderFile ls)) ≠ Except.error Fault.outOfRange := by
  obtain ⟨st, h1⟩ := loadState_file_defined ops io ind ls hwf hin
  obtain ⟨c1, _, c3⟩ := loadState_file_ok ls hwf h1
  have hlen : st.ret.m_verts.length = (vertexLines ls).length := by rw [c1]; simp
  have h1b := h1
  rw [loadState_file ops io ind ls hwf] at h1b
  have hfaces := pass2Lines_inStore ls h1b (by
    rw [(betweenPasses_file ind ls).2.1]
    intro f hf
    cases hf)
  obtain ⟨mesh, h2, h3, h4⟩ := loadMesh_of_loadState ops io ind _ st h1
  have hlen2 : mesh.m_verts.length = st.ret.m_verts.length := by
    have := congrArg List.length h4
    simpa using this
  refine ⟨⟨st, h1, hlen, c3, ?_⟩, ⟨mesh, h2, ?_⟩, ?_⟩
  · intro f hf
    rw [← hlen]
    exact hfaces f hf
  · intro f hf
    rw [h3] at hf
    rw [hlen2]
    exact hfaces f hf
  · rw [h2]
    intro h
    cases h

/-- Index safety at the file of the unit square. -/
theorem loadMesh_subscripts_in_range_witness :
    WellFormedFile sampleStdio squareFile ∧ FacesInRange squareFile ∧
    ∃ mesh, loadMesh sampleOps sampleStdio sampleGarbage (some (renderFile squareFile))
        = Except.ok mesh ∧ mesh.FacesInStore :=
  ⟨squareFile_wellFormed, by decide,
   (loadMesh_subscripts_in_range sampleOps sampleStdio sampleGarbage squareFile
      squareFile_wellFormed (by decide)).2.1⟩

/-- C18. `computeNormalsPerVertex` is idempotent: for every mesh, running it a
second time returns the mesh the first run returned, because the reset wipes
the vertex normals and the accumulation reads only the face list and the
stored face normals; likewise a second `init` leaves the vertices (and so the
vertex normals) and the faces of the first `init`, whatever the uninitialised
locals of `computeBoundingBox` hold. -/
theorem computeNormalsPerVertex_idempotent {F : Type} [Zero F] [LT F]
    [DecidableRel (fun a b : F => a < b)] (ops : Point3Ops F) (io : Stdio F) (m : Mesh F) :
    computeNormalsPerVertex ops (computeNormalsPerVertex ops m) = computeNormalsPerVertex ops m ∧
    ∀ g1 g2 : BoxGarbage F,
      (init ops io g2 (init ops io g1 m)).m_verts = (init ops io g1 m).m_verts ∧
      (init ops io g2 (init ops io g1 m)).m_faces = (init ops io g1 m).m_faces := by
  have hreset : (computeNormalsPerVertex ops m).m_verts.map
        (fun v : Vertex F => { v with normal := Point3.origin })
      = m.m_verts.map (fun v : Vertex F => { v with normal := Point3.origin }) := by
    simp only [computeNormalsPerVertex, List.map_map]
    have h1 : ((fun v : Vertex F => { v with normal := (Point3.origin : Point3 F) }) ∘
        fun v : Vertex F => { v with normal := ops.normalize v.normal })
        = fun v : Vertex F => { v with normal := Point3.origin } := rfl
    have hR := map_foldl_accumulateFace ops
      (fun v : Vertex F => (⟨v.point, Point3.origin⟩ : Vertex F)) (fun _ _ => rfl) m.m_faces
      (m.m_verts.map (fun v : Vertex F => (⟨v.point, Point3.origin⟩ : Vertex F)))
    rw [h1]
    exact hR.trans (by rw [List.map_map]; rfl)
  have h : computeNormalsPerVertex ops (computeNormalsPerVertex ops m)
      = computeNormalsPerVertex ops m := by
    have e : computeNormalsPerVertex ops (computeNormalsPerVertex ops m)
        = { computeNormalsPerVertex ops m with
            m_verts := ((computeNormalsPerVertex ops m).m_faces.foldl (accumulateFace ops)
              ((computeNormalsPerVertex ops m).m_verts.map
                (fun v : Vertex F => { v with normal := Point3.origin }))).map
              (fun v : Vertex F => { v with normal := ops.normalize v.normal }) } := rfl
    rw [e, hreset]
    rfl
  refine ⟨h, fun g1 g2 => ⟨?_, rfl⟩⟩
  have e1 : (init ops io g2 (init ops io g1 m)).m_verts
      = (computeNormalsPerVertex ops (init ops io g1 m)).m_verts := rfl
  have e2 : computeNormalsPerVertex ops (init ops io g1 m)
      = { computeNormalsPerVertex ops (computeNormalsPerVertex ops m) with
          bbmin := (init ops io g1 m).bbmin, bbmax := (init ops io g1 m).bbmax } := rfl
  rw [e1, e2, h]
  rfl

end agl

namespace game

/-! ## The state machine -/

/-- C16: the code at the failing input.  The game is in state `GAME`, started,
not in its final stage, with 50 ticks left, and the last of its three rings is
the current one; the step comes 100 ticks later and the ship crosses that ring
in it.  `checkTime` finds the deadline expired (`-50 < 0`), clears `m_victory`
and enters `END`; `gameAction` goes on to `checkRings`, which calls
`goToVictory`: `m_victory` is set again and `changeState(END)` returns at once.
The step ends in state `END` with `m_victory == true`. -/
theorem timeout_step_ends_as_victory :
    lastRingGame.m_state = State.GAME ∧ lastRingGame.m_game_started = true ∧
    (checkTime inertExternals lastRingGame lateCrossing.ticks).m_deadline_time = -50 ∧
    (checkTime inertExternals lastRingGame lateCrossing.ticks).m_state = State.END ∧
    (checkTime inertExternals lastRingGame lateCrossing.ticks).m_victory = false ∧
    (gameAction inertExternals lastRingGame lateCrossing).map
      (fun g => (g.m_state, g.m_victory)) = some (State.END, true) :=
  ⟨rfl, rfl, by decide, by decide, by decide, by decide⟩

/-- C19. Transition relation of the state machine.  When the absent functions
`splash`, `openSettings` and `gameOver` leave `m_state` as it is, then for
every game `g` in state `s` and every requested state `n`: after
`changeState(n)` the state is `n` if `(s, n)` is one of `SPLASH -> GAME`,
`MENU -> GAME`, `GAME -> MENU`, `GAME -> END`, `END -> GAME` with
`m_restart_game` set, or `n = SPLASH` with `s != SPLASH` and either the game
not started or `s = MENU` with `m_restart_game` set, and it is `s` otherwise,
`n = s` included; so the state changes exactly on those transitions, and `END`
and `MENU` are entered from `GAME` only. -/
theorem changeState_transitions (x : Externals)
    (hsplash : ∀ g, (x.splash g).m_state = g.m_state)
    (hsettings : ∀ g, (x.openSettings g).m_state = g.m_state)
    (hover : ∀ g, (x.gameOver g).m_state = g.m_state)
    (g : Game) (n : State) :
    (changeState x g n).m_state = (if transitionAllowed g n then n else g.m_state) ∧
    (((changeState x g n).m_state = n ∧ n ≠ g.m_state) ↔ transitionAllowed g n = true) ∧
    (transitionAllowed g n = true ↔
      (g.m_state = State.SPLASH ∧ n = State.GAME) ∨ (g.m_state = State.MENU ∧ n = State.GAME) ∨
      (g.m_state = State.GAME ∧ n = State.MENU) ∨ (g.m_state = State.GAME ∧ n = State.END) ∨
      (g.m_state = State.END ∧ n = State.GAME ∧ g.m_restart_game = true) ∨
      (n = State.SPLASH ∧ g.m_state ≠ State.SPLASH ∧
        (g.m_game_started = false ∨ (g.m_state = State.MENU ∧ g.m_restart_game = true)))) ∧
    ((changeState x g n).m_state = State.END → g.m_state = State.END ∨ g.m_state = State.GAME) ∧
    ((changeState x g n).m_state = State.MENU →
      g.m_state = State.MENU ∨ g.m_state = State.GAME) := by
  have hrestart : ∀ g0 : Game, (restartGame g0).m_state = g0.m_state := fun _ => rfl
  have key : (changeState x g n).m_state = (if transitionAllowed g n then n else g.m_state) := by
    rcases g with ⟨s, vic, fl, flon, started, restart, fin, dl, pt, lt, pen, cur, num, rings⟩
    cases s <;> cases n <;> cases started <;> cases restart <;>
      simp [changeState, transitionAllowed, hsplash, hsettings, hover, hrestart, playGame]
  have hiff : transitionAllowed g n = true ↔
      (g.m_state = State.SPLASH ∧ n = State.GAME) ∨ (g.m_state = State.MENU ∧ n = State.GAME) ∨
      (g.m_state = State.GAME ∧ n = State.MENU) ∨ (g.m_state = State.GAME ∧ n = State.END) ∨
      (g.m_state = State.END ∧ n = State.GAME ∧ g.m_restart_game = true) ∨
      (n = State.SPLASH ∧ g.m_state ≠ State.SPLASH ∧
        (g.m_game_started = false ∨ (g.m_state = State.MENU ∧ g.m_restart_game = true))) := by
    rcases g with ⟨s, vic, fl, flon, started, restart, fin, dl, pt, lt, pen, cur, num, rings⟩
    cases s <;> cases n <;> cases started <;> cases restart <;> simp [transitionAllowed]
  have hne : transitionAllowed g n = true → n ≠ g.m_state := by
    rcases g with ⟨s, vic, fl, flon, started, restart, fin, dl, pt, lt, pen, cur, num, rings⟩
    cases s <;> cases n <;> simp [transitionAllowed]
  refine ⟨key, ⟨?_, ?_⟩, hiff, ?_, ?_⟩
  · rintro ⟨h1, h2⟩
    by_contra hna
    rw [key, if_neg hna] at h1
    exact h2 h1.symm
  · intro ha
    exact ⟨by rw [key, if_pos ha], hne ha⟩
  · intro h
    rw [key] at h
    by_cases ha : transitionAllowed g n = true
    · rw [if_pos ha] at h
      subst h
      rcases hiff.1 ha with h | h | h | h | h | h
      · exact absurd h.2 (by decide)
      · exact absurd h.2 (by decide)
      · exact absurd h.2 (by decide)
      · exact Or.inr h.1
      · exact absurd h.2.1 (by decide)
      · exact absurd h.1 (by decide)
    · rw [if_neg ha] at h
      exact Or.inl h
  · intro h
    rw [key] at h
    by_cases ha : transitionAllowed g n = true
    · rw [if_pos ha] at h
      subst h
      rcases hiff.1 ha with h | h | h | h | h | h
      · exact absurd h.2 (by decide)
      · exact absurd h.2 (by decide)
      · exact Or.inr h.1
      · exact absurd h.2 (by decide)
      · exact absurd h.2.1 (by decide)
      · exact absurd h.1 (by decide)
    · rw [if_neg ha] at h
      exact Or.inl h

/-- C19 at the game of the last ring, asked for the state `END`, with absent
functions that change nothing. -/
theorem changeState_transitions_witness :
    (changeState inertExternals lastRingGame State.END).m_state = State.END :=
  (changeState_transitions inertExternals (fun _ => rfl) (fun _ => rfl) (fun _ => rfl)
    lastRingGame State.END).1

end game

namespace coordinateGenerator

/-! ## The quadrant of a generated coordinate -/

/-- C15: the code at the failing input.  In `secondQuadCoord2D`, quadrant
number 1, a first draw below 1 leaves `angle = 90` degrees; `angle` is an `int`,
so `angle *= M_PI / 180.0f` stores 1, the product 1.57.. truncated, and the
same holds for every draw up to 24.  The angle of the point returned is 1
radian, below `pi / 2`, in the first quadrant and not between 90 and 180
degrees: with `d = 30` the point is `(30 cos 1, 30 sin 1)`, with `x > 0`.
Quadrant number 0 with the draw 60 gives the same angle, 1 radian, and the
quadrant numbers 2 and 3 with the draw 0 give 3 and 4 radians. -/
theorem secondQuadCoord2D_angle_truncated :
    genAngle2D 1 0 = 1 ∧
    (List.range 25).all (fun draw => genAngle2D 1 draw == 1) = true ∧
    ((genAngle2D 1 0 : Int) : ℝ) < Real.pi / 2 ∧
    secondQuadCoord2D ⟨fun a => Real.cos a, fun a => Real.sin a, fun a b => a * b⟩ 0 (30 : ℝ)
      = (30 * Real.cos 1, 30 * Real.sin 1) ∧
    0 < (secondQuadCoord2D ⟨fun a => Real.cos a, fun a => Real.sin a, fun a b => a * b⟩
      0 (30 : ℝ)).1 ∧
    genAngle2D 0 60 = 1 ∧ genAngle2D 2 0 = 3 ∧ genAngle2D 3 0 = 4 := by
  have h1 : genAngle2D 1 0 = 1 := by decide
  have hpt : secondQuadCoord2D ⟨fun a => Real.cos a, fun a => Real.sin a, fun a b => a * b⟩
      0 (30 : ℝ) = (30 * Real.cos 1, 30 * Real.sin 1) := by
    simp only [secondQuadCoord2D, genCoord2D, h1, Int.cast_one]
  refine ⟨h1, by decide, ?_, hpt, ?_, by decide, by decide, by decide⟩
  · rw [h1, Int.cast_one]
    have := Real.pi_gt_three
    linarith
  · rw [hpt]
    exact mul_pos (by norm_num) Real.cos_one_pos

end coordinateGenerator
